import Mathlib

/-! # pairedBamToBed12

A shallow embedding of `src/pairedBamToBed12/pairedBamToBed12.cpp`:
`ParseCigarBed12`, `PrintPairedBed12`, the record loop and the summary of
`ConvertPairedBamToBed12`, followed by theorems about them.

Machine integers: `unsigned int` values are natural numbers reduced modulo
`2^32` (`wrap32`); `int` values (the local `blockLength`, the entries of the two
`vector<int>`, everything printed with `%d`) are integers obtained from a 32-bit
pattern by `toInt32`; an `int` used in unsigned arithmetic goes through `toU32`.
-/

namespace PairedBamToBed12

/-! ## Machine arithmetic -/

/-- Reduction of a natural number to the range of `unsigned int`. -/
def wrap32 (n : Nat) : Nat := n % 4294967296

/-- The `int` whose 32-bit two's complement pattern is `n` modulo `2^32`. -/
def toInt32 (n : Nat) : Int :=
  if n % 4294967296 < 2147483648 then ((n % 4294967296 : Nat) : Int)
  else ((n % 4294967296 : Nat) : Int) - 4294967296

/-- Conversion of an `int` to `unsigned int`. -/
def toU32 (z : Int) : Nat := (z % 4294967296).toNat

/-! ## Data model (BamTools `CigarOp` and the fields of `BamAlignment` that are read) -/

/-- One CIGAR operation: `char Type; uint32_t Length`. -/
structure CigarOp where
  OpType : Char
  Length : Nat
deriving DecidableEq, Repr

/-- The fields of a BamTools `BamAlignment` used by the program. The three
booleans are the results of `IsProperPair()`, `IsFirstMate()` and
`IsReverseStrand()`. -/
structure BamAlignment where
  Name : String
  RefID : Int
  Position : Int
  MapQuality : Nat
  IsProperPair : Bool
  IsFirstMate : Bool
  IsReverseStrand : Bool
  CigarData : List CigarOp
deriving DecidableEq, Repr

/-! ## `ParseCigarBed12` -/

/-- The variables `ParseCigarBed12` updates while it walks the CIGAR:
the by-reference `currStart`, the two by-reference vectors and the local
`blockLength`. -/
structure CigarState where
  currStart : Nat
  blockStarts : List Int
  blockLengths : List Int
  blockLength : Int
deriving DecidableEq, Repr

/-- The body shared by `case 'N'` and by `case 'D'` under `delAsBlock`:
push the next block start and the finished block length, advance, reset. -/
def closeBlock (s : CigarState) (len : Nat) : CigarState :=
  { currStart := wrap32 (s.currStart + len)
    blockStarts := s.blockStarts ++ [toInt32 (s.currStart + len)]
    blockLengths := s.blockLengths ++ [s.blockLength]
    blockLength := 0 }

/-- The body of `case 'M'` and of `case 'D'` without `delAsBlock`:
`blockLength += Length; currStart += Length`. -/
def extendBlock (s : CigarState) (len : Nat) : CigarState :=
  { s with
    blockLength := toInt32 (toU32 s.blockLength + len)
    currStart := wrap32 (s.currStart + len) }

/-- One pass through the `switch` of `ParseCigarBed12`. `'M'` falls through to
the `break` of `'I'`, `'N'` falls through to the `break` of `'H'`; every other
character reaches `default`, which prints the error and calls `exit(1)`. -/
def cigarSwitch (delAsBlock : Bool) (s : CigarState) (op : CigarOp) : Except String CigarState :=
  if op.OpType = 'M' then .ok (extendBlock s op.Length)
  else if op.OpType = 'I' then .ok s
  else if op.OpType = 'S' then .ok s
  else if op.OpType = 'D' then
    if delAsBlock = true then .ok (closeBlock s op.Length)
    else .ok (extendBlock s op.Length)
  else if op.OpType = 'P' then .ok s
  else if op.OpType = 'N' then .ok (closeBlock s op.Length)
  else if op.OpType = 'H' then .ok s
  else .error "Invalid Cigar op type"

/-- The `for` loop of `ParseCigarBed12` over the CIGAR operations. -/
def cigarLoop (delAsBlock : Bool) : List CigarOp → CigarState → Except String CigarState
  | [], s => .ok s
  | op :: rest, s =>
    match cigarSwitch delAsBlock s op with
    | .error e => .error e
    | .ok s1 => cigarLoop delAsBlock rest s1

/-- What `ParseCigarBed12` leaves in its by-reference arguments. -/
structure ParseResult where
  currStart : Nat
  blockStarts : List Int
  blockLengths : List Int
  alignmentEnd : Nat
deriving DecidableEq, Repr

/-- `ParseCigarBed12(cigar, delAsBlock, currStart, blockStarts, blockLengths, alignmentEnd)`:
the loop started with `blockLength = 0`, then the last block length is pushed
and `alignmentEnd = currStart`. An error is the `exit(1)` of the `default` arm. -/
def ParseCigarBed12 (cigar : List CigarOp) (delAsBlock : Bool) (currStart : Nat)
    (blockStarts blockLengths : List Int) : Except String ParseResult :=
  match cigarLoop delAsBlock cigar
      { currStart := currStart, blockStarts := blockStarts,
        blockLengths := blockLengths, blockLength := 0 } with
  | .error e => .error e
  | .ok s =>
    .ok { currStart := s.currStart
          blockStarts := s.blockStarts
          blockLengths := s.blockLengths ++ [s.blockLength]
          alignmentEnd := s.currStart }

/-! ## `PrintPairedBed12` -/

/-- The twelve fields of the line `PrintPairedBed12` prints; the numeric fields
hold the values `%d` shows. -/
structure Bed12 where
  chrom : String
  alignmentStart : Int
  alignmentEnd : Int
  name : String
  score : Int
  strand : String
  thickStart : Int
  thickEnd : Int
  color : String
  blockCount : Int
  blockLengths : List Int
  blockStarts : List Int
deriving DecidableEq, Repr

/-- The three ways the process dies: the uncaught `std::out_of_range` thrown by
`refs.at(bam1.RefID)` in `PrintPairedBed12`, the `exit(1)` of the `default` arm of
`ParseCigarBed12`, and the `exit(1)` of the buffer-size test of the record loop. -/
inductive Fatal where
  | refOutOfRange
  | invalidCigarOp
  | sortOrder
deriving DecidableEq, Repr

/-- `refs.at(id).RefName` on the reference table (`RefVector`, a
`std::vector<RefData>` of which only `RefName` is read): the `int32_t` index is
converted to the unsigned `size_type`, so a negative index is out of range like
one past the end; `none` is the thrown `std::out_of_range`. -/
def refsAt (refs : List String) (id : Int) : Option String :=
  if id < 0 then none else refs.get? id.toNat

/-- `PrintPairedBed12(bam1, bam2, refs, delAsBlock, color)`. The chromosome
lookup comes first and throws when `bam1.RefID` is outside the table; then the
two CIGARs are parsed, where `ParseCigarBed12` may call `exit(1)`; both happen
before anything is printed. The two printing loops write every entry of
`blockLengths` and of `blockStarts`. -/
def PrintPairedBed12 (bam1 bam2 : BamAlignment) (refs : List String) (delAsBlock : Bool)
    (color : String) : Except Fatal Bed12 :=
  match refsAt refs bam1.RefID with
  | none => .error Fatal.refOutOfRange
  | some chrom =>
    let strand :=
      if bam1.IsFirstMate = true then (if bam1.IsReverseStrand = true then "-" else "+")
      else (if bam2.IsReverseStrand = true then "-" else "+")
    let name := bam1.Name
    let currPosition1 : Nat := 0
    match ParseCigarBed12 bam1.CigarData delAsBlock currPosition1 [toInt32 currPosition1] [] with
    | .error _ => .error Fatal.invalidCigarOp
    | .ok r1 =>
      let currPosition2 : Nat := toU32 (bam2.Position - bam1.Position)
      match ParseCigarBed12 bam2.CigarData delAsBlock currPosition2
          (r1.blockStarts ++ [toInt32 currPosition2]) r1.blockLengths with
      | .error _ => .error Fatal.invalidCigarOp
      | .ok r2 =>
        let alignmentStart : Nat := toU32 bam1.Position
        let alignmentEnd : Nat := wrap32 (alignmentStart + r2.alignmentEnd)
        .ok { chrom := chrom
              alignmentStart := toInt32 alignmentStart
              alignmentEnd := toInt32 alignmentEnd
              name := name
              score := (bam1.MapQuality : Int) + (bam2.MapQuality : Int)
              strand := strand
              thickStart := if bam1.IsFirstMate = true then bam1.Position else bam2.Position
              thickEnd :=
                if bam1.IsFirstMate = true then toInt32 (toU32 bam1.Position + r1.alignmentEnd)
                else toInt32 alignmentEnd
              color := color
              blockCount := toInt32 r2.blockStarts.length
              blockLengths := r2.blockLengths
              blockStarts := r2.blockStarts }

/-! ## The record loop of `ConvertPairedBamToBed12` -/

/-- Contents of `bamBuffer`, a `std::map<std::string, BamAlignment>`, as the
list of its entries in iteration order. -/
abbrev BamBuffer := List (String × BamAlignment)

/-- The entry stored under `name`, if any (`bamRet.first->second` when the
insertion is refused). -/
def bufferFind (name : String) : BamBuffer → Option BamAlignment
  | [] => none
  | (k, v) :: rest => if k = name then some v else bufferFind name rest

/-- Insertion of a key that is not present yet, at its place in key order: the
lexicographic order of the characters, as for `std::string`. -/
def bufferInsert (name : String) (bam : BamAlignment) : BamBuffer → BamBuffer
  | [] => [(name, bam)]
  | (k, v) :: rest =>
    if name.data < k.data then (name, bam) :: (k, v) :: rest
    else (k, v) :: bufferInsert name bam rest

/-- The `bamBuffer.erase(name)` call. -/
def bufferErase (name : String) (buf : BamBuffer) : BamBuffer :=
  buf.filter (fun kv => decide (kv.1 ≠ name))

/-- The arguments of `ConvertPairedBamToBed12` that the record loop reads,
with the reference table of the opened file (`refs`, the `RefName` of each
entry in order). -/
structure Config where
  trackUnprocessed : Bool
  minMapQuality : Int
  delAsBlock : Bool
  color : String
  refs : List String

/-- The local `bamBufferMaxSize`. -/
def bamBufferMaxSize : Nat := 1000

/-- The variables of the record loop, with what has been printed on standard
output (`bedOut`) and saved through `writer` so far. The four `int` counters are
natural numbers: they only count records read. -/
structure ConvertState where
  notInProperPairBam : Nat
  notPairedInNameBam : Nat
  notHasMinMapQualityBED12 : Nat
  ProcessedBED12 : Nat
  bamBuffer : BamBuffer
  bedOut : List Bed12
  writer : List BamAlignment
deriving DecidableEq, Repr

/-- The state before the first record is read. -/
def ConvertState.init : ConvertState :=
  { notInProperPairBam := 0, notPairedInNameBam := 0, notHasMinMapQualityBED12 := 0,
    ProcessedBED12 := 0, bamBuffer := [], bedOut := [], writer := [] }

/-- Which branch of the loop body a record took. -/
inductive Action where
  | Buffered
  | Emit (bam1 bam2 : BamAlignment) (aggregateQuality : Int)
  | DivertedNotProperPair
  | DivertedBelowQuality (bam1 bam2 : BamAlignment)
deriving DecidableEq, Repr

/-- The ordering step: the record with the smaller `Position` first, the
buffered one first on a tie. -/
def orderPair (bam buffered : BamAlignment) : BamAlignment × BamAlignment :=
  if bam.Position < buffered.Position then (bam, buffered) else (buffered, bam)

/-- The block run once a pair has been emitted or diverted: with
`trackUnprocessed` the matched name is erased and every remaining entry is saved
and counted; then the buffer is cleared. -/
def flushBuffer (cfg : Config) (name : String) (s : ConvertState) : ConvertState :=
  if cfg.trackUnprocessed = true then
    let rest := bufferErase name s.bamBuffer
    { s with
      writer := s.writer ++ rest.map (fun kv => kv.2)
      notPairedInNameBam := s.notPairedInNameBam + rest.length
      bamBuffer := [] }
  else { s with bamBuffer := [] }

/-- The size test that follows the handling of a properly paired record. -/
def checkBufferSize (s : ConvertState) (a : Action) : Except Fatal (ConvertState × Action) :=
  if s.bamBuffer.length > bamBufferMaxSize then .error Fatal.sortOrder else .ok (s, a)

/-- The body of the `while (reader.GetNextAlignment(bam))` loop for one record.
When `PrintPairedBed12` ends the process (the exception of the chromosome lookup
or the `exit(1)` of the CIGAR parser), it does so after `ProcessedBED12++`, before
anything is printed and before the buffer is cleared; the state is then lost. -/
def processRecord (cfg : Config) (s : ConvertState) (bam : BamAlignment) :
    Except Fatal (ConvertState × Action) :=
  if bam.IsProperPair = true then
    match bufferFind bam.Name s.bamBuffer with
    | none =>
      checkBufferSize { s with bamBuffer := bufferInsert bam.Name bam s.bamBuffer } Action.Buffered
    | some buffered =>
      let bam1 := (orderPair bam buffered).1
      let bam2 := (orderPair bam buffered).2
      if (bam1.MapQuality : Int) + (bam2.MapQuality : Int) ≥ cfg.minMapQuality then
        match PrintPairedBed12 bam1 bam2 cfg.refs cfg.delAsBlock cfg.color with
        | .error e => .error e
        | .ok line =>
          checkBufferSize
            (flushBuffer cfg bam.Name
              { s with ProcessedBED12 := s.ProcessedBED12 + 1, bedOut := s.bedOut ++ [line] })
            (Action.Emit bam1 bam2 ((bam1.MapQuality : Int) + (bam2.MapQuality : Int)))
      else
        checkBufferSize
          (flushBuffer cfg bam.Name
            { s with
              notHasMinMapQualityBED12 := s.notHasMinMapQualityBED12 + 1
              writer :=
                if cfg.trackUnprocessed = true then s.writer ++ [bam1, bam2] else s.writer })
          (Action.DivertedBelowQuality bam1 bam2)
  else
    .ok ({ s with
           notInProperPairBam := s.notInProperPairBam + 1
           writer := if cfg.trackUnprocessed = true then s.writer ++ [bam] else s.writer },
         Action.DivertedNotProperPair)

/-- The `while` loop over the records of the input, from state `s`; the actions
of the records processed are collected in order. -/
def convertLoop (cfg : Config) : ConvertState → List BamAlignment →
    Except Fatal (ConvertState × List Action)
  | s, [] => .ok (s, [])
  | s, bam :: rest =>
    match processRecord cfg s bam with
    | .error e => .error e
    | .ok (s1, a) =>
      match convertLoop cfg s1 rest with
      | .error e => .error e
      | .ok (s2, acts) => .ok (s2, a :: acts)

/-! ## Vocabulary of the properties -/

/-- The operation kinds that have a `case` in the `switch`. -/
def validKind (k : Char) : Bool :=
  k == 'M' || k == 'I' || k == 'S' || k == 'D' || k == 'P' || k == 'N' || k == 'H'

/-- A valid operation list: every kind is one of M, I, S, D, P, N, H. -/
def validCigar (ops : List CigarOp) : Prop := ∀ op ∈ ops, validKind op.OpType = true

instance (ops : List CigarOp) : Decidable (validCigar ops) := by
  unfold validCigar; infer_instance

/-- An operation that closes the open block: every N, and every D when
`delAsBlock` is set. -/
def closesBlock (delAsBlock : Bool) (op : CigarOp) : Bool :=
  op.OpType == 'N' || (op.OpType == 'D' && delAsBlock)

/-- Sum of the lengths of the operations of kind `k`. -/
def kindTotal (k : Char) (ops : List CigarOp) : Nat :=
  ((ops.filter (fun op => op.OpType == k)).map (fun op => op.Length)).sum

/-- Number of operations of kind `k`. -/
def kindCount (k : Char) (ops : List CigarOp) : Nat :=
  ops.countP (fun op => op.OpType == k)

/-- Total of all M, D and N lengths. -/
def refTotal (ops : List CigarOp) : Nat :=
  kindTotal 'M' ops + kindTotal 'D' ops + kindTotal 'N' ops

/-- Total length of the operations that are skipped over instead of being
folded into a block: every N, and every D when `delAsBlock` is set. -/
def skippedTotal (delAsBlock : Bool) (ops : List CigarOp) : Nat :=
  kindTotal 'N' ops + (if delAsBlock = true then kindTotal 'D' ops else 0)

/-- Length of the block made of the operations `seg`: its M lengths, plus its
D lengths when `delAsBlock` is false. -/
def segmentLength (delAsBlock : Bool) (seg : List CigarOp) : Nat :=
  kindTotal 'M' seg + (if delAsBlock = true then 0 else kindTotal 'D' seg)

/-- Reference definition of the appended block lengths: the list cut at each
block-closing operation, one length per segment. -/
def referenceLengths (delAsBlock : Bool) (ops : List CigarOp) : List Nat :=
  (ops.splitOnP (closesBlock delAsBlock)).map (segmentLength delAsBlock)

/-- Reference definition of the appended block starts: for each position `i`
of a block-closing operation, in order, `c` plus the total of the M, D and N
lengths of the operations up to and including that one. -/
def referenceStarts (delAsBlock : Bool) (c : Nat) (ops : List CigarOp) : List Nat :=
  ((List.range ops.length).filter
      (fun i => (ops.get? i).any (closesBlock delAsBlock))).map
    (fun i => c + refTotal (ops.take (i + 1)))

/-- Reference definition of the end cursor. -/
def referenceEnd (c : Nat) (ops : List CigarOp) : Nat := c + refTotal ops

/-- Number of bases by which one operation advances `currStart`. -/
def refLength (op : CigarOp) : Nat :=
  if op.OpType = 'M' ∨ op.OpType = 'D' ∨ op.OpType = 'N' then op.Length else 0

/-- Number of bases one operation adds to the open block. -/
def foldedLength (delAsBlock : Bool) (op : CigarOp) : Nat :=
  if op.OpType = 'M' ∨ (op.OpType = 'D' ∧ delAsBlock = false) then op.Length else 0

/-- Block starts pushed by the loop from cursor `c`, before reduction to 32 bits. -/
def startsFrom (delAsBlock : Bool) : Nat → List CigarOp → List Nat
  | _, [] => []
  | c, op :: rest =>
    if closesBlock delAsBlock op = true then
      (c + refLength op) :: startsFrom delAsBlock (c + refLength op) rest
    else startsFrom delAsBlock (c + refLength op) rest

/-- Block lengths pushed by the loop and after it, from an open block of length
`a`, before reduction to 32 bits. -/
def lengthsFrom (delAsBlock : Bool) : Nat → List CigarOp → List Nat
  | a, [] => [a]
  | a, op :: rest =>
    if closesBlock delAsBlock op = true then a :: lengthsFrom delAsBlock 0 rest
    else lengthsFrom delAsBlock (a + foldedLength delAsBlock op) rest

/-! ## Concrete inputs -/

/-- A properly paired record on reference 0, forward strand. -/
def mkMate (name : String) (pos : Int) (mapq : Nat) (first : Bool) (cigar : List CigarOp) :
    BamAlignment :=
  { Name := name, RefID := 0, Position := pos, MapQuality := mapq, IsProperPair := true,
    IsFirstMate := first, IsReverseStrand := false, CigarData := cigar }

/-- A reference table with the single name `chr1`. -/
def refsChr1 : List String := ["chr1"]

/-- Sixteen match operations of `2^27` bases each: `2^31` bases in all. -/
def longMatchCigar : List CigarOp := List.replicate 16 ⟨'M', 134217728⟩

/-- A match, sixteen reference skips of `2^27` bases each, a match. -/
def longSkipCigar : List CigarOp :=
  ⟨'M', 50⟩ :: (List.replicate 16 ⟨'N', 134217728⟩ ++ [⟨'M', 20⟩])

/-- A loop configuration without `-dblock`, with the default colour. -/
def cfgOf (track : Bool) (minQ : Int) : Config :=
  { trackUnprocessed := track, minMapQuality := minQ, delAsBlock := false,
    color := "255,0,0", refs := refsChr1 }

/-- The initial state with one record already in the buffer. -/
def stateWith (buffered : BamAlignment) : ConvertState :=
  { ConvertState.init with bamBuffer := [(buffered.Name, buffered)] }

/-- What the pairing of later records can depend on, and what it shows: the
outcome restricted to the buffer, the printed lines and the action. -/
def pairingView (r : Except Fatal (ConvertState × Action)) :
    Except Fatal (BamBuffer × List Bed12 × Action) :=
  match r with
  | .error e => .error e
  | .ok (s, a) => .ok (s.bamBuffer, s.bedOut, a)

/-- The sum `bam1.MapQuality + bam2.MapQuality` compared with `minMapQuality`. -/
def aggregateQuality (bam buffered : BamAlignment) : Int :=
  ((orderPair bam buffered).1.MapQuality : Int) + ((orderPair bam buffered).2.MapQuality : Int)

/-- The same restriction for a whole run: final buffer, printed lines, actions. -/
def loopView (r : Except Fatal (ConvertState × List Action)) :
    Except Fatal (BamBuffer × List Bed12 × List Action) :=
  match r with
  | .error e => .error e
  | .ok (s, acts) => .ok (s.bamBuffer, s.bedOut, acts)

/-! ## Vocabulary of the block table -/

/-- The index `id` names an entry of the reference table. -/
def inRefTable (refs : List String) (id : Int) : Prop := 0 ≤ id ∧ id < (refs.length : Int)

instance (refs : List String) (id : Int) : Decidable (inRefTable refs id) := by
  unfold inRefTable
  infer_instance

/-- The blocks `(start, length)` of one `ParseCigarBed12` run, before reduction to
32 bits: the open block starts at `b` and holds `a` bases when the cursor is at
`c`. -/
def blocksFrom (delAsBlock : Bool) : Nat → Nat → Nat → List CigarOp → List (Nat × Nat)
  | b, a, _, [] => [(b, a)]
  | b, a, c, op :: rest =>
    if closesBlock delAsBlock op = true then
      (b, a) :: blocksFrom delAsBlock (c + refLength op) 0 (c + refLength op) rest
    else blocksFrom delAsBlock b (a + foldedLength delAsBlock op) (c + refLength op) rest

/-- The block table of a printed line: each block start with its block length. -/
def blockTable (line : Bed12) : List (Int × Int) := List.zip line.blockStarts line.blockLengths

/-- No two consecutive blocks overlap: `start_i + length_i <= start_(i+1)`. -/
def noOverlap (t : List (Int × Int)) : Prop :=
  List.Chain' (fun x y => x.1 + x.2 ≤ y.1) t

/-- Consecutive block starts increase strictly: `start_i < start_(i+1)`. -/
def strictStarts (t : List (Int × Int)) : Prop :=
  List.Chain' (fun x y => x.1 < y.1) t

/-- Every block-closing operation of the list has a positive length. -/
def closingPositive (delAsBlock : Bool) (ops : List CigarOp) : Prop :=
  ∀ op ∈ ops, closesBlock delAsBlock op = true → 0 < op.Length

/-- No 32-bit overflow while a pair is printed: `bam1.Position` is an `int32`
value and the second mate's offset plus its footprint, the two footprints and the
two mate ends all stay below `2^31`. -/
def noOverflow32 (bam1 bam2 : BamAlignment) : Prop :=
  -2147483648 ≤ bam1.Position ∧
  bam2.Position - bam1.Position + (refTotal bam2.CigarData : Int) < 2147483648 ∧
  bam2.Position + (refTotal bam2.CigarData : Int) < 2147483648 ∧
  bam1.Position + (refTotal bam1.CigarData : Int) < 2147483648 ∧
  refTotal bam1.CigarData < 2147483648

/-- Offset of the second mate's start from the first mate's start. -/
def pairOffset (bam1 bam2 : BamAlignment) : Nat := (bam2.Position - bam1.Position).toNat

/-- The exact block starts of a pair, relative to `bam1.Position`: 0 and the
reference block starts of `bam1`, then the offset of `bam2` and the reference
block starts of `bam2` from that offset. -/
def pairStarts (delAsBlock : Bool) (bam1 bam2 : BamAlignment) : List Nat :=
  0 :: referenceStarts delAsBlock 0 bam1.CigarData ++
    pairOffset bam1 bam2 ::
      referenceStarts delAsBlock (pairOffset bam1 bam2) bam2.CigarData

/-- Every block start of the pair fits the `int` it is stored in. -/
def startsFit (delAsBlock : Bool) (bam1 bam2 : BamAlignment) : Prop :=
  ∀ x ∈ pairStarts delAsBlock bam1 bam2, x < 2147483648

instance (delAsBlock : Bool) (bam1 bam2 : BamAlignment) :
    Decidable (startsFit delAsBlock bam1 bam2) := by
  unfold startsFit
  infer_instance

/-- Every block-closing operation moves the cursor past the start of the block it
closes: `a` counts the M, D and N bases since that start, and at a block-closing
operation `a` plus the operation's own length is at least 1. Only a
block-closing operation of length 0 can fail this. -/
def startsAdvance (delAsBlock : Bool) : Nat → List CigarOp → Bool
  | _, [] => true
  | a, op :: rest =>
    if closesBlock delAsBlock op = true then
      decide (0 < a + refLength op) && startsAdvance delAsBlock 0 rest
    else startsAdvance delAsBlock (a + refLength op) rest

/-- The last block of one mate in the reference table, as (start, length) with
the start relative to the mate's own position. -/
def lastBlock (delAsBlock : Bool) (ops : List CigarOp) : Nat × Nat :=
  ((List.zip (0 :: referenceStarts delAsBlock 0 ops)
    (referenceLengths delAsBlock ops)).getLast?).getD (0, 0)

/-! ## The printing loops of `PrintPairedBed12` -/

/-- The reads `v[b]`, `v[b+1]`, ... of `n` consecutive loop iterations starting
at index `b`; `none` as soon as one index is out of range. -/
def readFrom (v : List Int) : Nat → Nat → Option (List Int)
  | _, 0 => some []
  | b, n + 1 =>
    match v.get? b, readFrom v (b + 1) n with
    | some x, some xs => some (x :: xs)
    | _, _ => none

/-- The loop `for (b = 0; b < v.size() - 1; ++b) printf("%d,", v[b]);` followed by
`printf("%d", v[b])`: the values printed, or `none` when an index is out of range.
On an empty vector `v.size() - 1` wraps around and `v[0]` is read out of range. -/
def printCommaList (v : List Int) : Option (List Int) :=
  if v.length = 0 then none
  else
    match readFrom v 0 (v.length - 1), v.get? (v.length - 1) with
    | some xs, some x => some (xs ++ [x])
    | _, _ => none

/-! ## The summary of `ConvertPairedBamToBed12` -/

/-- The five values computed inside `if (showSummary)`. -/
structure Summary where
  bamTot : Nat
  Bed12Tot : Nat
  notPairedInNamePercent : Int
  notInProperPairPercent : Int
  notHasMinMapQualityPercent : Int
deriving DecidableEq, Repr

/-- The `int` division `a / b` of the summary, truncated toward zero; `none` for a
zero divisor, where the C++ division is undefined and the process is killed. -/
def intDiv (a b : Int) : Option Int := if b = 0 then none else some (Int.tdiv a b)

/-- The computations of the `if (showSummary)` block, in source order: the two
totals, then the three percentages. The totals are sums of the counters, natural
numbers like them; each product `100 * counter` is the 32-bit `int` product
(`toInt32`), which leaves the range of `int` from 21474837 records on, and each
quotient is the `int` division by the total. -/
def computeSummary (s : ConvertState) : Option Summary :=
  let bamTot := s.notInProperPairBam + s.notPairedInNameBam +
    2 * s.notHasMinMapQualityBED12 + 2 * s.ProcessedBED12
  let Bed12Tot := s.notHasMinMapQualityBED12 + s.ProcessedBED12
  match intDiv (toInt32 (100 * s.notPairedInNameBam)) (bamTot : Int) with
  | none => none
  | some notPairedInNamePercent =>
    match intDiv (toInt32 (100 * s.notInProperPairBam)) (bamTot : Int) with
    | none => none
    | some notInProperPairPercent =>
      match intDiv (toInt32 (100 * s.notHasMinMapQualityBED12)) (Bed12Tot : Int) with
      | none => none
      | some notHasMinMapQualityPercent =>
        some { bamTot := bamTot, Bed12Tot := Bed12Tot,
               notPairedInNamePercent := notPairedInNamePercent,
               notInProperPairPercent := notInProperPairPercent,
               notHasMinMapQualityPercent := notHasMinMapQualityPercent }

/-- How a run of `ConvertPairedBamToBed12` ends: a fatal end of the record loop,
a division by zero in the summary, or a normal return with the final state and
the summary when it was asked for. -/
inductive RunResult where
  | fatal (e : Fatal)
  | divisionByZero (s : ConvertState)
  | finished (s : ConvertState) (summary : Option Summary)
deriving DecidableEq, Repr

/-- `ConvertPairedBamToBed12` on the records of the input: the record loop from
the initial state, then the summary when `showSummary` is set. -/
def ConvertPairedBamToBed12 (cfg : Config) (showSummary : Bool) (stream : List BamAlignment) :
    RunResult :=
  match convertLoop cfg ConvertState.init stream with
  | .error e => RunResult.fatal e
  | .ok (s, _) =>
    if showSummary = true then
      match computeSummary s with
      | none => RunResult.divisionByZero s
      | some summary => RunResult.finished s (some summary)
    else RunResult.finished s none

/-- Number of buffered records, other than the one under the matched name, that
are resident in the buffer of state `s` when the record `bam` completes a pair
(`bamBuffer.clear()` drops them); 0 when `bam` completes no pair. -/
def residueAt (s : ConvertState) (bam : BamAlignment) : Nat :=
  if bam.IsProperPair = true then
    match bufferFind bam.Name s.bamBuffer with
    | some _ => (bufferErase bam.Name s.bamBuffer).length
    | none => 0
  else 0

/-- Total of `residueAt` over the steps of a run from state `s`. -/
def residueDropped (cfg : Config) : ConvertState → List BamAlignment → Nat
  | _, [] => 0
  | s, bam :: rest =>
    match processRecord cfg s bam with
    | .error _ => 0
    | .ok (s1, _) => residueAt s bam + residueDropped cfg s1 rest

/-- A stream in which `a` is still buffered when the two mates of `r` meet. -/
def residueStream : List BamAlignment :=
  [mkMate "a" 10 30 true [⟨'M', 50⟩], mkMate "r" 100 30 true [⟨'M', 50⟩],
   mkMate "r" 150 30 false [⟨'M', 50⟩]]

/-! ## Lemmas on the machine arithmetic -/

theorem wrap32_of_lt {n : Nat} (h : n < 4294967296) : wrap32 n = n := by
  unfold wrap32; omega

theorem wrap32_wrap32_add (x y : Nat) : wrap32 (wrap32 x + y) = wrap32 (x + y) := by
  unfold wrap32; omega

theorem toInt32_wrap32_add (x y : Nat) : toInt32 (wrap32 x + y) = toInt32 (x + y) := by
  unfold toInt32 wrap32
  have h : (x % 4294967296 + y) % 4294967296 = (x + y) % 4294967296 := by omega
  rw [h]

theorem toU32_toInt32 (n : Nat) : toU32 (toInt32 n) = n % 4294967296 := by
  unfold toU32 toInt32
  split <;> omega

theorem toInt32_toU32_add (a len : Nat) :
    toInt32 (toU32 (toInt32 a) + len) = toInt32 (a + len) := by
  rw [toU32_toInt32]
  exact toInt32_wrap32_add a len

theorem toInt32_of_lt {n : Nat} (h : n < 2147483648) : toInt32 n = (n : Int) := by
  unfold toInt32
  have h1 : n % 4294967296 = n := by omega
  rw [h1, if_pos h]

theorem toInt32_zero : toInt32 0 = 0 := by
  unfold toInt32; simp

theorem toU32_of_nonneg {z : Int} (h0 : 0 ≤ z) (h1 : z < 4294967296) : (toU32 z : Int) = z := by
  unfold toU32; omega

/-! ## Lemmas on `ParseCigarBed12` -/

theorem validKind_cases {k : Char} (h : validKind k = true) :
    k = 'M' ∨ k = 'I' ∨ k = 'S' ∨ k = 'D' ∨ k = 'P' ∨ k = 'N' ∨ k = 'H' := by
  simpa [validKind, or_assoc] using h

theorem kindTotal_nil (k : Char) : kindTotal k [] = 0 := rfl

theorem kindTotal_cons (k : Char) (op : CigarOp) (ops : List CigarOp) :
    kindTotal k (op :: ops) = (if op.OpType = k then op.Length else 0) + kindTotal k ops := by
  unfold kindTotal
  by_cases h : op.OpType = k <;> simp [List.filter_cons, h]

theorem refTotal_nil : refTotal [] = 0 := rfl

theorem refTotal_cons (op : CigarOp) (ops : List CigarOp) :
    refTotal (op :: ops) = refLength op + refTotal ops := by
  unfold refTotal refLength
  simp only [kindTotal_cons]
  by_cases hM : op.OpType = 'M'
  · simp [hM]; omega
  · by_cases hD : op.OpType = 'D'
    · simp [hD]; omega
    · by_cases hN : op.OpType = 'N'
      · simp [hN]; omega
      · simp [hM, hD, hN]

theorem cigarLoop_ok (d : Bool) (ops : List CigarOp) (h : validCigar ops) :
    ∀ (c a : Nat) (bs bl : List Int),
      ∃ s, cigarLoop d ops ⟨wrap32 c, bs, bl, toInt32 a⟩ = .ok s ∧
        s.currStart = wrap32 (c + refTotal ops) ∧
        s.blockStarts = bs ++ (startsFrom d c ops).map toInt32 ∧
        s.blockLengths ++ [s.blockLength] = bl ++ (lengthsFrom d a ops).map toInt32 := by
  induction ops with
  | nil =>
    intro c a bs bl
    exact ⟨_, rfl, by simp [refTotal_nil], by simp [startsFrom], by simp [lengthsFrom]⟩
  | cons op rest ih =>
    intro c a bs bl
    have hop : validKind op.OpType = true := h op (List.mem_cons_self _ _)
    have hrest : validCigar rest := fun o ho => h o (List.mem_cons_of_mem _ ho)
    have hext : extendBlock ⟨wrap32 c, bs, bl, toInt32 a⟩ op.Length
        = ⟨wrap32 (c + op.Length), bs, bl, toInt32 (a + op.Length)⟩ := by
      simp [extendBlock, wrap32_wrap32_add, toInt32_toU32_add]
    have hclose : closeBlock ⟨wrap32 c, bs, bl, toInt32 a⟩ op.Length
        = ⟨wrap32 (c + op.Length), bs ++ [toInt32 (c + op.Length)], bl ++ [toInt32 a], toInt32 0⟩ := by
      simp [closeBlock, wrap32_wrap32_add, toInt32_wrap32_add, toInt32_zero]
    rcases validKind_cases hop with hk | hk | hk | hk | hk | hk | hk
    · -- M
      obtain ⟨s, hs, h1, h2, h3⟩ := ih hrest (c + op.Length) (a + op.Length) bs bl
      refine ⟨s, ?_, ?_, ?_, ?_⟩
      · simp [cigarLoop, cigarSwitch, hk, hext, hs]
      · simp [h1, refTotal_cons, refLength, hk, Nat.add_assoc]
      · simp [h2, startsFrom, closesBlock, refLength, hk]
      · simp [h3, lengthsFrom, closesBlock, foldedLength, hk]
    · -- I
      obtain ⟨s, hs, h1, h2, h3⟩ := ih hrest c a bs bl
      refine ⟨s, ?_, ?_, ?_, ?_⟩
      · simp [cigarLoop, cigarSwitch, hk, hs]
      · simp [h1, refTotal_cons, refLength, hk]
      · simp [h2, startsFrom, closesBlock, refLength, hk]
      · simp [h3, lengthsFrom, closesBlock, foldedLength, hk]
    · -- S
      obtain ⟨s, hs, h1, h2, h3⟩ := ih hrest c a bs bl
      refine ⟨s, ?_, ?_, ?_, ?_⟩
      · simp [cigarLoop, cigarSwitch, hk, hs]
      · simp [h1, refTotal_cons, refLength, hk]
      · simp [h2, startsFrom, closesBlock, refLength, hk]
      · simp [h3, lengthsFrom, closesBlock, foldedLength, hk]
    · -- D
      cases d with
      | true =>
        obtain ⟨s, hs, h1, h2, h3⟩ := ih hrest (c + op.Length) 0
          (bs ++ [toInt32 (c + op.Length)]) (bl ++ [toInt32 a])
        refine ⟨s, ?_, ?_, ?_, ?_⟩
        · simp [cigarLoop, cigarSwitch, hk, hclose, hs]
        · simp [h1, refTotal_cons, refLength, hk, Nat.add_assoc]
        · simp [h2, startsFrom, closesBlock, refLength, hk]
        · simp [h3, lengthsFrom, closesBlock, foldedLength, hk]
      | false =>
        obtain ⟨s, hs, h1, h2, h3⟩ := ih hrest (c + op.Length) (a + op.Length) bs bl
        refine ⟨s, ?_, ?_, ?_, ?_⟩
        · simp [cigarLoop, cigarSwitch, hk, hext, hs]
        · simp [h1, refTotal_cons, refLength, hk, Nat.add_assoc]
        · simp [h2, startsFrom, closesBlock, refLength, hk]
        · simp [h3, lengthsFrom, closesBlock, foldedLength, hk]
    · -- P
      obtain ⟨s, hs, h1, h2, h3⟩ := ih hrest c a bs bl
      refine ⟨s, ?_, ?_, ?_, ?_⟩
      · simp [cigarLoop, cigarSwitch, hk, hs]
      · simp [h1, refTotal_cons, refLength, hk]
      · simp [h2, startsFrom, closesBlock, refLength, hk]
      · simp [h3, lengthsFrom, closesBlock, foldedLength, hk]
    · -- N
      obtain ⟨s, hs, h1, h2, h3⟩ := ih hrest (c + op.Length) 0
        (bs ++ [toInt32 (c + op.Length)]) (bl ++ [toInt32 a])
      refine ⟨s, ?_, ?_, ?_, ?_⟩
      · simp [cigarLoop, cigarSwitch, hk, hclose, hs]
      · simp [h1, refTotal_cons, refLength, hk, Nat.add_assoc]
      · simp [h2, startsFrom, closesBlock, refLength, hk]
      · simp [h3, lengthsFrom, closesBlock, foldedLength, hk]
    · -- H
      obtain ⟨s, hs, h1, h2, h3⟩ := ih hrest c a bs bl
      refine ⟨s, ?_, ?_, ?_, ?_⟩
      · simp [cigarLoop, cigarSwitch, hk, hs]
      · simp [h1, refTotal_cons, refLength, hk]
      · simp [h2, startsFrom, closesBlock, refLength, hk]
      · simp [h3, lengthsFrom, closesBlock, foldedLength, hk]

theorem toU32_lt (z : Int) : toU32 z < 4294967296 := by
  unfold toU32; omega

theorem cigarSwitch_of_valid (d : Bool) (s : CigarState) (op : CigarOp)
    (h : validKind op.OpType = true) :
    (closesBlock d op = true ∧ cigarSwitch d s op = .ok (closeBlock s op.Length)) ∨
    (closesBlock d op = false ∧
      (cigarSwitch d s op = .ok s ∨ cigarSwitch d s op = .ok (extendBlock s op.Length))) := by
  rcases validKind_cases h with hk | hk | hk | hk | hk | hk | hk <;>
    cases d <;> simp [cigarSwitch, closesBlock, hk]

theorem cigarSwitch_of_invalid (d : Bool) (s : CigarState) (op : CigarOp)
    (h : validKind op.OpType = false) :
    cigarSwitch d s op = .error "Invalid Cigar op type" := by
  simp [validKind] at h
  obtain ⟨⟨⟨⟨⟨⟨h1, h2⟩, h3⟩, h4⟩, h5⟩, h6⟩, h7⟩ := h
  simp [cigarSwitch, h1, h2, h3, h4, h5, h6, h7]

theorem cigarLoop_error_of_invalid (d : Bool) (ops : List CigarOp) (h : ¬ validCigar ops) :
    ∀ s, cigarLoop d ops s = .error "Invalid Cigar op type" := by
  induction ops with
  | nil => exact absurd (fun o ho => by cases ho) h
  | cons op rest ih =>
    intro s
    by_cases hop : validKind op.OpType = true
    · have hrest : ¬ validCigar rest := by
        intro hr
        apply h
        intro o ho
        rcases List.mem_cons.1 ho with rfl | ho
        · exact hop
        · exact hr o ho
      rcases cigarSwitch_of_valid d s op hop with ⟨_, h1⟩ | ⟨_, h1 | h1⟩ <;>
        simp [cigarLoop, h1, ih hrest]
    · have hop2 : validKind op.OpType = false := by simpa using hop
      simp [cigarLoop, cigarSwitch_of_invalid d s op hop2]

theorem cigarLoop_counts (d : Bool) (ops : List CigarOp) (h : validCigar ops) :
    ∀ s : CigarState, ∃ s1 ns nl, cigarLoop d ops s = .ok s1 ∧
      s1.blockStarts = s.blockStarts ++ ns ∧ s1.blockLengths = s.blockLengths ++ nl ∧
      ns.length = ops.countP (closesBlock d) ∧ nl.length = ops.countP (closesBlock d) := by
  induction ops with
  | nil => intro s; exact ⟨s, [], [], rfl, by simp, by simp, by simp, by simp⟩
  | cons op rest ih =>
    intro s
    have hop : validKind op.OpType = true := h op (List.mem_cons_self _ _)
    have hrest : validCigar rest := fun o ho => h o (List.mem_cons_of_mem _ ho)
    rcases cigarSwitch_of_valid d s op hop with ⟨hc, h1⟩ | ⟨hc, h1 | h1⟩
    · obtain ⟨s1, ns, nl, e, e1, e2, e3, e4⟩ := ih hrest (closeBlock s op.Length)
      refine ⟨s1, toInt32 (s.currStart + op.Length) :: ns, s.blockLength :: nl, ?_, ?_, ?_, ?_, ?_⟩
      · simp [cigarLoop, h1, e]
      · simp [e1, closeBlock]
      · simp [e2, closeBlock]
      · simp [e3, List.countP_cons, hc]
      · simp [e4, List.countP_cons, hc]
    · obtain ⟨s1, ns, nl, e, e1, e2, e3, e4⟩ := ih hrest s
      refine ⟨s1, ns, nl, ?_, e1, e2, ?_, ?_⟩
      · simp [cigarLoop, h1, e]
      · simp [e3, List.countP_cons, hc]
      · simp [e4, List.countP_cons, hc]
    · obtain ⟨s1, ns, nl, e, e1, e2, e3, e4⟩ := ih hrest (extendBlock s op.Length)
      refine ⟨s1, ns, nl, ?_, ?_, ?_, ?_, ?_⟩
      · simp [cigarLoop, h1, e]
      · simp [e1, extendBlock]
      · simp [e2, extendBlock]
      · simp [e3, List.countP_cons, hc]
      · simp [e4, List.countP_cons, hc]

theorem closesBlock_countP (d : Bool) (ops : List CigarOp) :
    ops.countP (closesBlock d) = kindCount 'N' ops + (if d = true then kindCount 'D' ops else 0) := by
  induction ops with
  | nil => cases d <;> simp [kindCount]
  | cons op rest ih =>
    unfold kindCount at ih ⊢
    simp only [List.countP_cons, ih]
    by_cases hN : op.OpType = 'N'
    · cases d <;> simp [closesBlock, hN]
      omega
    · by_cases hD : op.OpType = 'D'
      · cases d <;> simp [closesBlock, hD]
        omega
      · cases d <;> simp [closesBlock, hN, hD]

theorem ParseCigarBed12_ok (d : Bool) (ops : List CigarOp) (h : validCigar ops) (c : Nat)
    (hc : c < 4294967296) (bs bl : List Int) :
    ParseCigarBed12 ops d c bs bl = .ok
      { currStart := wrap32 (c + refTotal ops)
        blockStarts := bs ++ (startsFrom d c ops).map toInt32
        blockLengths := bl ++ (lengthsFrom d 0 ops).map toInt32
        alignmentEnd := wrap32 (c + refTotal ops) } := by
  obtain ⟨s, hs, h1, h2, h3⟩ := cigarLoop_ok d ops h c 0 bs bl
  rw [wrap32_of_lt hc, toInt32_zero] at hs
  simp [ParseCigarBed12, hs, h1, h2, h3]

theorem ParseCigarBed12_error (d : Bool) (ops : List CigarOp) (h : ¬ validCigar ops) (c : Nat)
    (bs bl : List Int) :
    ParseCigarBed12 ops d c bs bl = .error "Invalid Cigar op type" := by
  simp [ParseCigarBed12, cigarLoop_error_of_invalid d ops h]

/-! ## Lemmas on the pushed starts and lengths -/

theorem startsFrom_length (d : Bool) (ops : List CigarOp) :
    ∀ c, (startsFrom d c ops).length = ops.countP (closesBlock d) := by
  induction ops with
  | nil => intro c; simp [startsFrom]
  | cons op rest ih =>
    intro c
    by_cases hc : closesBlock d op = true <;> simp [startsFrom, List.countP_cons, hc, ih]

theorem lengthsFrom_length (d : Bool) (ops : List CigarOp) :
    ∀ a, (lengthsFrom d a ops).length = ops.countP (closesBlock d) + 1 := by
  induction ops with
  | nil => intro a; simp [lengthsFrom]
  | cons op rest ih =>
    intro a
    by_cases hc : closesBlock d op = true <;> simp [lengthsFrom, List.countP_cons, hc, ih]

theorem refLength_le (op : CigarOp) : refLength op ≤ op.Length := by
  unfold refLength; split <;> omega

theorem foldedLength_le (d : Bool) (op : CigarOp) : foldedLength d op ≤ refLength op := by
  unfold foldedLength refLength
  by_cases hM : op.OpType = 'M'
  · simp [hM]
  · by_cases hD : op.OpType = 'D'
    · cases d <;> simp [hD]
    · simp [hM, hD]

theorem startsFrom_le (d : Bool) (ops : List CigarOp) :
    ∀ c x, x ∈ startsFrom d c ops → x ≤ c + refTotal ops := by
  induction ops with
  | nil => intro c x hx; simp [startsFrom] at hx
  | cons op rest ih =>
    intro c x hx
    rw [refTotal_cons]
    by_cases hc : closesBlock d op = true
    · simp only [startsFrom, hc, if_true, List.mem_cons] at hx
      rcases hx with rfl | hx
      · omega
      · have := ih _ _ hx
        omega
    · simp only [startsFrom, hc] at hx
      have := ih _ _ hx
      omega

theorem startsFrom_ge (d : Bool) (ops : List CigarOp) :
    ∀ c x, x ∈ startsFrom d c ops → c ≤ x := by
  induction ops with
  | nil => intro c x hx; simp [startsFrom] at hx
  | cons op rest ih =>
    intro c x hx
    by_cases hc : closesBlock d op = true
    · simp only [startsFrom, hc, if_true, List.mem_cons] at hx
      rcases hx with rfl | hx
      · omega
      · have := ih _ _ hx
        omega
    · simp only [startsFrom, hc] at hx
      have := ih _ _ hx
      omega

theorem lengthsFrom_le (d : Bool) (ops : List CigarOp) :
    ∀ a x, x ∈ lengthsFrom d a ops → x ≤ a + refTotal ops := by
  induction ops with
  | nil => intro a x hx; simp [lengthsFrom] at hx; omega
  | cons op rest ih =>
    intro a x hx
    rw [refTotal_cons]
    have hf := foldedLength_le d op
    by_cases hc : closesBlock d op = true
    · simp only [lengthsFrom, hc, if_true, List.mem_cons] at hx
      rcases hx with rfl | hx
      · omega
      · have := ih _ _ hx
        omega
    · simp only [lengthsFrom, hc] at hx
      have := ih _ _ hx
      omega

theorem segmentLength_nil (d : Bool) : segmentLength d [] = 0 := by
  cases d <;> simp [segmentLength, kindTotal_nil]

theorem segmentLength_cons (d : Bool) (op : CigarOp) (seg : List CigarOp) :
    segmentLength d (op :: seg) = foldedLength d op + segmentLength d seg := by
  unfold segmentLength foldedLength
  simp only [kindTotal_cons]
  by_cases hM : op.OpType = 'M'
  · cases d <;> simp [hM]
    omega
  · by_cases hD : op.OpType = 'D'
    · cases d <;> simp [hD]
      omega
    · cases d <;> simp [hM, hD]

theorem lengthsFrom_sum (d : Bool) (ops : List CigarOp) :
    ∀ a, (lengthsFrom d a ops).sum = a + segmentLength d ops := by
  induction ops with
  | nil => intro a; simp [lengthsFrom, segmentLength_nil]
  | cons op rest ih =>
    intro a
    rw [segmentLength_cons]
    by_cases hc : closesBlock d op = true
    · have h0 : foldedLength d op = 0 := by
        unfold foldedLength
        unfold closesBlock at hc
        by_cases hN : op.OpType = 'N'
        · simp [hN]
        · by_cases hD : op.OpType = 'D'
          · cases d <;> simp_all
          · simp_all
      simp [lengthsFrom, hc, ih, h0]
    · simp [lengthsFrom, hc, ih]
      omega

theorem refTotal_eq_segment_add_skipped (d : Bool) (ops : List CigarOp) :
    refTotal ops = segmentLength d ops + skippedTotal d ops := by
  unfold refTotal segmentLength skippedTotal
  cases d <;> simp
  omega

theorem map_toInt32_of_le (l : List Nat) (b : Nat) (hb : b < 2147483648)
    (h : ∀ x ∈ l, x ≤ b) : l.map toInt32 = l.map Int.ofNat := by
  apply List.map_congr_left
  intro x hx
  exact toInt32_of_lt (Nat.lt_of_le_of_lt (h x hx) hb)

/-! ## The pushed starts and lengths are the reference ones -/

theorem referenceStarts_cons (d : Bool) (c : Nat) (op : CigarOp) (ops : List CigarOp) :
    referenceStarts d c (op :: ops) =
      (if closesBlock d op = true then [c + refLength op] else []) ++
        referenceStarts d (c + refLength op) ops := by
  unfold referenceStarts
  rw [List.length_cons, List.range_succ_eq_map, List.filter_cons]
  have hf : (List.filter (fun i => ((op :: ops).get? i).any (closesBlock d))
        (List.map Nat.succ (List.range ops.length))).map
          (fun i => c + refTotal ((op :: ops).take (i + 1)))
      = ((List.range ops.length).filter (fun i => (ops.get? i).any (closesBlock d))).map
          (fun i => c + refLength op + refTotal (ops.take (i + 1))) := by
    rw [List.filter_map, List.map_map]
    have h1 : ((fun i => ((op :: ops).get? i).any (closesBlock d)) ∘ Nat.succ)
        = (fun i => (ops.get? i).any (closesBlock d)) := by
      funext i; simp
    have h2 : ((fun i => c + refTotal ((op :: ops).take (i + 1))) ∘ Nat.succ)
        = (fun i => c + refLength op + refTotal (ops.take (i + 1))) := by
      funext i; simp [refTotal_cons, Nat.add_assoc]
    rw [h1, h2]
  have h0 : ((op :: ops).get? 0).any (closesBlock d) = closesBlock d op := by simp
  rw [h0]
  by_cases hc : closesBlock d op = true
  · rw [if_pos hc, if_pos hc, List.map_cons, hf]
    simp [refTotal_cons, refTotal_nil]
  · rw [if_neg hc, if_neg hc, hf]
    simp

theorem startsFrom_eq_reference (d : Bool) (ops : List CigarOp) :
    ∀ c, startsFrom d c ops = referenceStarts d c ops := by
  induction ops with
  | nil => intro c; simp [startsFrom, referenceStarts]
  | cons op rest ih =>
    intro c
    rw [referenceStarts_cons]
    by_cases hc : closesBlock d op = true <;> simp [startsFrom, hc, ih]

theorem referenceLengths_nil (d : Bool) : referenceLengths d [] = [0] := by
  simp [referenceLengths, List.splitOnP_nil, segmentLength_nil]

theorem referenceLengths_cons (d : Bool) (op : CigarOp) (ops : List CigarOp) :
    referenceLengths d (op :: ops) =
      if closesBlock d op = true then 0 :: referenceLengths d ops
      else (referenceLengths d ops).modifyHead (fun x => foldedLength d op + x) := by
  unfold referenceLengths
  rw [List.splitOnP_cons]
  by_cases hc : closesBlock d op = true
  · simp [hc, segmentLength_nil]
  · simp only [hc]
    cases hs : List.splitOnP (closesBlock d) ops with
    | nil => simp [List.modifyHead]
    | cons seg segs => simp [List.modifyHead, segmentLength_cons]

theorem lengthsFrom_eq_reference (d : Bool) (ops : List CigarOp) :
    ∀ a, lengthsFrom d a ops = (referenceLengths d ops).modifyHead (fun x => a + x) := by
  induction ops with
  | nil => intro a; simp [lengthsFrom, referenceLengths_nil, List.modifyHead]
  | cons op rest ih =>
    intro a
    rw [referenceLengths_cons]
    by_cases hc : closesBlock d op = true
    · simp only [lengthsFrom, hc, if_true, ih 0]
      cases referenceLengths d rest <;> simp [List.modifyHead]
    · simp only [lengthsFrom, hc, ih]
      cases referenceLengths d rest <;> simp [List.modifyHead, Nat.add_assoc]

theorem lengthsFrom_zero_eq_reference (d : Bool) (ops : List CigarOp) :
    lengthsFrom d 0 ops = referenceLengths d ops := by
  rw [lengthsFrom_eq_reference]
  cases referenceLengths d ops <;> simp [List.modifyHead]

theorem refsAt_of_inRefTable {refs : List String} {id : Int} (h : inRefTable refs id) :
    ∃ chrom, refsAt refs id = some chrom := by
  obtain ⟨h0, h1⟩ := h
  have hlt : id.toNat < refs.length := by omega
  refine ⟨refs[id.toNat], ?_⟩
  unfold refsAt
  rw [if_neg (by omega), List.get?_eq_getElem?, List.getElem?_eq_getElem hlt]

theorem refsAt_of_not_inRefTable {refs : List String} {id : Int} (h : ¬ inRefTable refs id) :
    refsAt refs id = none := by
  unfold refsAt
  by_cases h0 : id < 0
  · rw [if_pos h0]
  · rw [if_neg h0, List.get?_eq_getElem?, List.getElem?_eq_none_iff]
    unfold inRefTable at h
    omega

theorem PrintPairedBed12_ok (bam1 bam2 : BamAlignment) (refs : List String) (d : Bool)
    (color : String) (chrom : String) (hchrom : refsAt refs bam1.RefID = some chrom)
    (hv1 : validCigar bam1.CigarData) (hv2 : validCigar bam2.CigarData) :
    PrintPairedBed12 bam1 bam2 refs d color = .ok
      { chrom := chrom
        alignmentStart := toInt32 (toU32 bam1.Position)
        alignmentEnd := toInt32 (wrap32 (toU32 bam1.Position +
          wrap32 (toU32 (bam2.Position - bam1.Position) + refTotal bam2.CigarData)))
        name := bam1.Name
        score := (bam1.MapQuality : Int) + (bam2.MapQuality : Int)
        strand :=
          if bam1.IsFirstMate = true then (if bam1.IsReverseStrand = true then "-" else "+")
          else (if bam2.IsReverseStrand = true then "-" else "+")
        thickStart := if bam1.IsFirstMate = true then bam1.Position else bam2.Position
        thickEnd :=
          if bam1.IsFirstMate = true then
            toInt32 (toU32 bam1.Position + wrap32 (0 + refTotal bam1.CigarData))
          else toInt32 (wrap32 (toU32 bam1.Position +
            wrap32 (toU32 (bam2.Position - bam1.Position) + refTotal bam2.CigarData)))
        color := color
        blockCount := toInt32
          ([toInt32 0] ++ (startsFrom d 0 bam1.CigarData).map toInt32 ++
            [toInt32 (toU32 (bam2.Position - bam1.Position))] ++
            (startsFrom d (toU32 (bam2.Position - bam1.Position)) bam2.CigarData).map toInt32).length
        blockLengths :=
          [] ++ (lengthsFrom d 0 bam1.CigarData).map toInt32 ++
            (lengthsFrom d 0 bam2.CigarData).map toInt32
        blockStarts :=
          [toInt32 0] ++ (startsFrom d 0 bam1.CigarData).map toInt32 ++
            [toInt32 (toU32 (bam2.Position - bam1.Position))] ++
            (startsFrom d (toU32 (bam2.Position - bam1.Position)) bam2.CigarData).map toInt32 } := by
  have hp1 := ParseCigarBed12_ok d _ hv1 0 (by decide) [toInt32 0] []
  have hp2 := ParseCigarBed12_ok d _ hv2 (toU32 (bam2.Position - bam1.Position)) (toU32_lt _)
    ([toInt32 0] ++ (startsFrom d 0 bam1.CigarData).map toInt32 ++
      [toInt32 (toU32 (bam2.Position - bam1.Position))])
    ([] ++ (lengthsFrom d 0 bam1.CigarData).map toInt32)
  unfold PrintPairedBed12
  simp only [hchrom, hp1, hp2]

theorem PrintPairedBed12_refOutOfRange (bam1 bam2 : BamAlignment) (refs : List String)
    (d : Bool) (color : String) (h : ¬ inRefTable refs bam1.RefID) :
    PrintPairedBed12 bam1 bam2 refs d color = .error Fatal.refOutOfRange := by
  unfold PrintPairedBed12
  simp only [refsAt_of_not_inRefTable h]

theorem PrintPairedBed12_invalid (bam1 bam2 : BamAlignment) (refs : List String) (d : Bool)
    (color : String) (hin : inRefTable refs bam1.RefID)
    (h : ¬ (validCigar bam1.CigarData ∧ validCigar bam2.CigarData)) :
    PrintPairedBed12 bam1 bam2 refs d color = .error Fatal.invalidCigarOp := by
  obtain ⟨chrom, hchrom⟩ := refsAt_of_inRefTable hin
  unfold PrintPairedBed12
  by_cases hv1 : validCigar bam1.CigarData
  · have hv2 : ¬ validCigar bam2.CigarData := fun hv2 => h ⟨hv1, hv2⟩
    have hp1 := ParseCigarBed12_ok d _ hv1 0 (by decide) [toInt32 0] []
    simp only [hchrom, hp1, ParseCigarBed12_error d _ hv2]
  · simp only [hchrom, ParseCigarBed12_error d _ hv1]

/-- A line is returned exactly when `bam1.RefID` names an entry of the reference
table and both operation lists are valid. -/
theorem PrintPairedBed12_isOk_iff (bam1 bam2 : BamAlignment) (refs : List String) (d : Bool)
    (color : String) :
    (∃ b, PrintPairedBed12 bam1 bam2 refs d color = .ok b) ↔
      inRefTable refs bam1.RefID ∧ validCigar bam1.CigarData ∧ validCigar bam2.CigarData := by
  constructor
  · rintro ⟨b, hb⟩
    by_cases hin : inRefTable refs bam1.RefID
    · by_cases hv : validCigar bam1.CigarData ∧ validCigar bam2.CigarData
      · exact ⟨hin, hv⟩
      · rw [PrintPairedBed12_invalid bam1 bam2 refs d color hin hv] at hb
        cases hb
    · rw [PrintPairedBed12_refOutOfRange bam1 bam2 refs d color hin] at hb
      cases hb
  · rintro ⟨hin, hv1, hv2⟩
    obtain ⟨chrom, hchrom⟩ := refsAt_of_inRefTable hin
    exact ⟨_, PrintPairedBed12_ok bam1 bam2 refs d color chrom hchrom hv1 hv2⟩

/-! ## Properties of `ParseCigarBed12` and `PrintPairedBed12` -/

/-- C1: when each mate's CIGAR is a single match op (lengths `L1`, `L2`),
`bam1.Position ≤ bam2.Position` and no 32-bit value overflows (the positions are
`int32` values, and the offset `bam2.Position - bam1.Position`, the end
`bam2.Position + L2` and the two lengths stay below `2^31`), an interval is
emitted whenever `bam1.RefID` names an entry of the reference table, and the
emitted interval has start `bam1.Position`, end `bam2.Position + L2`, score the
sum of the two map qualities, block count 2, block lengths `[L1, L2]` and block
starts `[0, bam2.Position - bam1.Position]`. When `bam1.RefID` is outside the
table the chromosome lookup throws and no interval is emitted. -/
theorem C1_single_match_pair (bam1 bam2 : BamAlignment) (refs : List String) (d : Bool)
    (color : String) (L1 L2 : Nat)
    (h1 : bam1.CigarData = [⟨'M', L1⟩]) (h2 : bam2.CigarData = [⟨'M', L2⟩])
    (hlo : -2147483648 ≤ bam1.Position) (hle : bam1.Position ≤ bam2.Position)
    (hoff : bam2.Position - bam1.Position < 2147483648)
    (hhi : bam2.Position + (L2 : Int) < 2147483648)
    (hL1 : L1 < 2147483648) (hL2 : L2 < 2147483648) :
    (inRefTable refs bam1.RefID →
      ∃ b, PrintPairedBed12 bam1 bam2 refs d color = .ok b ∧
        b.alignmentStart = bam1.Position ∧
        b.alignmentEnd = bam2.Position + (L2 : Int) ∧
        b.score = (bam1.MapQuality : Int) + (bam2.MapQuality : Int) ∧
        b.blockCount = 2 ∧
        b.blockLengths = [(L1 : Int), (L2 : Int)] ∧
        b.blockStarts = [0, bam2.Position - bam1.Position]) ∧
    (¬ inRefTable refs bam1.RefID →
      PrintPairedBed12 bam1 bam2 refs d color = .error Fatal.refOutOfRange) := by
  refine ⟨fun hin => ?_, PrintPairedBed12_refOutOfRange bam1 bam2 refs d color⟩
  obtain ⟨chrom, hchrom⟩ := refsAt_of_inRefTable hin
  have hv1 : validCigar bam1.CigarData := by
    rw [h1]; intro op hop; simp at hop; subst hop; rfl
  have hv2 : validCigar bam2.CigarData := by
    rw [h2]; intro op hop; simp at hop; subst hop; rfl
  have hr2 : refTotal [(⟨'M', L2⟩ : CigarOp)] = L2 := by
    simp [refTotal_cons, refTotal_nil, refLength]
  have hl1 : lengthsFrom d 0 [(⟨'M', L1⟩ : CigarOp)] = [L1] := by
    simp [lengthsFrom, closesBlock, foldedLength]
  have hl2 : lengthsFrom d 0 [(⟨'M', L2⟩ : CigarOp)] = [L2] := by
    simp [lengthsFrom, closesBlock, foldedLength]
  have hstart : toInt32 (toU32 bam1.Position) = bam1.Position := by
    unfold toInt32 toU32
    split <;> omega
  have hoffset : toInt32 (toU32 (bam2.Position - bam1.Position))
      = bam2.Position - bam1.Position := by
    unfold toInt32 toU32
    split <;> omega
  have hend : toInt32 (wrap32 (toU32 bam1.Position +
      wrap32 (toU32 (bam2.Position - bam1.Position) + L2))) = bam2.Position + (L2 : Int) := by
    unfold toInt32 wrap32 toU32
    split <;> omega
  refine ⟨_, PrintPairedBed12_ok bam1 bam2 refs d color chrom hchrom hv1 hv2, hstart, ?_, rfl,
    ?_, ?_, ?_⟩
  · show toInt32 (wrap32 (toU32 bam1.Position +
      wrap32 (toU32 (bam2.Position - bam1.Position) + refTotal bam2.CigarData))) = _
    rw [h2, hr2]
    exact hend
  · simp [h1, h2, startsFrom, closesBlock, toInt32]
  · simp [h1, h2, hl1, hl2, toInt32_of_lt hL1, toInt32_of_lt hL2]
  · simp [h1, h2, startsFrom, closesBlock, hoffset, toInt32_zero]

/-- Witness of C1: positions 100 and 150, `50M` each, map quality 30 each, on
reference 0 of a one-entry table. -/
theorem C1_single_match_pair_witness :
    ∃ b, PrintPairedBed12 (mkMate "r" 100 30 true [⟨'M', 50⟩]) (mkMate "r" 150 30 false [⟨'M', 50⟩])
        refsChr1 false "255,0,0" = .ok b ∧
      b.alignmentStart = 100 ∧ b.alignmentEnd = 200 ∧ b.score = 60 ∧ b.blockCount = 2 ∧
      b.blockLengths = [50, 50] ∧ b.blockStarts = [0, 50] :=
  (C1_single_match_pair (mkMate "r" 100 30 true [⟨'M', 50⟩]) (mkMate "r" 150 30 false [⟨'M', 50⟩])
    refsChr1 false "255,0,0" 50 50 rfl rfl (by decide) (by decide) (by decide) (by decide)
    (by decide) (by decide)).1 (by decide)

/-- C2: on a valid operation list, for every start cursor and policy value,
`ParseCigarBed12` appends as many block starts as there are N ops, plus the D ops
when `delAsBlock` is true, and one more block length than that. -/
theorem C2_block_counts (ops : List CigarOp) (h : validCigar ops) (d : Bool) (c : Nat)
    (bs bl : List Int) :
    ∃ r newStarts newLengths, ParseCigarBed12 ops d c bs bl = .ok r ∧
      r.blockStarts = bs ++ newStarts ∧ r.blockLengths = bl ++ newLengths ∧
      newStarts.length = kindCount 'N' ops + (if d = true then kindCount 'D' ops else 0) ∧
      newLengths.length = kindCount 'N' ops + (if d = true then kindCount 'D' ops else 0) + 1 := by
  obtain ⟨s1, ns, nl, e, e1, e2, e3, e4⟩ := cigarLoop_counts d ops h ⟨c, bs, bl, 0⟩
  refine ⟨⟨s1.currStart, s1.blockStarts, s1.blockLengths ++ [s1.blockLength], s1.currStart⟩,
    ns, nl ++ [s1.blockLength], ?_, ?_, ?_, ?_, ?_⟩
  · simp only [ParseCigarBed12, e]
  · exact e1
  · simp [e2]
  · rw [e3, closesBlock_countP]
  · simp [e4, closesBlock_countP]

/-- Witness of C2: `50M 10D 20M 5N 7M` opens one block without `delAsBlock`. -/
theorem C2_block_counts_witness :
    validCigar [⟨'M', 50⟩, ⟨'D', 10⟩, ⟨'M', 20⟩, ⟨'N', 5⟩, ⟨'M', 7⟩] ∧
    ∃ r newStarts newLengths,
      ParseCigarBed12 [⟨'M', 50⟩, ⟨'D', 10⟩, ⟨'M', 20⟩, ⟨'N', 5⟩, ⟨'M', 7⟩] false 0 [0] [] = .ok r ∧
      r.blockStarts = [0] ++ newStarts ∧ r.blockLengths = [] ++ newLengths ∧
      newStarts.length = 1 ∧ newLengths.length = 2 :=
  ⟨by decide,
   C2_block_counts [⟨'M', 50⟩, ⟨'D', 10⟩, ⟨'M', 20⟩, ⟨'N', 5⟩, ⟨'M', 7⟩] (by decide) false 0 [0] []⟩

/-- C3: on a valid operation list without 32-bit overflow, the appended block
lengths sum, together with the lengths of the skipped-over ops (N, and D under
`delAsBlock`), to `alignmentEnd - currStart`; under `delAsBlock` the block lengths
sum to the M total alone while the end cursor has advanced by the M, D and N
totals. -/
theorem C3_length_accounting (ops : List CigarOp) (h : validCigar ops) (d : Bool) (c : Nat)
    (bs bl : List Int) (hov : c + refTotal ops < 4294967296) (hlen : refTotal ops < 2147483648) :
    ∃ r newLengths, ParseCigarBed12 ops d c bs bl = .ok r ∧
      r.blockLengths = bl ++ newLengths ∧
      newLengths.sum + (skippedTotal d ops : Int) = (r.alignmentEnd : Int) - (c : Int) ∧
      (d = true → newLengths.sum = (kindTotal 'M' ops : Int) ∧
        r.alignmentEnd = c + kindTotal 'M' ops + kindTotal 'D' ops + kindTotal 'N' ops) := by
  have hc : c < 4294967296 := by omega
  refine ⟨_, (lengthsFrom d 0 ops).map toInt32, ParseCigarBed12_ok d ops h c hc bs bl, rfl, ?_, ?_⟩
  all_goals
    have hm := map_toInt32_of_le (lengthsFrom d 0 ops) (refTotal ops) hlen
      (fun x hx => by have := lengthsFrom_le d ops 0 x hx; omega)
    have hsum : ((lengthsFrom d 0 ops).map Int.ofNat).sum = ((lengthsFrom d 0 ops).sum : Int) := by
      generalize lengthsFrom d 0 ops = l
      induction l with
      | nil => simp
      | cons x xs ih => simp [ih]
    have hs := lengthsFrom_sum d ops 0
    have ht := refTotal_eq_segment_add_skipped d ops
    simp only [hm, hsum, hs, wrap32_of_lt hov]
  · omega
  · intro hd
    subst hd
    unfold refTotal at *
    simp [segmentLength]
    omega

/-- Witness of C3: `50M 10D 20M` from cursor 0 under `delAsBlock`. -/
theorem C3_length_accounting_witness :
    validCigar [⟨'M', 50⟩, ⟨'D', 10⟩, ⟨'M', 20⟩] ∧
    ∃ r newLengths, ParseCigarBed12 [⟨'M', 50⟩, ⟨'D', 10⟩, ⟨'M', 20⟩] true 0 [] [] = .ok r ∧
      r.blockLengths = [] ++ newLengths ∧
      newLengths.sum + (skippedTotal true [⟨'M', 50⟩, ⟨'D', 10⟩, ⟨'M', 20⟩] : Int)
        = (r.alignmentEnd : Int) - ((0 : Nat) : Int) ∧
      (true = true → newLengths.sum = (kindTotal 'M' [⟨'M', 50⟩, ⟨'D', 10⟩, ⟨'M', 20⟩] : Int) ∧
        r.alignmentEnd = 0 + kindTotal 'M' [⟨'M', 50⟩, ⟨'D', 10⟩, ⟨'M', 20⟩]
          + kindTotal 'D' [⟨'M', 50⟩, ⟨'D', 10⟩, ⟨'M', 20⟩]
          + kindTotal 'N' [⟨'M', 50⟩, ⟨'D', 10⟩, ⟨'M', 20⟩]) :=
  ⟨by decide,
   C3_length_accounting [⟨'M', 50⟩, ⟨'D', 10⟩, ⟨'M', 20⟩] (by decide) true 0 [] []
     (by decide) (by decide)⟩

/-- Counterexample to C4 as stated: sixteen match ops of `2^27` bases hold only M
ops, yet the one appended block length is `-2147483648`, not the sum
`2147483648` of the M lengths. -/
theorem C4_counterexample :
    (∀ op ∈ longMatchCigar, op.OpType = 'M' ∨ op.OpType = 'I') ∧
    kindTotal 'M' longMatchCigar = 2147483648 ∧
    ParseCigarBed12 longMatchCigar false 0 [] [] =
      .ok ⟨2147483648, [], [-2147483648], 2147483648⟩ := by
  refine ⟨by decide, by decide, rfl⟩

theorem matchInsert_valid (ops : List CigarOp)
    (h : ∀ op ∈ ops, op.OpType = 'M' ∨ op.OpType = 'I') : validCigar ops := by
  intro op hop
  rcases h op hop with hk | hk <;> simp [validKind, hk]

theorem matchInsert_facts (d : Bool) (ops : List CigarOp)
    (h : ∀ op ∈ ops, op.OpType = 'M' ∨ op.OpType = 'I') :
    refTotal ops = kindTotal 'M' ops ∧ (∀ c, startsFrom d c ops = []) ∧
      (∀ a, lengthsFrom d a ops = [a + kindTotal 'M' ops]) := by
  induction ops with
  | nil => exact ⟨rfl, fun _ => rfl, fun a => by simp [lengthsFrom, kindTotal_nil]⟩
  | cons op rest ih =>
    obtain ⟨i1, i2, i3⟩ := ih (fun o ho => h o (List.mem_cons_of_mem _ ho))
    rcases h op (List.mem_cons_self _ _) with hk | hk
    · refine ⟨?_, fun c => ?_, fun a => ?_⟩
      · simp [refTotal_cons, refLength, kindTotal_cons, hk, i1]
      · simp [startsFrom, closesBlock, hk, i2]
      · simp [lengthsFrom, closesBlock, foldedLength, kindTotal_cons, hk, i3, Nat.add_assoc]
    · refine ⟨?_, fun c => ?_, fun a => ?_⟩
      · simp [refTotal_cons, refLength, kindTotal_cons, hk, i1]
      · simp [startsFrom, closesBlock, hk, i2]
      · simp [lengthsFrom, closesBlock, foldedLength, kindTotal_cons, hk, i3]

/-- C4, amended: on an operation list holding only M and I ops whose M lengths
sum to less than `2^31`, from a start cursor `c` with `c` plus that sum below
`2^32`, under either policy value, `ParseCigarBed12` appends no block start and
exactly one block length, the sum of the M lengths, and sets the end cursor to `c`
plus that sum. -/
theorem C4_match_insert_only (ops : List CigarOp)
    (h : ∀ op ∈ ops, op.OpType = 'M' ∨ op.OpType = 'I') (d : Bool) (c : Nat) (bs bl : List Int)
    (hov : c + kindTotal 'M' ops < 4294967296) (hlen : kindTotal 'M' ops < 2147483648) :
    ParseCigarBed12 ops d c bs bl = .ok
      { currStart := c + kindTotal 'M' ops
        blockStarts := bs
        blockLengths := bl ++ [(kindTotal 'M' ops : Int)]
        alignmentEnd := c + kindTotal 'M' ops } := by
  obtain ⟨f1, f2, f3⟩ := matchInsert_facts d ops h
  rw [ParseCigarBed12_ok d ops (matchInsert_valid ops h) c (by omega) bs bl, f1, f2, f3,
    wrap32_of_lt hov]
  simp [toInt32_of_lt hlen]

/-- Witness of C4: `30M 5I 20M` from cursor 7. -/
theorem C4_match_insert_only_witness :
    (∀ op ∈ [(⟨'M', 30⟩ : CigarOp), ⟨'I', 5⟩, ⟨'M', 20⟩], op.OpType = 'M' ∨ op.OpType = 'I') ∧
    ParseCigarBed12 [⟨'M', 30⟩, ⟨'I', 5⟩, ⟨'M', 20⟩] true 7 [3] [4] = .ok
      { currStart := 7 + kindTotal 'M' [⟨'M', 30⟩, ⟨'I', 5⟩, ⟨'M', 20⟩]
        blockStarts := [3]
        blockLengths := [4] ++ [(kindTotal 'M' [⟨'M', 30⟩, ⟨'I', 5⟩, ⟨'M', 20⟩] : Int)]
        alignmentEnd := 7 + kindTotal 'M' [⟨'M', 30⟩, ⟨'I', 5⟩, ⟨'M', 20⟩] } :=
  ⟨by decide,
   C4_match_insert_only [⟨'M', 30⟩, ⟨'I', 5⟩, ⟨'M', 20⟩] (by decide) true 7 [3] [4]
     (by decide) (by decide)⟩

theorem toInt32_eq_self_iff (x : Nat) : toInt32 x = (x : Int) ↔ x < 2147483648 := by
  unfold toInt32
  split <;> omega

theorem map_toInt32_eq_iff (l : List Nat) :
    l.map toInt32 = l.map Int.ofNat ↔ ∀ x ∈ l, x < 2147483648 := by
  rw [List.map_inj_left]
  exact forall_congr' fun x => imp_congr_right fun _ => toInt32_eq_self_iff x

/-- Counterexample to C5 as stated, one input for each 32-bit limit. On the valid
list `50M`, sixteen `N` of `2^27` bases, `20M`, from cursor 0, the last block start
the code appends is `50 - 2^31`, while the reference definition gives `50 + 2^31`.
On sixteen `M` of `2^27` bases the appended block length is `-2^31`, the reference
one `2^31`. On `1M` from cursor `2^32 - 1` the end cursor is 0, the reference one
`2^32`. -/
theorem C5_counterexample :
    validCigar longSkipCigar ∧
    (∃ r, ParseCigarBed12 longSkipCigar false 0 [] [] = .ok r ∧
      r.blockStarts.getLast? = some (-2147483598)) ∧
    ((referenceStarts false 0 longSkipCigar).map Int.ofNat).getLast? = some 2147483698 ∧
    validCigar longMatchCigar ∧
    (∃ r, ParseCigarBed12 longMatchCigar false 0 [] [] = .ok r ∧
      r.blockLengths = [-2147483648]) ∧
    (referenceLengths false longMatchCigar).map Int.ofNat = [2147483648] ∧
    (∃ r, ParseCigarBed12 [⟨'M', 1⟩] false 4294967295 [] [] = .ok r ∧ r.alignmentEnd = 0) ∧
    referenceEnd 4294967295 [⟨'M', 1⟩] = 4294967296 := by
  refine ⟨by decide, ⟨_, rfl, rfl⟩, by decide, by decide, ⟨_, rfl, rfl⟩, by decide,
    ⟨_, rfl, rfl⟩, by decide⟩

/-- C5, amended: for every valid operation list, start cursor `c` and policy
value, `ParseCigarBed12` equals the reference definition (it appends the
reference block starts and block lengths and ends at the reference end cursor)
whenever the reference values fit their 32-bit types: the end cursor, held in an
`unsigned int`, is below `2^32`, and every block start and block length, held in
an `int`, is below `2^31`. For a start cursor below `2^32` these bounds are also
necessary: when one of them fails the code differs from the reference. -/
theorem C5_reference_definition (ops : List CigarOp) (h : validCigar ops) (d : Bool) (c : Nat)
    (bs bl : List Int) :
    (referenceEnd c ops < 4294967296 ∧
        (∀ x ∈ referenceStarts d c ops, x < 2147483648) ∧
        (∀ x ∈ referenceLengths d ops, x < 2147483648) →
      ParseCigarBed12 ops d c bs bl = .ok
        { currStart := referenceEnd c ops
          blockStarts := bs ++ (referenceStarts d c ops).map Int.ofNat
          blockLengths := bl ++ (referenceLengths d ops).map Int.ofNat
          alignmentEnd := referenceEnd c ops }) ∧
    (c < 4294967296 →
      ParseCigarBed12 ops d c bs bl = .ok
        { currStart := referenceEnd c ops
          blockStarts := bs ++ (referenceStarts d c ops).map Int.ofNat
          blockLengths := bl ++ (referenceLengths d ops).map Int.ofNat
          alignmentEnd := referenceEnd c ops } →
      referenceEnd c ops < 4294967296 ∧
        (∀ x ∈ referenceStarts d c ops, x < 2147483648) ∧
        (∀ x ∈ referenceLengths d ops, x < 2147483648)) := by
  constructor
  · rintro ⟨hend, hs, hl⟩
    have hend2 : c + refTotal ops < 4294967296 := hend
    rw [ParseCigarBed12_ok d ops h c (by omega) bs bl, startsFrom_eq_reference,
      lengthsFrom_zero_eq_reference, (map_toInt32_eq_iff _).2 hs, (map_toInt32_eq_iff _).2 hl,
      wrap32_of_lt hend2]
    rfl
  · intro hc heq
    rw [ParseCigarBed12_ok d ops h c hc bs bl, startsFrom_eq_reference,
      lengthsFrom_zero_eq_reference] at heq
    injection heq with heq
    injection heq with h1 h2 h3 h4
    refine ⟨?_, (map_toInt32_eq_iff _).1 (List.append_cancel_left h2),
      (map_toInt32_eq_iff _).1 (List.append_cancel_left h3)⟩
    rw [← h1]
    exact Nat.mod_lt _ (by decide)

/-- Witness of C5: `50M 10D 20M` from cursor 0; without `delAsBlock` the lengths
are `[80]` with no new start, with it `[50, 20]` and the new start 60; the end
cursor is 80 in both. Also `3M 2N 10M` from cursor `2^31 - 8`, where the end
cursor passes `2^31` and the code still equals the reference. -/
theorem C5_reference_definition_witness :
    validCigar [⟨'M', 50⟩, ⟨'D', 10⟩, ⟨'M', 20⟩] ∧
    ParseCigarBed12 [⟨'M', 50⟩, ⟨'D', 10⟩, ⟨'M', 20⟩] false 0 [] [] = .ok ⟨80, [], [80], 80⟩ ∧
    ParseCigarBed12 [⟨'M', 50⟩, ⟨'D', 10⟩, ⟨'M', 20⟩] true 0 [] [] = .ok ⟨80, [60], [50, 20], 80⟩ ∧
    ParseCigarBed12 [⟨'M', 3⟩, ⟨'N', 2⟩, ⟨'M', 10⟩] false 2147483640 [] [] =
      .ok ⟨2147483655, [2147483645], [3, 10], 2147483655⟩ :=
  ⟨by decide,
   (C5_reference_definition [⟨'M', 50⟩, ⟨'D', 10⟩, ⟨'M', 20⟩] (by decide) false 0 [] []).1
     (by decide),
   (C5_reference_definition [⟨'M', 50⟩, ⟨'D', 10⟩, ⟨'M', 20⟩] (by decide) true 0 [] []).1
     (by decide),
   (C5_reference_definition [⟨'M', 3⟩, ⟨'N', 2⟩, ⟨'M', 10⟩] (by decide) false 2147483640 [] []).1
     (by decide)⟩

/-- C10: `ParseCigarBed12` ends in the fatal `Invalid Cigar op type` error exactly
when the list holds an op whose kind is outside M, I, S, D, P, N, H, and returns
normally exactly when every kind is in that set, under either policy value. -/
theorem C10_invalid_kind_fatal (ops : List CigarOp) (d : Bool) (c : Nat) (bs bl : List Int) :
    (ParseCigarBed12 ops d c bs bl = .error "Invalid Cigar op type" ↔
      ∃ op ∈ ops, ¬ (op.OpType = 'M' ∨ op.OpType = 'I' ∨ op.OpType = 'S' ∨ op.OpType = 'D' ∨
        op.OpType = 'P' ∨ op.OpType = 'N' ∨ op.OpType = 'H')) ∧
    ((∃ r, ParseCigarBed12 ops d c bs bl = .ok r) ↔
      ∀ op ∈ ops, op.OpType = 'M' ∨ op.OpType = 'I' ∨ op.OpType = 'S' ∨ op.OpType = 'D' ∨
        op.OpType = 'P' ∨ op.OpType = 'N' ∨ op.OpType = 'H') := by
  have hk : ∀ op : CigarOp, validKind op.OpType = true ↔
      (op.OpType = 'M' ∨ op.OpType = 'I' ∨ op.OpType = 'S' ∨ op.OpType = 'D' ∨
        op.OpType = 'P' ∨ op.OpType = 'N' ∨ op.OpType = 'H') := by
    intro op; simp [validKind, or_assoc]
  have hv : validCigar ops ↔ ∀ op ∈ ops, (op.OpType = 'M' ∨ op.OpType = 'I' ∨ op.OpType = 'S' ∨
      op.OpType = 'D' ∨ op.OpType = 'P' ∨ op.OpType = 'N' ∨ op.OpType = 'H') := by
    unfold validCigar
    exact forall_congr' (fun op => imp_congr Iff.rfl (hk op))
  by_cases hvalid : validCigar ops
  · obtain ⟨s1, ns, nl, e, _⟩ := cigarLoop_counts d ops hvalid ⟨c, bs, bl, 0⟩
    have hok : ParseCigarBed12 ops d c bs bl =
        .ok ⟨s1.currStart, s1.blockStarts, s1.blockLengths ++ [s1.blockLength], s1.currStart⟩ := by
      simp only [ParseCigarBed12, e]
    constructor
    · constructor
      · intro herr; rw [hok] at herr; cases herr
      · rintro ⟨op, hop, hnot⟩
        exact absurd (hv.1 hvalid op hop) hnot
    · exact ⟨fun _ => hv.1 hvalid, fun _ => ⟨_, hok⟩⟩
  · have herr := ParseCigarBed12_error d ops hvalid c bs bl
    constructor
    · constructor
      · intro _
        by_contra hne
        apply hvalid
        rw [hv]
        intro op hop
        by_contra hnot
        exact hne ⟨op, hop, hnot⟩
      · intro _; exact herr
    · constructor
      · rintro ⟨r, hr⟩; rw [herr] at hr; cases hr
      · intro hall; exact absurd (hv.2 hall) hvalid

/-! ## Lemmas on the record loop -/

theorem flushBuffer_bamBuffer (cfg : Config) (name : String) (s : ConvertState) :
    (flushBuffer cfg name s).bamBuffer = [] := by
  unfold flushBuffer; split <;> rfl

theorem checkBufferSize_flush (cfg : Config) (name : String) (s : ConvertState) (a : Action) :
    checkBufferSize (flushBuffer cfg name s) a = .ok (flushBuffer cfg name s, a) := by
  unfold checkBufferSize
  rw [flushBuffer_bamBuffer]
  simp [bamBufferMaxSize]

theorem processRecord_below (cfg : Config) (s : ConvertState) (bam buffered : BamAlignment)
    (hp : bam.IsProperPair = true) (hf : bufferFind bam.Name s.bamBuffer = some buffered)
    (hq : ((orderPair bam buffered).1.MapQuality : Int) + ((orderPair bam buffered).2.MapQuality : Int)
      < cfg.minMapQuality) :
    processRecord cfg s bam = .ok
      (flushBuffer cfg bam.Name
        { s with
          notHasMinMapQualityBED12 := s.notHasMinMapQualityBED12 + 1
          writer :=
            if cfg.trackUnprocessed = true then
              s.writer ++ [(orderPair bam buffered).1, (orderPair bam buffered).2]
            else s.writer },
       Action.DivertedBelowQuality (orderPair bam buffered).1 (orderPair bam buffered).2) := by
  unfold processRecord
  simp only [hp, hf, if_true]
  rw [if_neg (by omega)]
  exact checkBufferSize_flush _ _ _ _

theorem processRecord_emit (cfg : Config) (s : ConvertState) (bam buffered : BamAlignment)
    (line : Bed12)
    (hp : bam.IsProperPair = true) (hf : bufferFind bam.Name s.bamBuffer = some buffered)
    (hq : ((orderPair bam buffered).1.MapQuality : Int) + ((orderPair bam buffered).2.MapQuality : Int)
      ≥ cfg.minMapQuality)
    (hl : PrintPairedBed12 (orderPair bam buffered).1 (orderPair bam buffered).2 cfg.refs
      cfg.delAsBlock cfg.color = .ok line) :
    processRecord cfg s bam = .ok
      (flushBuffer cfg bam.Name
        { s with ProcessedBED12 := s.ProcessedBED12 + 1, bedOut := s.bedOut ++ [line] },
       Action.Emit (orderPair bam buffered).1 (orderPair bam buffered).2
        (((orderPair bam buffered).1.MapQuality : Int) + ((orderPair bam buffered).2.MapQuality : Int))) := by
  unfold processRecord
  simp only [hp, hf, if_true]
  rw [if_pos hq]
  simp only [hl]
  exact checkBufferSize_flush _ _ _ _

theorem processRecord_invalid (cfg : Config) (s : ConvertState) (bam buffered : BamAlignment)
    (e : Fatal)
    (hp : bam.IsProperPair = true) (hf : bufferFind bam.Name s.bamBuffer = some buffered)
    (hq : ((orderPair bam buffered).1.MapQuality : Int) + ((orderPair bam buffered).2.MapQuality : Int)
      ≥ cfg.minMapQuality)
    (hl : PrintPairedBed12 (orderPair bam buffered).1 (orderPair bam buffered).2 cfg.refs
      cfg.delAsBlock cfg.color = .error e) :
    processRecord cfg s bam = .error e := by
  unfold processRecord
  simp only [hp, hf, if_true]
  rw [if_pos hq]
  simp only [hl]

theorem bufferInsert_length (name : String) (bam : BamAlignment) (buf : BamBuffer) :
    (bufferInsert name bam buf).length = buf.length + 1 := by
  induction buf with
  | nil => rfl
  | cons kv rest ih =>
    obtain ⟨k, v⟩ := kv
    unfold bufferInsert
    split
    · simp
    · simp [ih]

theorem bufferFind_insert_ne (name k : String) (bam : BamAlignment) (buf : BamBuffer)
    (hne : name ≠ k) : bufferFind k (bufferInsert name bam buf) = bufferFind k buf := by
  induction buf with
  | nil => simp [bufferInsert, bufferFind, hne]
  | cons kv rest ih =>
    obtain ⟨k1, v⟩ := kv
    unfold bufferInsert
    split
    · simp [bufferFind, hne]
    · simp [bufferFind, ih]

theorem processRecord_absent (cfg : Config) (s : ConvertState) (bam : BamAlignment)
    (hp : bam.IsProperPair = true) (hf : bufferFind bam.Name s.bamBuffer = none) :
    processRecord cfg s bam =
      if s.bamBuffer.length + 1 > bamBufferMaxSize then .error Fatal.sortOrder
      else .ok ({ s with bamBuffer := bufferInsert bam.Name bam s.bamBuffer }, Action.Buffered) := by
  unfold processRecord
  simp only [hp, hf, if_true, checkBufferSize, bufferInsert_length]

theorem orderPair_cases (bam buffered : BamAlignment) :
    orderPair bam buffered = (bam, buffered) ∨ orderPair bam buffered = (buffered, bam) := by
  unfold orderPair; split <;> simp

/-! ## Properties of the record loop -/

theorem validCigar_orderPair (bam buffered : BamAlignment) :
    (validCigar (orderPair bam buffered).1.CigarData ∧
        validCigar (orderPair bam buffered).2.CigarData) ↔
      (validCigar bam.CigarData ∧ validCigar buffered.CigarData) := by
  rcases orderPair_cases bam buffered with h | h <;> rw [h]
  exact And.comm

/-- The step that completes a pair at or above the threshold: it emits when the
leftmost mate's `RefID` is in the table and both operation lists are valid, and
it dies in the chromosome lookup or in the CIGAR parser otherwise. -/
theorem processRecord_reached (cfg : Config) (s : ConvertState) (bam buffered : BamAlignment)
    (hp : bam.IsProperPair = true) (hf : bufferFind bam.Name s.bamBuffer = some buffered)
    (hq : ((orderPair bam buffered).1.MapQuality : Int) + ((orderPair bam buffered).2.MapQuality : Int)
      ≥ cfg.minMapQuality) :
    (¬ inRefTable cfg.refs (orderPair bam buffered).1.RefID →
      processRecord cfg s bam = .error Fatal.refOutOfRange) ∧
    (inRefTable cfg.refs (orderPair bam buffered).1.RefID →
      ¬ (validCigar bam.CigarData ∧ validCigar buffered.CigarData) →
      processRecord cfg s bam = .error Fatal.invalidCigarOp) ∧
    (inRefTable cfg.refs (orderPair bam buffered).1.RefID →
      validCigar bam.CigarData ∧ validCigar buffered.CigarData →
      ∃ line, PrintPairedBed12 (orderPair bam buffered).1 (orderPair bam buffered).2 cfg.refs
          cfg.delAsBlock cfg.color = .ok line ∧
        processRecord cfg s bam = .ok
          (flushBuffer cfg bam.Name
            { s with ProcessedBED12 := s.ProcessedBED12 + 1, bedOut := s.bedOut ++ [line] },
           Action.Emit (orderPair bam buffered).1 (orderPair bam buffered).2
            (((orderPair bam buffered).1.MapQuality : Int) +
              ((orderPair bam buffered).2.MapQuality : Int)))) := by
  refine ⟨fun hin => ?_, fun hin hv => ?_, fun hin hv => ?_⟩
  · exact processRecord_invalid cfg s bam buffered _ hp hf hq
      (PrintPairedBed12_refOutOfRange _ _ _ _ _ hin)
  · exact processRecord_invalid cfg s bam buffered _ hp hf hq
      (PrintPairedBed12_invalid _ _ _ _ _ hin (fun h => hv ((validCigar_orderPair bam buffered).1 h)))
  · obtain ⟨line, hl⟩ := (PrintPairedBed12_isOk_iff (orderPair bam buffered).1
      (orderPair bam buffered).2 cfg.refs cfg.delAsBlock cfg.color).2
      ⟨hin, (validCigar_orderPair bam buffered).2 hv⟩
    exact ⟨line, hl, processRecord_emit cfg s bam buffered line hp hf hq hl⟩

/-- Counterexample to C6 as stated: the buffer holds `r`, the incoming properly
paired record is named `r` and the pair reaches the threshold. When the incoming
CIGAR is `50=` the step ends in `Invalid Cigar op type`; when both CIGARs are
`50M` and the leftmost mate's `RefID` is 1 in a one-entry reference table the
step ends in the uncaught out-of-range exception. In both there is neither an
emission nor a diversion and the buffer is never cleared. -/
theorem C6_counterexample :
    (mkMate "r" 150 30 false [⟨'=', 50⟩]).IsProperPair = true ∧
    bufferFind "r" (stateWith (mkMate "r" 100 30 true [⟨'M', 50⟩])).bamBuffer
      = some (mkMate "r" 100 30 true [⟨'M', 50⟩]) ∧
    processRecord (cfgOf false 0) (stateWith (mkMate "r" 100 30 true [⟨'M', 50⟩]))
      (mkMate "r" 150 30 false [⟨'=', 50⟩]) = .error Fatal.invalidCigarOp ∧
    (mkMate "r" 150 30 false [⟨'M', 50⟩]).IsProperPair = true ∧
    bufferFind "r" (stateWith { mkMate "r" 100 30 true [⟨'M', 50⟩] with RefID := 1 }).bamBuffer
      = some { mkMate "r" 100 30 true [⟨'M', 50⟩] with RefID := 1 } ∧
    processRecord (cfgOf false 0)
      (stateWith { mkMate "r" 100 30 true [⟨'M', 50⟩] with RefID := 1 })
      (mkMate "r" 150 30 false [⟨'M', 50⟩]) = .error Fatal.refOutOfRange :=
  ⟨rfl, rfl, rfl, rfl, rfl, rfl⟩

/-- C6, amended: for every state whose buffer holds a record under the name of a
properly paired incoming record, for either setting of the diversion output, the
step is never `Buffered` and never the fatal bound error. Whenever the pair is
below the quality threshold, or the leftmost mate's `RefID` names an entry of the
reference table and both operation lists are valid, the step yields exactly one
of `Emit` (threshold reached) or `DivertedBelowQuality` (threshold missed) for
the ordered pair and the buffer is empty afterwards. In every other case the
step is fatal: with the out-of-range exception of the chromosome lookup when the
`RefID` is outside the table, with `Invalid Cigar op type` otherwise. -/
theorem C6_pair_resolution (cfg : Config) (s : ConvertState) (bam buffered : BamAlignment)
    (hp : bam.IsProperPair = true) (hf : bufferFind bam.Name s.bamBuffer = some buffered) :
    processRecord cfg s bam ≠ .error Fatal.sortOrder ∧
    (∀ s1, processRecord cfg s bam ≠ .ok (s1, Action.Buffered)) ∧
    ((aggregateQuality bam buffered < cfg.minMapQuality ∨
        (inRefTable cfg.refs (orderPair bam buffered).1.RefID ∧
          validCigar bam.CigarData ∧ validCigar buffered.CigarData)) →
      ∃ s1 a, processRecord cfg s bam = .ok (s1, a) ∧ s1.bamBuffer = [] ∧
        ((aggregateQuality bam buffered ≥ cfg.minMapQuality ∧
          a = Action.Emit (orderPair bam buffered).1 (orderPair bam buffered).2
            (aggregateQuality bam buffered)) ∨
         (aggregateQuality bam buffered < cfg.minMapQuality ∧
          a = Action.DivertedBelowQuality (orderPair bam buffered).1
            (orderPair bam buffered).2))) ∧
    (aggregateQuality bam buffered ≥ cfg.minMapQuality →
      ¬ inRefTable cfg.refs (orderPair bam buffered).1.RefID →
      processRecord cfg s bam = .error Fatal.refOutOfRange) ∧
    (aggregateQuality bam buffered ≥ cfg.minMapQuality →
      inRefTable cfg.refs (orderPair bam buffered).1.RefID →
      ¬ (validCigar bam.CigarData ∧ validCigar buffered.CigarData) →
      processRecord cfg s bam = .error Fatal.invalidCigarOp) := by
  by_cases hq : aggregateQuality bam buffered < cfg.minMapQuality
  · have hstep := processRecord_below cfg s bam buffered hp hf hq
    refine ⟨?_, ?_, fun _ => ⟨_, _, hstep, flushBuffer_bamBuffer _ _ _, Or.inr ⟨hq, rfl⟩⟩,
      fun hge => absurd hq (by omega), fun hge => absurd hq (by omega)⟩
    · rw [hstep]; simp
    · intro s1; rw [hstep]; simp
  · have hge : aggregateQuality bam buffered ≥ cfg.minMapQuality := by omega
    obtain ⟨hout, hinv, hemit⟩ := processRecord_reached cfg s bam buffered hp hf hge
    refine ⟨?_, ?_, ?_, fun _ => hout, fun _ => hinv⟩
    · by_cases hin : inRefTable cfg.refs (orderPair bam buffered).1.RefID
      · by_cases hv : validCigar bam.CigarData ∧ validCigar buffered.CigarData
        · obtain ⟨line, _, hstep⟩ := hemit hin hv
          rw [hstep]; simp
        · rw [hinv hin hv]; simp
      · rw [hout hin]; simp
    · intro s1
      by_cases hin : inRefTable cfg.refs (orderPair bam buffered).1.RefID
      · by_cases hv : validCigar bam.CigarData ∧ validCigar buffered.CigarData
        · obtain ⟨line, _, hstep⟩ := hemit hin hv
          rw [hstep]; simp
        · rw [hinv hin hv]; simp
      · rw [hout hin]; simp
    · intro hc
      rcases hc with h | ⟨hin, hv⟩
      · exact absurd h hq
      · obtain ⟨line, _, hstep⟩ := hemit hin hv
        exact ⟨_, _, hstep, flushBuffer_bamBuffer _ _ _, Or.inl ⟨hge, rfl⟩⟩

/-- Witness of C6: mates at 100 and 150, `50M` each, on reference 0 of a one-entry
table, threshold 0, with another name resident in the buffer. -/
theorem C6_pair_resolution_witness :
    ∃ s1 a, processRecord (cfgOf true 0)
        { ConvertState.init with
          bamBuffer := [("q", mkMate "q" 7 30 true [⟨'M', 50⟩]),
                        ("r", mkMate "r" 100 30 true [⟨'M', 50⟩])] }
        (mkMate "r" 150 30 false [⟨'M', 50⟩]) = .ok (s1, a) ∧
      s1.bamBuffer = [] ∧
      (((60 : Int) ≥ 0 ∧
        a = Action.Emit (mkMate "r" 100 30 true [⟨'M', 50⟩]) (mkMate "r" 150 30 false [⟨'M', 50⟩]) 60) ∨
       ((60 : Int) < 0 ∧
        a = Action.DivertedBelowQuality (mkMate "r" 100 30 true [⟨'M', 50⟩])
          (mkMate "r" 150 30 false [⟨'M', 50⟩]))) :=
  (C6_pair_resolution (cfgOf true 0)
    { ConvertState.init with
      bamBuffer := [("q", mkMate "q" 7 30 true [⟨'M', 50⟩]),
                    ("r", mkMate "r" 100 30 true [⟨'M', 50⟩])] }
    (mkMate "r" 150 30 false [⟨'M', 50⟩]) (mkMate "r" 100 30 true [⟨'M', 50⟩]) rfl rfl).2.2.1
    (Or.inr ⟨by decide, by decide, by decide⟩)

theorem flushBuffer_fields (cfg : Config) (name : String) (s : ConvertState) :
    (flushBuffer cfg name s).bedOut = s.bedOut ∧
    (flushBuffer cfg name s).ProcessedBED12 = s.ProcessedBED12 ∧
    (flushBuffer cfg name s).notHasMinMapQualityBED12 = s.notHasMinMapQualityBED12 ∧
    (flushBuffer cfg name s).notInProperPairBam = s.notInProperPairBam ∧
    (flushBuffer cfg name s).writer =
      (if cfg.trackUnprocessed = true then
        s.writer ++ (bufferErase name s.bamBuffer).map (fun kv => kv.2)
       else s.writer) ∧
    (flushBuffer cfg name s).notPairedInNameBam =
      (if cfg.trackUnprocessed = true then
        s.notPairedInNameBam + (bufferErase name s.bamBuffer).length
       else s.notPairedInNameBam) := by
  unfold flushBuffer
  split <;> simp

/-- Counterexample to C7 as stated: combined map quality 60 reaches the threshold
0, yet no interval is emitted. With the buffered mate's CIGAR `50X` the step ends
in `Invalid Cigar op type`; with both CIGARs `50M` and the leftmost mate's `RefID`
1 in a one-entry reference table it ends in the uncaught out-of-range
exception. -/
theorem C7_counterexample :
    bufferFind "r" (stateWith (mkMate "r" 100 30 true [⟨'X', 50⟩])).bamBuffer
      = some (mkMate "r" 100 30 true [⟨'X', 50⟩]) ∧
    aggregateQuality (mkMate "r" 150 30 false [⟨'M', 50⟩]) (mkMate "r" 100 30 true [⟨'X', 50⟩])
      ≥ (cfgOf true 0).minMapQuality ∧
    processRecord (cfgOf true 0) (stateWith (mkMate "r" 100 30 true [⟨'X', 50⟩]))
      (mkMate "r" 150 30 false [⟨'M', 50⟩]) = .error Fatal.invalidCigarOp ∧
    bufferFind "r" (stateWith { mkMate "r" 100 30 true [⟨'M', 50⟩] with RefID := 1 }).bamBuffer
      = some { mkMate "r" 100 30 true [⟨'M', 50⟩] with RefID := 1 } ∧
    aggregateQuality (mkMate "r" 150 30 false [⟨'M', 50⟩])
        { mkMate "r" 100 30 true [⟨'M', 50⟩] with RefID := 1 }
      ≥ (cfgOf true 0).minMapQuality ∧
    processRecord (cfgOf true 0)
      (stateWith { mkMate "r" 100 30 true [⟨'M', 50⟩] with RefID := 1 })
      (mkMate "r" 150 30 false [⟨'M', 50⟩]) = .error Fatal.refOutOfRange :=
  ⟨rfl, by decide, rfl, rfl, by decide, rfl⟩

/-- C7, amended: for every completed pair and every integer threshold, the pair
is emitted as an interval, and the emitted-pairs counter grows by 1, if and only
if `bam1.MapQuality + bam2.MapQuality >= minMapQuality` (inclusive), `bam1.RefID`
names an entry of the reference table and both operation lists are valid; and
whenever the sum is below the threshold no interval is emitted, the below-quality
counter grows by exactly 1 and, with the diversion output enabled, both records
are written there (before the buffer residue), nothing being written
otherwise. -/
theorem C7_quality_threshold (cfg : Config) (s : ConvertState) (bam buffered : BamAlignment)
    (hp : bam.IsProperPair = true) (hf : bufferFind bam.Name s.bamBuffer = some buffered) :
    ((∃ s1 line,
        processRecord cfg s bam = .ok (s1,
          Action.Emit (orderPair bam buffered).1 (orderPair bam buffered).2
            (aggregateQuality bam buffered)) ∧
        PrintPairedBed12 (orderPair bam buffered).1 (orderPair bam buffered).2 cfg.refs
          cfg.delAsBlock cfg.color = .ok line ∧
        s1.bedOut = s.bedOut ++ [line] ∧
        s1.ProcessedBED12 = s.ProcessedBED12 + 1 ∧
        s1.notHasMinMapQualityBED12 = s.notHasMinMapQualityBED12)
      ↔ (aggregateQuality bam buffered ≥ cfg.minMapQuality ∧
          inRefTable cfg.refs (orderPair bam buffered).1.RefID ∧
          validCigar bam.CigarData ∧ validCigar buffered.CigarData)) ∧
    (aggregateQuality bam buffered < cfg.minMapQuality →
      ∃ s1,
        processRecord cfg s bam = .ok (s1,
          Action.DivertedBelowQuality (orderPair bam buffered).1 (orderPair bam buffered).2) ∧
        s1.bedOut = s.bedOut ∧
        s1.ProcessedBED12 = s.ProcessedBED12 ∧
        s1.notHasMinMapQualityBED12 = s.notHasMinMapQualityBED12 + 1 ∧
        s1.writer =
          (if cfg.trackUnprocessed = true then
            s.writer ++ [(orderPair bam buffered).1, (orderPair bam buffered).2] ++
              (bufferErase bam.Name s.bamBuffer).map (fun kv => kv.2)
           else s.writer)) := by
  constructor
  · constructor
    · rintro ⟨s1, line, hstep, hl, _⟩
      have hge : aggregateQuality bam buffered ≥ cfg.minMapQuality := by
        by_contra hlt
        have hq : aggregateQuality bam buffered < cfg.minMapQuality := by omega
        rw [processRecord_below cfg s bam buffered hp hf hq] at hstep
        cases hstep
      obtain ⟨hin, hv⟩ := (PrintPairedBed12_isOk_iff _ _ _ _ _).1 ⟨line, hl⟩
      exact ⟨hge, hin, (validCigar_orderPair bam buffered).1 hv⟩
    · rintro ⟨hge, hin, hv⟩
      obtain ⟨line, hl, hstep⟩ := (processRecord_reached cfg s bam buffered hp hf hge).2.2 hin hv
      obtain ⟨f1, f2, f3, _, _, _⟩ := flushBuffer_fields cfg bam.Name
        { s with ProcessedBED12 := s.ProcessedBED12 + 1, bedOut := s.bedOut ++ [line] }
      exact ⟨_, line, hstep, hl, f1, f2, f3⟩
  · intro hq
    obtain ⟨f1, f2, f3, _, f5, _⟩ := flushBuffer_fields cfg bam.Name
      { s with
        notHasMinMapQualityBED12 := s.notHasMinMapQualityBED12 + 1
        writer :=
          if cfg.trackUnprocessed = true then
            s.writer ++ [(orderPair bam buffered).1, (orderPair bam buffered).2]
          else s.writer }
    refine ⟨_, processRecord_below cfg s bam buffered hp hf hq, f1, f2, f3, ?_⟩
    rw [f5]
    by_cases ht : cfg.trackUnprocessed = true <;> simp [ht]

/-- Witness of C7: combined map quality 10 against threshold 20 emits nothing and
diverts both records; combined map quality 60 against threshold 0 emits one
interval. -/
theorem C7_quality_threshold_witness :
    (∃ s1,
      processRecord (cfgOf true 20) (stateWith (mkMate "r" 100 5 true [⟨'M', 50⟩]))
          (mkMate "r" 150 5 false [⟨'M', 50⟩]) = .ok (s1,
        Action.DivertedBelowQuality (mkMate "r" 100 5 true [⟨'M', 50⟩])
          (mkMate "r" 150 5 false [⟨'M', 50⟩])) ∧
      s1.bedOut = [] ∧ s1.ProcessedBED12 = 0 ∧ s1.notHasMinMapQualityBED12 = 1 ∧
      s1.writer = [mkMate "r" 100 5 true [⟨'M', 50⟩], mkMate "r" 150 5 false [⟨'M', 50⟩]]) ∧
    (∃ s1 line,
      processRecord (cfgOf true 0) (stateWith (mkMate "r" 100 30 true [⟨'M', 50⟩]))
          (mkMate "r" 150 30 false [⟨'M', 50⟩]) = .ok (s1,
        Action.Emit (mkMate "r" 100 30 true [⟨'M', 50⟩]) (mkMate "r" 150 30 false [⟨'M', 50⟩]) 60) ∧
      PrintPairedBed12 (mkMate "r" 100 30 true [⟨'M', 50⟩]) (mkMate "r" 150 30 false [⟨'M', 50⟩])
        refsChr1 false "255,0,0" = .ok line ∧
      s1.bedOut = [line] ∧ s1.ProcessedBED12 = 1 ∧ s1.notHasMinMapQualityBED12 = 0) :=
  ⟨(C7_quality_threshold (cfgOf true 20) (stateWith (mkMate "r" 100 5 true [⟨'M', 50⟩]))
      (mkMate "r" 150 5 false [⟨'M', 50⟩]) (mkMate "r" 100 5 true [⟨'M', 50⟩]) rfl rfl).2
      (by decide),
   (C7_quality_threshold (cfgOf true 0) (stateWith (mkMate "r" 100 30 true [⟨'M', 50⟩]))
      (mkMate "r" 150 30 false [⟨'M', 50⟩]) (mkMate "r" 100 30 true [⟨'M', 50⟩]) rfl rfl).1.2
      ⟨by decide, by decide, by decide, by decide⟩⟩

theorem processRecord_view (cfg : Config) (s t : ConvertState) (x : BamAlignment)
    (hb : s.bamBuffer = t.bamBuffer) (ho : s.bedOut = t.bedOut) :
    pairingView (processRecord cfg s x) = pairingView (processRecord cfg t x) := by
  by_cases hp : x.IsProperPair = true
  · cases hfd : bufferFind x.Name t.bamBuffer with
    | none =>
      have hfs : bufferFind x.Name s.bamBuffer = none := by rw [hb]; exact hfd
      rw [processRecord_absent cfg s x hp hfs, processRecord_absent cfg t x hp hfd, hb]
      split <;> simp [pairingView, ho, hb]
    | some e =>
      have hfs : bufferFind x.Name s.bamBuffer = some e := by rw [hb]; exact hfd
      by_cases hq : aggregateQuality x e < cfg.minMapQuality
      · rw [processRecord_below cfg s x e hp hfs hq, processRecord_below cfg t x e hp hfd hq]
        simp [pairingView, flushBuffer_bamBuffer, flushBuffer_fields, ho]
      · have hge : aggregateQuality x e ≥ cfg.minMapQuality := by omega
        cases hl : PrintPairedBed12 (orderPair x e).1 (orderPair x e).2 cfg.refs
            cfg.delAsBlock cfg.color with
        | error err =>
          rw [processRecord_invalid cfg s x e err hp hfs hge hl,
            processRecord_invalid cfg t x e err hp hfd hge hl]
        | ok line =>
          rw [processRecord_emit cfg s x e line hp hfs hge hl,
            processRecord_emit cfg t x e line hp hfd hge hl]
          simp [pairingView, flushBuffer_bamBuffer, flushBuffer_fields, ho]
  · unfold processRecord
    simp [hp, pairingView, hb, ho]

theorem pairingView_ok {r : Except Fatal (ConvertState × Action)} {b : BamBuffer}
    {o : List Bed12} {a : Action} (h : pairingView r = .ok (b, o, a)) :
    ∃ s, r = .ok (s, a) ∧ s.bamBuffer = b ∧ s.bedOut = o := by
  cases r with
  | error e => simp [pairingView] at h
  | ok v =>
    obtain ⟨s, a1⟩ := v
    simp [pairingView] at h
    obtain ⟨h1, h2, h3⟩ := h
    exact ⟨s, by rw [h3], h1, h2⟩

theorem convertLoop_view (cfg : Config) (l : List BamAlignment) :
    ∀ s t : ConvertState, s.bamBuffer = t.bamBuffer → s.bedOut = t.bedOut →
      loopView (convertLoop cfg s l) = loopView (convertLoop cfg t l) := by
  induction l with
  | nil => intro s t hb ho; simp [convertLoop, loopView, hb, ho]
  | cons x rest ih =>
    intro s t hb ho
    have hstep := processRecord_view cfg s t x hb ho
    cases hs : processRecord cfg s x with
    | error e =>
      rw [hs] at hstep
      cases ht : processRecord cfg t x with
      | error e1 =>
        rw [ht] at hstep
        simp [pairingView] at hstep
        simp [convertLoop, hs, ht, loopView, hstep]
      | ok v => rw [ht] at hstep; simp [pairingView] at hstep
    | ok v =>
      obtain ⟨s1, a⟩ := v
      rw [hs] at hstep
      obtain ⟨t1, ht, htb, hto⟩ := pairingView_ok hstep.symm
      have hrec := ih s1 t1 htb.symm hto.symm
      simp only [convertLoop, hs, ht]
      cases h1 : convertLoop cfg s1 rest with
      | error e =>
        rw [h1] at hrec
        cases h2 : convertLoop cfg t1 rest with
        | error e1 =>
          rw [h2] at hrec
          simp [loopView] at hrec
          simp [loopView, hrec]
        | ok w => rw [h2] at hrec; simp [loopView] at hrec
      | ok w =>
        obtain ⟨s2, acts⟩ := w
        rw [h1] at hrec
        cases h2 : convertLoop cfg t1 rest with
        | error e1 => rw [h2] at hrec; simp [loopView] at hrec
        | ok w2 =>
          obtain ⟨t2, acts2⟩ := w2
          rw [h2] at hrec
          simp [loopView] at hrec
          obtain ⟨r1, r2, r3⟩ := hrec
          simp [loopView, r1, r2, r3]

/-- C8: a record whose proper-pair flag is false is `DivertedNotProperPair`: the
buffer is unchanged, nothing is printed, of the four counters only
`notInProperPairBam` changes, by one; and every later run from the resulting
state has the same actions, printed lines and buffer as from the state before,
so the record does not change how mates are paired. -/
theorem C8_not_proper_pair (cfg : Config) (s : ConvertState) (bam : BamAlignment)
    (hp : bam.IsProperPair = false) :
    ∃ s1, processRecord cfg s bam = .ok (s1, Action.DivertedNotProperPair) ∧
      s1.bamBuffer = s.bamBuffer ∧ s1.bedOut = s.bedOut ∧
      s1.notInProperPairBam = s.notInProperPairBam + 1 ∧
      s1.notPairedInNameBam = s.notPairedInNameBam ∧
      s1.notHasMinMapQualityBED12 = s.notHasMinMapQualityBED12 ∧
      s1.ProcessedBED12 = s.ProcessedBED12 ∧
      ∀ later : List BamAlignment,
        loopView (convertLoop cfg s1 later) = loopView (convertLoop cfg s later) := by
  refine ⟨{ s with
            notInProperPairBam := s.notInProperPairBam + 1
            writer := if cfg.trackUnprocessed = true then s.writer ++ [bam] else s.writer },
    ?_, rfl, rfl, rfl, rfl, rfl, rfl, ?_⟩
  · unfold processRecord
    simp [hp]
  · intro later
    exact convertLoop_view cfg later _ _ rfl rfl

/-- Witness of C8: a record that is not properly paired arrives between the two
mates of `r`; the run ends with the same emission as without it. -/
theorem C8_not_proper_pair_witness :
    ∃ s1, processRecord (cfgOf true 0) (stateWith (mkMate "r" 100 30 true [⟨'M', 50⟩]))
        { mkMate "x" 120 30 true [⟨'M', 50⟩] with IsProperPair := false }
        = .ok (s1, Action.DivertedNotProperPair) ∧
      s1.bamBuffer = [("r", mkMate "r" 100 30 true [⟨'M', 50⟩])] ∧ s1.bedOut = [] ∧
      s1.notInProperPairBam = 1 ∧ s1.notPairedInNameBam = 0 ∧
      s1.notHasMinMapQualityBED12 = 0 ∧ s1.ProcessedBED12 = 0 ∧
      ∀ later : List BamAlignment,
        loopView (convertLoop (cfgOf true 0) s1 later) =
          loopView (convertLoop (cfgOf true 0) (stateWith (mkMate "r" 100 30 true [⟨'M', 50⟩]))
            later) :=
  C8_not_proper_pair (cfgOf true 0) (stateWith (mkMate "r" 100 30 true [⟨'M', 50⟩]))
    { mkMate "x" 120 30 true [⟨'M', 50⟩] with IsProperPair := false } rfl

theorem convertLoop_cons (cfg : Config) (s : ConvertState) (x : BamAlignment)
    (rest : List BamAlignment) :
    convertLoop cfg s (x :: rest) =
      match processRecord cfg s x with
      | .error e => .error e
      | .ok (s1, a) =>
        match convertLoop cfg s1 rest with
        | .error e => .error e
        | .ok (s2, acts) => .ok (s2, a :: acts) := rfl

theorem convertLoop_append (cfg : Config) (l1 l2 : List BamAlignment) :
    ∀ s : ConvertState, convertLoop cfg s (l1 ++ l2) =
      match convertLoop cfg s l1 with
      | .error e => .error e
      | .ok (s1, a1) =>
        match convertLoop cfg s1 l2 with
        | .error e => .error e
        | .ok (s2, a2) => .ok (s2, a1 ++ a2) := by
  induction l1 with
  | nil =>
    intro s
    simp only [List.nil_append, convertLoop]
    cases convertLoop cfg s l2 with
    | error e => rfl
    | ok v => rfl
  | cons x rest ih =>
    intro s
    rw [List.cons_append, convertLoop_cons, convertLoop_cons]
    cases processRecord cfg s x with
    | error e => rfl
    | ok v =>
      obtain ⟨s1, a⟩ := v
      simp only [ih s1]
      cases convertLoop cfg s1 rest with
      | error e => rfl
      | ok w =>
        obtain ⟨s2, acts⟩ := w
        simp only []
        cases convertLoop cfg s2 l2 with
        | error e => rfl
        | ok w2 => rfl

theorem convertLoop_distinct (cfg : Config) (stream : List BamAlignment) :
    ∀ s : ConvertState,
      (∀ r ∈ stream, r.IsProperPair = true) →
      (stream.map (fun r => r.Name)).Nodup →
      (∀ r ∈ stream, bufferFind r.Name s.bamBuffer = none) →
      s.bamBuffer.length + stream.length ≤ 1000 →
      ∃ s1, convertLoop cfg s stream = .ok (s1, List.replicate stream.length Action.Buffered) ∧
        s1.bamBuffer.length = s.bamBuffer.length + stream.length ∧
        ∀ k, (∀ r ∈ stream, r.Name ≠ k) → bufferFind k s1.bamBuffer = bufferFind k s.bamBuffer := by
  induction stream with
  | nil =>
    intro s _ _ _ _
    exact ⟨s, rfl, rfl, fun _ _ => rfl⟩
  | cons x rest ih =>
    intro s hp hnd habs hlen
    have hx : x.IsProperPair = true := hp x (List.mem_cons_self _ _)
    have hxa : bufferFind x.Name s.bamBuffer = none := habs x (List.mem_cons_self _ _)
    simp only [List.map_cons, List.nodup_cons, List.mem_map, not_exists, not_and] at hnd
    simp only [List.length_cons] at hlen
    have hstep : processRecord cfg s x =
        .ok ({ s with bamBuffer := bufferInsert x.Name x s.bamBuffer }, Action.Buffered) := by
      rw [processRecord_absent cfg s x hx hxa, if_neg]
      simp only [bamBufferMaxSize]
      omega
    obtain ⟨s1, h1, h2, h3⟩ := ih { s with bamBuffer := bufferInsert x.Name x s.bamBuffer }
      (fun r hr => hp r (List.mem_cons_of_mem _ hr)) hnd.2
      (fun r hr => by
        have hne : x.Name ≠ r.Name := fun he => hnd.1 r hr he.symm
        show bufferFind r.Name (bufferInsert x.Name x s.bamBuffer) = none
        rw [bufferFind_insert_ne _ _ _ _ hne]
        exact habs r (List.mem_cons_of_mem _ hr))
      (by
        show (bufferInsert x.Name x s.bamBuffer).length + rest.length ≤ 1000
        rw [bufferInsert_length]; omega)
    refine ⟨s1, ?_, ?_, ?_⟩
    · simp only [convertLoop, hstep, h1, List.length_cons, List.replicate_succ]
    · rw [h2]
      show (bufferInsert x.Name x s.bamBuffer).length + rest.length = _
      rw [bufferInsert_length, List.length_cons]; omega
    · intro k hk
      rw [h3 k (fun r hr => hk r (List.mem_cons_of_mem _ hr))]
      exact bufferFind_insert_ne _ _ _ _ (hk x (List.mem_cons_self _ _))

/-- Counterexample to C9 as stated: the name of the properly paired record is in
the buffer, which holds one entry, and the step still fails fatally. The pair
reaches the threshold and either the incoming CIGAR is `20M 30X`, which ends in
`Invalid Cigar op type`, or both CIGARs are valid and the leftmost mate's `RefID`
is 1 in a one-entry reference table, which ends in the uncaught out-of-range
exception. -/
theorem C9_counterexample :
    (mkMate "r" 150 30 false [⟨'M', 20⟩, ⟨'X', 30⟩]).IsProperPair = true ∧
    bufferFind "r" (stateWith (mkMate "r" 100 30 true [⟨'M', 50⟩])).bamBuffer ≠ none ∧
    (stateWith (mkMate "r" 100 30 true [⟨'M', 50⟩])).bamBuffer.length = 1 ∧
    processRecord (cfgOf false 0) (stateWith (mkMate "r" 100 30 true [⟨'M', 50⟩]))
      (mkMate "r" 150 30 false [⟨'M', 20⟩, ⟨'X', 30⟩]) = .error Fatal.invalidCigarOp ∧
    (mkMate "r" 150 30 false [⟨'M', 50⟩]).IsProperPair = true ∧
    bufferFind "r"
      (stateWith { mkMate "r" 100 30 true [⟨'M', 50⟩] with RefID := 1 }).bamBuffer ≠ none ∧
    (stateWith { mkMate "r" 100 30 true [⟨'M', 50⟩] with RefID := 1 }).bamBuffer.length = 1 ∧
    processRecord (cfgOf false 0)
      (stateWith { mkMate "r" 100 30 true [⟨'M', 50⟩] with RefID := 1 })
      (mkMate "r" 150 30 false [⟨'M', 50⟩]) = .error Fatal.refOutOfRange :=
  ⟨rfl, by decide, rfl, rfl, rfl, by decide, rfl, rfl⟩

/-- C9, amended: with the bound at 1000 and a buffer of at most 1000 entries,
processing a properly paired record ends in the fatal bound error if and only if
its name is absent from the buffer and the buffer already holds 1000 entries.
There are two other fatal outcomes, both for a matched pair that reaches the
threshold: the out-of-range exception of the chromosome lookup, exactly when the
leftmost mate's `RefID` is outside the reference table, and
`Invalid Cigar op type`, exactly when that `RefID` is in the table and one of the
two operation lists holds an invalid op. Hence, from the empty buffer, up to 1000
properly paired records with pairwise distinct names are all `Buffered`, 1001 of
them are fatal at the 1001st, and after every non-fatal step the buffer holds at
most 1000 entries. -/
theorem C9_buffer_bound (cfg : Config) :
    (∀ (s : ConvertState) (bam : BamAlignment),
      bam.IsProperPair = true → s.bamBuffer.length ≤ 1000 →
      ((processRecord cfg s bam = .error Fatal.sortOrder ↔
          (bufferFind bam.Name s.bamBuffer = none ∧ s.bamBuffer.length = 1000)) ∧
       (processRecord cfg s bam = .error Fatal.refOutOfRange ↔
          ∃ buffered, bufferFind bam.Name s.bamBuffer = some buffered ∧
            aggregateQuality bam buffered ≥ cfg.minMapQuality ∧
            ¬ inRefTable cfg.refs (orderPair bam buffered).1.RefID) ∧
       (processRecord cfg s bam = .error Fatal.invalidCigarOp ↔
          ∃ buffered, bufferFind bam.Name s.bamBuffer = some buffered ∧
            aggregateQuality bam buffered ≥ cfg.minMapQuality ∧
            inRefTable cfg.refs (orderPair bam buffered).1.RefID ∧
            ¬ (validCigar bam.CigarData ∧ validCigar buffered.CigarData)))) ∧
    (∀ stream : List BamAlignment,
      (∀ r ∈ stream, r.IsProperPair = true) → (stream.map (fun r => r.Name)).Nodup →
      ((stream.length ≤ 1000 →
          ∃ s1, convertLoop cfg ConvertState.init stream =
              .ok (s1, List.replicate stream.length Action.Buffered) ∧
            s1.bamBuffer.length = stream.length) ∧
       (stream.length = 1001 →
          convertLoop cfg ConvertState.init stream = .error Fatal.sortOrder ∧
          ∃ s1, convertLoop cfg ConvertState.init (stream.take 1000) =
            .ok (s1, List.replicate 1000 Action.Buffered)))) ∧
    (∀ (s s1 : ConvertState) (bam : BamAlignment) (a : Action),
      s.bamBuffer.length ≤ 1000 → processRecord cfg s bam = .ok (s1, a) →
      s1.bamBuffer.length ≤ 1000) := by
  refine ⟨?_, ?_, ?_⟩
  · intro s bam hp hlen
    cases hfd : bufferFind bam.Name s.bamBuffer with
    | none =>
      rw [processRecord_absent cfg s bam hp hfd]
      simp only [bamBufferMaxSize]
      by_cases h1000 : s.bamBuffer.length = 1000
      · simp [h1000]
      · have hlt : ¬ (s.bamBuffer.length + 1 > 1000) := by omega
        simp [hlt, h1000]
    | some e =>
      by_cases hq : aggregateQuality bam e < cfg.minMapQuality
      · rw [processRecord_below cfg s bam e hp hfd hq]
        simp
        constructor
        · intro hge; omega
        · intro hge; omega
      · have hge : aggregateQuality bam e ≥ cfg.minMapQuality := by omega
        obtain ⟨hout, hinv, hemit⟩ := processRecord_reached cfg s bam e hp hfd hge
        by_cases hin : inRefTable cfg.refs (orderPair bam e).1.RefID
        · by_cases hv : validCigar bam.CigarData ∧ validCigar e.CigarData
          · obtain ⟨line, _, hstep⟩ := hemit hin hv
            rw [hstep]
            simp
            exact ⟨fun _ => hin, fun _ _ => hv⟩
          · rw [hinv hin hv]
            simp
            exact ⟨fun _ => hin, hge, hin, fun h1 h2 => hv ⟨h1, h2⟩⟩
        · rw [hout hin]
          simp
          exact ⟨⟨hge, hin⟩, fun _ h => absurd h hin⟩
  · intro stream hp hnd
    constructor
    · intro hlen
      obtain ⟨s1, h1, h2, _⟩ := convertLoop_distinct cfg stream ConvertState.init hp hnd
        (fun _ _ => rfl) (by simpa [ConvertState.init] using hlen)
      exact ⟨s1, h1, by simpa [ConvertState.init] using h2⟩
    · intro hlen
      have hsplit : stream = stream.take 1000 ++ stream.drop 1000 := (List.take_append_drop _ _).symm
      have hdl : (stream.drop 1000).length = 1 := by simp [hlen]
      obtain ⟨x, hx⟩ := List.length_eq_one.1 hdl
      have htl : (stream.take 1000).length = 1000 := by simp [hlen]
      have hnd2 : ((stream.take 1000).map (fun r => r.Name) ++ [x.Name]).Nodup := by
        have : stream.map (fun r => r.Name)
            = (stream.take 1000).map (fun r => r.Name) ++ [x.Name] := by
          conv_lhs => rw [hsplit, hx]
          simp
        rw [← this]; exact hnd
      have hnd3 := List.nodup_append.1 hnd2
      obtain ⟨s1, h1, h2, h3⟩ := convertLoop_distinct cfg (stream.take 1000) ConvertState.init
        (fun r hr => hp r (List.mem_of_mem_take hr)) hnd3.1
        (fun _ _ => rfl) (by simp [ConvertState.init, htl])
      refine ⟨?_, s1, by rw [h1, htl]⟩
      have hxp : x.IsProperPair = true := by
        apply hp
        rw [hsplit, hx]
        simp
      have hxa : bufferFind x.Name s1.bamBuffer = none := by
        rw [h3 x.Name]
        · rfl
        · intro r hr he
          exact hnd3.2.2 (List.mem_map.2 ⟨r, hr, he⟩) (List.mem_singleton_self _)
      have hs1 : s1.bamBuffer.length = 1000 := by
        rw [h2, htl]; simp [ConvertState.init]
      rw [hsplit, hx, convertLoop_append, h1]
      simp only [convertLoop_cons, processRecord_absent cfg s1 x hxp hxa, hs1, bamBufferMaxSize]
      simp
  · intro s s1 bam a hlen hstep
    by_cases hp : bam.IsProperPair = true
    · cases hfd : bufferFind bam.Name s.bamBuffer with
      | none =>
        rw [processRecord_absent cfg s bam hp hfd] at hstep
        simp only [bamBufferMaxSize] at hstep
        split at hstep
        · cases hstep
        · injection hstep with h1
          injection h1 with h2 _
          rw [← h2]
          show (bufferInsert bam.Name bam s.bamBuffer).length ≤ 1000
          rw [bufferInsert_length]; omega
      | some e =>
        by_cases hq : aggregateQuality bam e < cfg.minMapQuality
        · rw [processRecord_below cfg s bam e hp hfd hq] at hstep
          injection hstep with h1
          injection h1 with h2 _
          rw [← h2, flushBuffer_bamBuffer]; simp
        · have hge : aggregateQuality bam e ≥ cfg.minMapQuality := by omega
          cases hl : PrintPairedBed12 (orderPair bam e).1 (orderPair bam e).2 cfg.refs
              cfg.delAsBlock cfg.color with
          | error err =>
            rw [processRecord_invalid cfg s bam e err hp hfd hge hl] at hstep
            cases hstep
          | ok line =>
            rw [processRecord_emit cfg s bam e line hp hfd hge hl] at hstep
            injection hstep with h1
            injection h1 with h2 _
            rw [← h2, flushBuffer_bamBuffer]; simp
    · unfold processRecord at hstep
      simp only [hp] at hstep
      injection hstep with h1
      injection h1 with h2 _
      rw [← h2]
      exact hlen

/-- Witness of C9: two properly paired records with distinct names, from the
empty buffer, are both `Buffered`. -/
theorem C9_buffer_bound_witness :
    (∀ r ∈ [mkMate "a" 100 30 true [⟨'M', 50⟩], mkMate "b" 100 30 true [⟨'M', 50⟩]],
      r.IsProperPair = true) ∧
    ([mkMate "a" 100 30 true [⟨'M', 50⟩], mkMate "b" 100 30 true [⟨'M', 50⟩]].map
      (fun r => r.Name)).Nodup ∧
    ∃ s1, convertLoop (cfgOf false 0) ConvertState.init
        [mkMate "a" 100 30 true [⟨'M', 50⟩], mkMate "b" 100 30 true [⟨'M', 50⟩]] =
          .ok (s1, List.replicate 2 Action.Buffered) ∧
      s1.bamBuffer.length = 2 :=
  ⟨by decide, by decide,
   ((C9_buffer_bound (cfgOf false 0)).2.1
      [mkMate "a" 100 30 true [⟨'M', 50⟩], mkMate "b" 100 30 true [⟨'M', 50⟩]]
      (by decide) (by decide)).1 (by decide)⟩

/-! ## Lemmas on the block table -/

theorem foldedLength_of_not_closes (d : Bool) (op : CigarOp) (h : ¬ closesBlock d op = true) :
    foldedLength d op = refLength op := by
  unfold closesBlock at h
  unfold foldedLength refLength
  by_cases hM : op.OpType = 'M'
  · simp [hM]
  · by_cases hN : op.OpType = 'N'
    · simp [hN] at h
    · by_cases hD : op.OpType = 'D'
      · cases d <;> simp_all
      · simp [hM, hN, hD]

theorem refLength_of_closes (d : Bool) (op : CigarOp) (h : closesBlock d op = true) :
    refLength op = op.Length := by
  unfold closesBlock at h
  unfold refLength
  by_cases hN : op.OpType = 'N'
  · simp [hN]
  · by_cases hD : op.OpType = 'D'
    · simp [hD]
    · simp [hN, hD] at h

theorem blocksFrom_eq_zip (d : Bool) (ops : List CigarOp) :
    ∀ b a c, blocksFrom d b a c ops = List.zip (b :: startsFrom d c ops) (lengthsFrom d a ops) := by
  induction ops with
  | nil => intro b a c; simp [blocksFrom, startsFrom, lengthsFrom]
  | cons op rest ih =>
    intro b a c
    by_cases hc : closesBlock d op = true
    · simp [blocksFrom, startsFrom, lengthsFrom, hc, ih]
    · simp [blocksFrom, startsFrom, lengthsFrom, hc, ih]

theorem blocksFrom_head (d : Bool) (ops : List CigarOp) :
    ∀ b a c, ∃ l, (blocksFrom d b a c ops).head? = some (b, l) := by
  induction ops with
  | nil => intro b a c; exact ⟨a, rfl⟩
  | cons op rest ih =>
    intro b a c
    by_cases hc : closesBlock d op = true
    · exact ⟨a, by simp [blocksFrom, hc]⟩
    · obtain ⟨l, hl⟩ := ih b (a + foldedLength d op) (c + refLength op)
      exact ⟨l, by simp [blocksFrom, hc, hl]⟩

theorem blocksFrom_mem (d : Bool) (ops : List CigarOp) :
    ∀ b a c, b + a = c → ∀ x ∈ blocksFrom d b a c ops,
      b ≤ x.1 ∧ x.1 + x.2 ≤ c + refTotal ops := by
  induction ops with
  | nil =>
    intro b a c hinv x hx
    simp [blocksFrom] at hx
    subst hx
    simp [refTotal_nil]; omega
  | cons op rest ih =>
    intro b a c hinv x hx
    rw [refTotal_cons]
    by_cases hc : closesBlock d op = true
    · simp only [blocksFrom, hc, if_true, List.mem_cons] at hx
      rcases hx with rfl | hx
      · simp; omega
      · have := ih (c + refLength op) 0 (c + refLength op) (by omega) x hx
        omega
    · simp only [blocksFrom, hc] at hx
      have hf := foldedLength_of_not_closes d op hc
      have := ih b (a + foldedLength d op) (c + refLength op) (by omega) x hx
      omega

theorem blocksFrom_getLast (d : Bool) (ops : List CigarOp) :
    ∀ b a c, b + a = c → ∃ x, (blocksFrom d b a c ops).getLast? = some x ∧
      x.1 + x.2 = c + refTotal ops := by
  induction ops with
  | nil =>
    intro b a c hinv
    exact ⟨(b, a), rfl, by simp [refTotal_nil]; omega⟩
  | cons op rest ih =>
    intro b a c hinv
    rw [refTotal_cons]
    by_cases hc : closesBlock d op = true
    · obtain ⟨x, hx, hsum⟩ := ih (c + refLength op) 0 (c + refLength op) (by omega)
      refine ⟨x, ?_, by omega⟩
      simp only [blocksFrom, hc, if_true]
      rw [List.getLast?_cons, hx]
      rfl
    · have hf := foldedLength_of_not_closes d op hc
      obtain ⟨x, hx, hsum⟩ := ih b (a + foldedLength d op) (c + refLength op) (by omega)
      exact ⟨x, by simp only [blocksFrom, hc]; exact hx, by omega⟩

theorem blocksFrom_noOverlap (d : Bool) (ops : List CigarOp) :
    ∀ b a c, b + a = c →
      List.Chain' (fun x y : Nat × Nat => x.1 + x.2 ≤ y.1) (blocksFrom d b a c ops) := by
  induction ops with
  | nil => intro b a c _; simp [blocksFrom]
  | cons op rest ih =>
    intro b a c hinv
    by_cases hc : closesBlock d op = true
    · simp only [blocksFrom, hc, if_true]
      rw [List.chain'_cons']
      refine ⟨?_, ih _ _ _ (by omega)⟩
      obtain ⟨l, hl⟩ := blocksFrom_head d rest (c + refLength op) 0 (c + refLength op)
      intro y hy
      rw [hl] at hy
      simp at hy
      subst hy
      simp; omega
    · have hf := foldedLength_of_not_closes d op hc
      simp only [blocksFrom, hc]
      exact ih _ _ _ (by omega)

theorem blocksFrom_strict (d : Bool) (ops : List CigarOp) (hpos : closingPositive d ops) :
    ∀ b a c, b + a = c →
      List.Chain' (fun x y : Nat × Nat => x.1 < y.1) (blocksFrom d b a c ops) := by
  induction ops with
  | nil => intro b a c _; simp [blocksFrom]
  | cons op rest ih =>
    intro b a c hinv
    have hrest : closingPositive d rest := fun o ho => hpos o (List.mem_cons_of_mem _ ho)
    by_cases hc : closesBlock d op = true
    · have hL := hpos op (List.mem_cons_self _ _) hc
      have hr := refLength_of_closes d op hc
      simp only [blocksFrom, hc, if_true]
      rw [List.chain'_cons']
      refine ⟨?_, ih hrest _ _ _ (by omega)⟩
      obtain ⟨l, hl⟩ := blocksFrom_head d rest (c + refLength op) 0 (c + refLength op)
      intro y hy
      rw [hl] at hy
      simp at hy
      subst hy
      simp; omega
    · have hf := foldedLength_of_not_closes d op hc
      simp only [blocksFrom, hc]
      exact ih hrest _ _ _ (by omega)

theorem PrintPairedBed12_lists (bam1 bam2 : BamAlignment) (refs : List String) (d : Bool)
    (color : String) (hin : inRefTable refs bam1.RefID)
    (hv1 : validCigar bam1.CigarData) (hv2 : validCigar bam2.CigarData)
    (hle : bam1.Position ≤ bam2.Position) (hno : noOverflow32 bam1 bam2) :
    ∃ b, PrintPairedBed12 bam1 bam2 refs d color = .ok b ∧
      b.alignmentStart = bam1.Position ∧
      b.alignmentEnd = bam2.Position + (refTotal bam2.CigarData : Int) ∧
      b.thickStart = (if bam1.IsFirstMate = true then bam1.Position else bam2.Position) ∧
      b.thickEnd = (if bam1.IsFirstMate = true then bam1.Position + (refTotal bam1.CigarData : Int)
        else bam2.Position + (refTotal bam2.CigarData : Int)) ∧
      b.blockStarts = List.map Int.ofNat
        (0 :: startsFrom d 0 bam1.CigarData ++
          (bam2.Position - bam1.Position).toNat ::
            startsFrom d (bam2.Position - bam1.Position).toNat bam2.CigarData) ∧
      b.blockLengths = List.map Int.ofNat
        (lengthsFrom d 0 bam1.CigarData ++ lengthsFrom d 0 bam2.CigarData) := by
  obtain ⟨hlo, hoff, hend, hend1, hr1⟩ := hno
  obtain ⟨chrom, hchrom⟩ := refsAt_of_inRefTable hin
  have hu : toU32 (bam2.Position - bam1.Position) = (bam2.Position - bam1.Position).toNat := by
    unfold toU32; omega
  have hofflt : (bam2.Position - bam1.Position).toNat + refTotal bam2.CigarData < 2147483648 := by
    omega
  have hS1 := map_toInt32_of_le (startsFrom d 0 bam1.CigarData) (0 + refTotal bam1.CigarData)
    (by omega) (startsFrom_le d bam1.CigarData 0)
  have hS2 := map_toInt32_of_le
    (startsFrom d (bam2.Position - bam1.Position).toNat bam2.CigarData)
    ((bam2.Position - bam1.Position).toNat + refTotal bam2.CigarData) hofflt
    (startsFrom_le d bam2.CigarData _)
  have hL1 := map_toInt32_of_le (lengthsFrom d 0 bam1.CigarData) (0 + refTotal bam1.CigarData)
    (by omega) (lengthsFrom_le d bam1.CigarData 0)
  have hL2 := map_toInt32_of_le (lengthsFrom d 0 bam2.CigarData) (0 + refTotal bam2.CigarData)
    (by omega) (lengthsFrom_le d bam2.CigarData 0)
  have h0 : toInt32 0 = Int.ofNat 0 := by rw [toInt32_zero]; rfl
  have ho : toInt32 (bam2.Position - bam1.Position).toNat
      = Int.ofNat (bam2.Position - bam1.Position).toNat := toInt32_of_lt (by omega)
  refine ⟨_, PrintPairedBed12_ok bam1 bam2 refs d color chrom hchrom hv1 hv2, ?_, ?_, rfl,
    ?_, ?_, ?_⟩
  · show toInt32 (toU32 bam1.Position) = bam1.Position
    unfold toInt32 toU32
    split <;> omega
  · show toInt32 (wrap32 (toU32 bam1.Position +
      wrap32 (toU32 (bam2.Position - bam1.Position) + refTotal bam2.CigarData))) = _
    unfold toInt32 wrap32 toU32
    split <;> omega
  · show (if bam1.IsFirstMate = true then
        toInt32 (toU32 bam1.Position + wrap32 (0 + refTotal bam1.CigarData))
      else toInt32 (wrap32 (toU32 bam1.Position +
        wrap32 (toU32 (bam2.Position - bam1.Position) + refTotal bam2.CigarData)))) = _
    by_cases hfm : bam1.IsFirstMate = true
    · rw [if_pos hfm, if_pos hfm]
      unfold toInt32 wrap32 toU32
      split <;> omega
    · rw [if_neg hfm, if_neg hfm]
      unfold toInt32 wrap32 toU32
      split <;> omega
  · show [toInt32 0] ++ (startsFrom d 0 bam1.CigarData).map toInt32 ++
        [toInt32 (toU32 (bam2.Position - bam1.Position))] ++
        (startsFrom d (toU32 (bam2.Position - bam1.Position)) bam2.CigarData).map toInt32 = _
    rw [hu, hS1, hS2, h0, ho]
    simp
  · show [] ++ (lengthsFrom d 0 bam1.CigarData).map toInt32 ++
        (lengthsFrom d 0 bam2.CigarData).map toInt32 = _
    rw [hL1, hL2]
    simp

theorem PrintPairedBed12_table (bam1 bam2 : BamAlignment) (refs : List String) (d : Bool)
    (color : String) (hin : inRefTable refs bam1.RefID)
    (hv1 : validCigar bam1.CigarData) (hv2 : validCigar bam2.CigarData)
    (hle : bam1.Position ≤ bam2.Position) (hno : noOverflow32 bam1 bam2) :
    ∃ b, PrintPairedBed12 bam1 bam2 refs d color = .ok b ∧
      b.alignmentStart = bam1.Position ∧
      b.alignmentEnd = bam2.Position + (refTotal bam2.CigarData : Int) ∧
      blockTable b = List.map (Prod.map Int.ofNat Int.ofNat)
        (blocksFrom d 0 0 0 bam1.CigarData ++
          blocksFrom d (bam2.Position - bam1.Position).toNat 0
            (bam2.Position - bam1.Position).toNat bam2.CigarData) := by
  obtain ⟨b, hb, h1, h2, _, _, h5, h6⟩ :=
    PrintPairedBed12_lists bam1 bam2 refs d color hin hv1 hv2 hle hno
  refine ⟨b, hb, h1, h2, ?_⟩
  unfold blockTable
  rw [h5, h6, List.zip_map, blocksFrom_eq_zip, blocksFrom_eq_zip]
  congr 1
  exact List.zip_append (by simp [startsFrom_length, lengthsFrom_length])

/-- The block table of an emitted pair is the exact table of the two mates, each
entry reduced to a 32-bit `int`. -/
theorem PrintPairedBed12_table32 (bam1 bam2 : BamAlignment) (refs : List String) (d : Bool)
    (color : String) (hin : inRefTable refs bam1.RefID)
    (hv1 : validCigar bam1.CigarData) (hv2 : validCigar bam2.CigarData)
    (hle : bam1.Position ≤ bam2.Position)
    (hoff : bam2.Position - bam1.Position < 4294967296) :
    ∃ b, PrintPairedBed12 bam1 bam2 refs d color = .ok b ∧
      blockTable b = List.map (Prod.map toInt32 toInt32)
        (blocksFrom d 0 0 0 bam1.CigarData ++
          blocksFrom d (pairOffset bam1 bam2) 0 (pairOffset bam1 bam2) bam2.CigarData) := by
  obtain ⟨chrom, hchrom⟩ := refsAt_of_inRefTable hin
  have hu : toU32 (bam2.Position - bam1.Position) = pairOffset bam1 bam2 := by
    unfold toU32 pairOffset; omega
  refine ⟨_, PrintPairedBed12_ok bam1 bam2 refs d color chrom hchrom hv1 hv2, ?_⟩
  show List.zip ([toInt32 0] ++ (startsFrom d 0 bam1.CigarData).map toInt32 ++
        [toInt32 (toU32 (bam2.Position - bam1.Position))] ++
        (startsFrom d (toU32 (bam2.Position - bam1.Position)) bam2.CigarData).map toInt32)
      ([] ++ (lengthsFrom d 0 bam1.CigarData).map toInt32 ++
        (lengthsFrom d 0 bam2.CigarData).map toInt32) = _
  rw [hu, blocksFrom_eq_zip, blocksFrom_eq_zip, List.map_append, ← List.zip_map, ← List.zip_map]
  simp only [List.map_cons, List.nil_append, List.singleton_append, List.cons_append,
    List.append_assoc]
  have hlen : (toInt32 0 :: List.map toInt32 (startsFrom d 0 bam1.CigarData)).length
      = (List.map toInt32 (lengthsFrom d 0 bam1.CigarData)).length := by
    simp [startsFrom_length, lengthsFrom_length]
  exact List.zip_append hlen

theorem chain'_imp_of_mem {α : Type} {R S : α → α → Prop} :
    ∀ (l : List α), (∀ x ∈ l, ∀ y ∈ l, R x y → S x y) → List.Chain' R l → List.Chain' S l := by
  intro l
  induction l with
  | nil => intro _ _; exact List.chain'_nil
  | cons a t ih =>
    intro h hc
    rw [List.chain'_cons'] at hc ⊢
    refine ⟨fun y hy => h a (List.mem_cons_self _ _) y
      (List.mem_cons_of_mem _ (List.mem_of_mem_head? hy)) (hc.1 y hy), ?_⟩
    exact ih (fun x hx y hy => h x (List.mem_cons_of_mem _ hx) y (List.mem_cons_of_mem _ hy)) hc.2

theorem chain'_congr_of_mem {α : Type} {R S : α → α → Prop} (l : List α)
    (h : ∀ x ∈ l, ∀ y ∈ l, (R x y ↔ S x y)) : List.Chain' R l ↔ List.Chain' S l :=
  ⟨chain'_imp_of_mem l (fun x hx y hy => (h x hx y hy).1),
   chain'_imp_of_mem l (fun x hx y hy => (h x hx y hy).2)⟩

theorem chain'_get? {α : Type} {R : α → α → Prop} :
    ∀ (l : List α), List.Chain' R l → ∀ (i : Nat) (x y : α),
      l.get? i = some x → l.get? (i + 1) = some y → R x y := by
  intro l
  induction l with
  | nil => intro _ i x y hx _; simp at hx
  | cons a t ih =>
    intro hc i x y hx hy
    rw [List.chain'_cons'] at hc
    cases i with
    | zero =>
      simp only [List.get?_cons_zero, Option.some.injEq] at hx
      subst hx
      simp only [List.get?_cons_succ] at hy
      apply hc.1
      cases t with
      | nil => simp at hy
      | cons b t2 =>
        simp only [List.get?_cons_zero, Option.some.injEq] at hy
        subst hy
        simp
    | succ j =>
      simp only [List.get?_cons_succ] at hx hy
      exact ih hc.2 j x y hx hy

/-- The starts pushed from cursor `c` follow the block start `b` in strictly
increasing order exactly when every block-closing operation moves the cursor
past the start of the block it closes. -/
theorem startsFrom_chain (d : Bool) (ops : List CigarOp) :
    ∀ b c, b ≤ c →
      (List.Chain' (fun x y : Nat => x < y) (b :: startsFrom d c ops) ↔
        startsAdvance d (c - b) ops = true) := by
  induction ops with
  | nil => intro b c _; simp [startsFrom, startsAdvance]
  | cons op rest ih =>
    intro b c hbc
    by_cases hc : closesBlock d op = true
    · have hrec := ih (c + refLength op) (c + refLength op) (Nat.le_refl _)
      simp only [startsFrom, startsAdvance, hc, if_true, List.chain'_cons, hrec, Nat.sub_self,
        Bool.and_eq_true, decide_eq_true_eq]
      constructor
      · rintro ⟨h1, h2⟩
        exact ⟨by omega, h2⟩
      · rintro ⟨h1, h2⟩
        exact ⟨by omega, h2⟩
    · have hrec := ih b (c + refLength op) (by omega)
      have he : c + refLength op - b = c - b + refLength op := by omega
      rw [he] at hrec
      simp only [startsFrom, startsAdvance, hc]
      exact hrec

theorem startsAdvance_of_closingPositive (d : Bool) (ops : List CigarOp)
    (hpos : closingPositive d ops) : ∀ a, startsAdvance d a ops = true := by
  induction ops with
  | nil => intro a; rfl
  | cons op rest ih =>
    intro a
    have hrest : closingPositive d rest := fun o ho => hpos o (List.mem_cons_of_mem _ ho)
    by_cases hc : closesBlock d op = true
    · have hL := hpos op (List.mem_cons_self _ _) hc
      have hr := refLength_of_closes d op hc
      simp only [startsAdvance, hc, if_true, ih hrest, Bool.and_true, decide_eq_true_eq]
      omega
    · simp only [startsAdvance, hc]
      exact ih hrest _

theorem blocksFrom_zero_eq_reference (d : Bool) (ops : List CigarOp) :
    blocksFrom d 0 0 0 ops =
      List.zip (0 :: referenceStarts d 0 ops) (referenceLengths d ops) := by
  rw [blocksFrom_eq_zip, startsFrom_eq_reference, lengthsFrom_zero_eq_reference]

theorem blocksFrom_getLast_lastBlock (d : Bool) (ops : List CigarOp) :
    (blocksFrom d 0 0 0 ops).getLast? = some (lastBlock d ops) ∧
      (lastBlock d ops).1 + (lastBlock d ops).2 = refTotal ops := by
  obtain ⟨x, hx, hsum⟩ := blocksFrom_getLast d ops 0 0 0 rfl
  have hl : lastBlock d ops = x := by
    unfold lastBlock
    rw [← blocksFrom_zero_eq_reference, hx]
    rfl
  rw [hl]
  exact ⟨hx, by omega⟩

theorem blocksFrom_fst_mem (d : Bool) (ops : List CigarOp) (b c : Nat) (x : Nat × Nat)
    (hx : x ∈ blocksFrom d b 0 c ops) : x.1 = b ∨ x.1 ∈ startsFrom d c ops := by
  rw [blocksFrom_eq_zip] at hx
  have := (List.of_mem_zip (a := x.1) (b := x.2) hx).1
  simpa using this

/-! ## Properties of the merged block table -/

/-- Counterexample to C11 as stated, four valid pairs with
`bam1.Position <= bam2.Position`. Mates at 100 and 120, `50M` each: the table is
`[(0,50),(20,50)]`, the first block ends at 50, after the second starts (the starts
do increase). Mates both at 100, `50M` each: the table is `[(0,50),(0,50)]`, the
starts do not increase. Mates at 100 (`0N 50M`) and 200 (`50M`): the table is
`[(0,0),(0,50),(100,50)]`, the starts do not increase. Mates at 0 (`50M`) and 100
(`50M`, sixteen `N` of `2^27` bases, `20M`), which do not overlap: the block start
`150 + 2^31` is stored as `150 - 2^31`, so entries 16 and 17 of the table are
`(2013266070, 0)` and `(-2147483498, 20)`, neither in increasing order nor free of
overlap. -/
theorem C11_counterexample :
    (∃ b, PrintPairedBed12 (mkMate "r" 100 30 true [⟨'M', 50⟩])
        (mkMate "r" 120 30 false [⟨'M', 50⟩]) refsChr1 false "255,0,0" = .ok b ∧
      blockTable b = [(0, 50), (20, 50)] ∧ ¬ noOverlap (blockTable b) ∧
      strictStarts (blockTable b)) ∧
    (∃ b, PrintPairedBed12 (mkMate "r" 100 30 true [⟨'M', 50⟩])
        (mkMate "r" 100 30 false [⟨'M', 50⟩]) refsChr1 false "255,0,0" = .ok b ∧
      blockTable b = [(0, 50), (0, 50)] ∧ ¬ strictStarts (blockTable b)) ∧
    (validCigar [(⟨'N', 0⟩ : CigarOp), ⟨'M', 50⟩] ∧
      ∃ b, PrintPairedBed12 (mkMate "r" 100 30 true [⟨'N', 0⟩, ⟨'M', 50⟩])
        (mkMate "r" 200 30 false [⟨'M', 50⟩]) refsChr1 false "255,0,0" = .ok b ∧
      blockTable b = [(0, 0), (0, 50), (100, 50)] ∧ ¬ strictStarts (blockTable b)) ∧
    (validCigar longSkipCigar ∧
      (mkMate "r" 0 30 true [⟨'M', 50⟩]).Position + (refTotal [(⟨'M', 50⟩ : CigarOp)] : Int)
        ≤ (mkMate "r" 100 30 false longSkipCigar).Position ∧
      startsAdvance false 0 longSkipCigar = true ∧
      ¬ startsFit false (mkMate "r" 0 30 true [⟨'M', 50⟩])
        (mkMate "r" 100 30 false longSkipCigar) ∧
      ∃ b, PrintPairedBed12 (mkMate "r" 0 30 true [⟨'M', 50⟩])
        (mkMate "r" 100 30 false longSkipCigar) refsChr1 false "255,0,0" = .ok b ∧
      (blockTable b).get? 16 = some (2013266070, 0) ∧
      (blockTable b).get? 17 = some (-2147483498, 20) ∧
      ¬ strictStarts (blockTable b) ∧ ¬ noOverlap (blockTable b)) := by
  refine ⟨⟨_, rfl, rfl, ?_, ?_⟩, ⟨_, rfl, rfl, ?_⟩, ⟨by decide, _, rfl, rfl, ?_⟩,
    ⟨by decide, by decide, by decide, by decide, ?_⟩⟩
  · show ¬ noOverlap [(0, 50), (20, 50)]
    simp [noOverlap]
  · show strictStarts [(0, 50), (20, 50)]
    simp [strictStarts]
  · show ¬ strictStarts [(0, 50), (0, 50)]
    simp [strictStarts]
  · show ¬ strictStarts [(0, 0), (0, 50), (100, 50)]
    simp [strictStarts]
  · obtain ⟨b, hb, ht⟩ := PrintPairedBed12_table32 (mkMate "r" 0 30 true [⟨'M', 50⟩])
      (mkMate "r" 100 30 false longSkipCigar) refsChr1 false "255,0,0" (by decide) (by decide)
      (by decide) (by decide) (by decide)
    have h16 : (blockTable b).get? 16 = some (2013266070, 0) := by rw [ht]; rfl
    have h17 : (blockTable b).get? 17 = some (-2147483498, 20) := by rw [ht]; rfl
    refine ⟨b, hb, h16, h17, fun hc => ?_, fun hc => ?_⟩
    · have h := chain'_get? _ hc 16 _ _ h16 h17
      exact absurd h (by decide)
    · have h := chain'_get? _ hc 16 _ _ h16 h17
      exact absurd h (by decide)

/-- C11, amended: for every emitted pair (`bam1.Position <= bam2.Position`, valid
operation lists, either policy value) whose block starts all fit the `int` they
are stored in (each below `2^31`): the block starts increase strictly
(`start_i < start_(i+1)`) if and only if `bam2.Position` lies strictly after
`bam1.Position` and after the start of every block of `bam1`, and in both mates
every block-closing op moves the cursor past the start of the block it closes
(which only an op of length 0 can fail to do); and no two consecutive blocks
overlap (`start_i + length_i <= start_(i+1)`) if and only if the last block of
`bam1`, with its length as stored in the `int`, ends at or before
`bam2.Position`, that is, when that length is below `2^31`, if and only if
`bam1.Position` plus the total of `bam1`'s M, D and N lengths is at most
`bam2.Position`. The pair is emitted whenever `bam1.RefID` names an entry of the
reference table; otherwise the chromosome lookup throws. -/
theorem C11_left_to_right (bam1 bam2 : BamAlignment) (refs : List String) (d : Bool)
    (color : String) (hv1 : validCigar bam1.CigarData) (hv2 : validCigar bam2.CigarData)
    (hle : bam1.Position ≤ bam2.Position) (hfit : startsFit d bam1 bam2) :
    (inRefTable refs bam1.RefID →
      ∃ b, PrintPairedBed12 bam1 bam2 refs d color = .ok b ∧
        (strictStarts (blockTable b) ↔
          (startsAdvance d 0 bam1.CigarData = true ∧ startsAdvance d 0 bam2.CigarData = true ∧
            bam1.Position < bam2.Position ∧
            ∀ x ∈ referenceStarts d 0 bam1.CigarData,
              bam1.Position + (x : Int) < bam2.Position)) ∧
        (noOverlap (blockTable b) ↔
          bam1.Position + ((lastBlock d bam1.CigarData).1 : Int) +
            toInt32 (lastBlock d bam1.CigarData).2 ≤ bam2.Position) ∧
        ((lastBlock d bam1.CigarData).2 < 2147483648 →
          (noOverlap (blockTable b) ↔
            bam1.Position + (refTotal bam1.CigarData : Int) ≤ bam2.Position))) ∧
    (¬ inRefTable refs bam1.RefID →
      PrintPairedBed12 bam1 bam2 refs d color = .error Fatal.refOutOfRange) := by
  refine ⟨fun hin => ?_, PrintPairedBed12_refOutOfRange bam1 bam2 refs d color⟩
  have hfit0 : ∀ x ∈ startsFrom d 0 bam1.CigarData, x < 2147483648 := by
    intro x hx
    rw [startsFrom_eq_reference] at hx
    exact hfit x (by simp [pairStarts, hx])
  have hfitoff : pairOffset bam1 bam2 < 2147483648 := hfit _ (by simp [pairStarts])
  have hfit2 : ∀ x ∈ startsFrom d (pairOffset bam1 bam2) bam2.CigarData, x < 2147483648 := by
    intro x hx
    rw [startsFrom_eq_reference] at hx
    exact hfit x (by simp [pairStarts, hx])
  have hoffeq : (pairOffset bam1 bam2 : Int) = bam2.Position - bam1.Position := by
    unfold pairOffset; omega
  obtain ⟨b, hb, ht⟩ := PrintPairedBed12_table32 bam1 bam2 refs d color hin hv1 hv2 hle
    (by omega)
  have hmem1 : ∀ x ∈ blocksFrom d 0 0 0 bam1.CigarData, x.1 < 2147483648 := by
    intro x hx
    rcases blocksFrom_fst_mem d _ 0 0 x hx with h | h
    · omega
    · exact hfit0 _ h
  have hmem2 : ∀ x ∈ blocksFrom d (pairOffset bam1 bam2) 0 (pairOffset bam1 bam2)
      bam2.CigarData, x.1 < 2147483648 := by
    intro x hx
    rcases blocksFrom_fst_mem d _ _ _ x hx with h | h
    · omega
    · exact hfit2 _ h
  have hmem : ∀ x ∈ blocksFrom d 0 0 0 bam1.CigarData ++
      blocksFrom d (pairOffset bam1 bam2) 0 (pairOffset bam1 bam2) bam2.CigarData,
      x.1 < 2147483648 := by
    intro x hx
    rcases List.mem_append.1 hx with h | h
    · exact hmem1 x h
    · exact hmem2 x h
  obtain ⟨hlast, hlsum⟩ := blocksFrom_getLast_lastBlock d bam1.CigarData
  obtain ⟨l, hl⟩ := blocksFrom_head d bam2.CigarData (pairOffset bam1 bam2) 0
    (pairOffset bam1 bam2)
  have hstrict : strictStarts (blockTable b) ↔
      (startsAdvance d 0 bam1.CigarData = true ∧ startsAdvance d 0 bam2.CigarData = true ∧
        bam1.Position < bam2.Position ∧
        ∀ x ∈ referenceStarts d 0 bam1.CigarData,
          bam1.Position + (x : Int) < bam2.Position) := by
    unfold strictStarts
    rw [ht, List.chain'_map,
      chain'_congr_of_mem (S := fun x y : Nat × Nat => x.1 < y.1) _ (fun x hx y hy => by
        have h1 := hmem x hx
        have h2 := hmem y hy
        simp only [Prod.map, toInt32_of_lt h1, toInt32_of_lt h2]
        omega),
      ← List.chain'_map (R := fun x y : Nat => x < y) Prod.fst, List.map_append,
      blocksFrom_eq_zip, blocksFrom_eq_zip,
      List.map_fst_zip _ _ (by simp [startsFrom_length, lengthsFrom_length]),
      List.map_fst_zip _ _ (by simp [startsFrom_length, lengthsFrom_length]),
      List.chain'_append, startsFrom_chain d _ 0 0 (Nat.le_refl _),
      startsFrom_chain d _ _ _ (Nat.le_refl _), Nat.sub_self, Nat.sub_self,
      ← startsFrom_eq_reference]
    constructor
    · rintro ⟨h1, h2, h3⟩
      have hch : List.Chain' (fun x y : Nat => x < y) (0 :: startsFrom d 0 bam1.CigarData) :=
        (startsFrom_chain d _ 0 0 (Nat.le_refl _)).2 h1
      have hpw := List.chain'_iff_pairwise.1 hch
      obtain ⟨z, hz⟩ : ∃ z, (0 :: startsFrom d 0 bam1.CigarData).getLast? = some z := by
        cases hg : (0 :: startsFrom d 0 bam1.CigarData).getLast? with
        | none => simp at hg
        | some z => exact ⟨z, rfl⟩
      have hzoff : z < pairOffset bam1 bam2 := h3 z hz _ (by simp)
      have hall : ∀ x ∈ 0 :: startsFrom d 0 bam1.CigarData, x ≤ z := by
        intro x hx
        obtain ⟨pre, hpre⟩ : ∃ pre, 0 :: startsFrom d 0 bam1.CigarData = pre ++ [z] := by
          refine ⟨(0 :: startsFrom d 0 bam1.CigarData).dropLast, ?_⟩
          exact (List.dropLast_append_getLast? z (by rw [hz]; exact rfl)).symm
        rw [hpre] at hpw hx
        rw [List.pairwise_append] at hpw
        rcases List.mem_append.1 hx with h | h
        · exact Nat.le_of_lt (hpw.2.2 x h z (by simp))
        · simp at h
          omega
      refine ⟨h1, h2, ?_, ?_⟩
      · have := hall 0 (by simp)
        omega
      · intro x hx
        have := hall x (List.mem_cons_of_mem _ hx)
        omega
    · rintro ⟨h1, h2, h3, h4⟩
      refine ⟨h1, h2, ?_⟩
      intro x hx y hy
      simp only [List.head?_cons, Option.mem_def, Option.some.injEq] at hy
      subst hy
      have hxm : x ∈ 0 :: startsFrom d 0 bam1.CigarData := List.mem_of_mem_getLast? hx
      rcases List.mem_cons.1 hxm with h | h
      · omega
      · have := h4 x h
        omega
  have hover : noOverlap (blockTable b) ↔
      bam1.Position + ((lastBlock d bam1.CigarData).1 : Int) +
        toInt32 (lastBlock d bam1.CigarData).2 ≤ bam2.Position := by
    unfold noOverlap
    rw [ht, List.chain'_map, List.chain'_append]
    have hin1 : List.Chain' (fun x y : Nat × Nat =>
        (Prod.map toInt32 toInt32 x).1 + (Prod.map toInt32 toInt32 x).2
          ≤ (Prod.map toInt32 toInt32 y).1) (blocksFrom d 0 0 0 bam1.CigarData) := by
      refine chain'_imp_of_mem _ (fun x hx y hy hxy => ?_)
        (blocksFrom_noOverlap d bam1.CigarData 0 0 0 rfl)
      have h1 := hmem1 x hx
      have h2 := hmem1 y hy
      have h3 : x.2 < 2147483648 := by omega
      simp only [Prod.map, toInt32_of_lt h1, toInt32_of_lt h2, toInt32_of_lt h3]
      omega
    have hin2 : List.Chain' (fun x y : Nat × Nat =>
        (Prod.map toInt32 toInt32 x).1 + (Prod.map toInt32 toInt32 x).2
          ≤ (Prod.map toInt32 toInt32 y).1)
        (blocksFrom d (pairOffset bam1 bam2) 0 (pairOffset bam1 bam2) bam2.CigarData) := by
      refine chain'_imp_of_mem _ (fun x hx y hy hxy => ?_)
        (blocksFrom_noOverlap d bam2.CigarData _ 0 _ (by omega))
      have h1 := hmem2 x hx
      have h2 := hmem2 y hy
      have h3 : x.2 < 2147483648 := by omega
      simp only [Prod.map, toInt32_of_lt h1, toInt32_of_lt h2, toInt32_of_lt h3]
      omega
    have hlb : (lastBlock d bam1.CigarData).1 < 2147483648 :=
      hmem1 _ (List.mem_of_mem_getLast? hlast)
    simp only [hin1, hin2, true_and, hlast, hl, Option.mem_def, Option.some.injEq,
      forall_eq']
    simp only [Prod.map, toInt32_of_lt hlb, toInt32_of_lt hfitoff]
    omega
  refine ⟨b, hb, hstrict, hover, fun hlen => ?_⟩
  rw [hover, toInt32_of_lt hlen]
  constructor
  · intro h; omega
  · intro h; omega

/-- Witness of C11: mates at 100 (`30M 5N 15M`) and 160 (`50M`), whose table
`[(0,30),(35,15),(60,50)]` is free of overlap and strictly increasing; and the
overlapping mates at 100 and 120, `50M` each, whose starts `[0, 20]` are strictly
increasing. -/
theorem C11_left_to_right_witness :
    (∃ b, PrintPairedBed12 (mkMate "r" 100 30 true [⟨'M', 30⟩, ⟨'N', 5⟩, ⟨'M', 15⟩])
        (mkMate "r" 160 30 false [⟨'M', 50⟩]) refsChr1 false "255,0,0" = .ok b ∧
      noOverlap (blockTable b) ∧ strictStarts (blockTable b)) ∧
    (∃ b, PrintPairedBed12 (mkMate "r" 100 30 true [⟨'M', 50⟩])
        (mkMate "r" 120 30 false [⟨'M', 50⟩]) refsChr1 false "255,0,0" = .ok b ∧
      strictStarts (blockTable b)) :=
  ⟨match (C11_left_to_right (mkMate "r" 100 30 true [⟨'M', 30⟩, ⟨'N', 5⟩, ⟨'M', 15⟩])
     (mkMate "r" 160 30 false [⟨'M', 50⟩]) refsChr1 false "255,0,0" (by decide) (by decide)
     (by decide) (by decide)).1 (by decide) with
   | ⟨b, hb, h1, _, h3⟩ => ⟨b, hb, (h3 (by decide)).2 (by decide), h1.2 (by decide)⟩,
   match (C11_left_to_right (mkMate "r" 100 30 true [⟨'M', 50⟩])
     (mkMate "r" 120 30 false [⟨'M', 50⟩]) refsChr1 false "255,0,0" (by decide) (by decide)
     (by decide) (by decide)).1 (by decide) with
   | ⟨b, hb, h1, _, _⟩ => ⟨b, hb, h1.2 (by decide)⟩⟩

/-- C12: for every emitted pair with `bam1.Position <= bam2.Position`, valid
operation lists and no 32-bit overflow, under either policy value, the thick
range is the footprint of `bam1` when `bam1` is flagged first mate and of `bam2`
otherwise: `thickStart` is that record's position and `thickEnd` its position plus
the total of its M, D and N lengths. The pair is emitted whenever `bam1.RefID`
names an entry of the reference table; otherwise the chromosome lookup throws. -/
theorem C12_thick_range (bam1 bam2 : BamAlignment) (refs : List String) (d : Bool)
    (color : String) (hv1 : validCigar bam1.CigarData) (hv2 : validCigar bam2.CigarData)
    (hle : bam1.Position ≤ bam2.Position) (hno : noOverflow32 bam1 bam2) :
    (inRefTable refs bam1.RefID →
      ∃ b, PrintPairedBed12 bam1 bam2 refs d color = .ok b ∧
        b.thickStart = (if bam1.IsFirstMate = true then bam1 else bam2).Position ∧
        b.thickEnd = (if bam1.IsFirstMate = true then bam1 else bam2).Position +
          ((kindTotal 'M' (if bam1.IsFirstMate = true then bam1 else bam2).CigarData +
            kindTotal 'D' (if bam1.IsFirstMate = true then bam1 else bam2).CigarData +
            kindTotal 'N' (if bam1.IsFirstMate = true then bam1 else bam2).CigarData : Nat) :
              Int)) ∧
    (¬ inRefTable refs bam1.RefID →
      PrintPairedBed12 bam1 bam2 refs d color = .error Fatal.refOutOfRange) := by
  refine ⟨fun hin => ?_, PrintPairedBed12_refOutOfRange bam1 bam2 refs d color⟩
  obtain ⟨b, hb, _, _, h3, h4, _, _⟩ :=
    PrintPairedBed12_lists bam1 bam2 refs d color hin hv1 hv2 hle hno
  refine ⟨b, hb, ?_, ?_⟩
  · rw [h3]; split <;> rfl
  · rw [h4]; split <;> rfl

/-- Witness of C12: mates at 100 (`30M 5N 15M`, second in the template) and 160
(`40M 10D 10M`, first in the template); the thick range is `[160, 220]`. -/
theorem C12_thick_range_witness :
    noOverflow32 (mkMate "r" 100 30 false [⟨'M', 30⟩, ⟨'N', 5⟩, ⟨'M', 15⟩])
      (mkMate "r" 160 30 true [⟨'M', 40⟩, ⟨'D', 10⟩, ⟨'M', 10⟩]) ∧
    ∃ b, PrintPairedBed12 (mkMate "r" 100 30 false [⟨'M', 30⟩, ⟨'N', 5⟩, ⟨'M', 15⟩])
        (mkMate "r" 160 30 true [⟨'M', 40⟩, ⟨'D', 10⟩, ⟨'M', 10⟩]) refsChr1 true "255,0,0" = .ok b ∧
      b.thickStart = 160 ∧ b.thickEnd = 220 :=
  ⟨by unfold noOverflow32; decide,
   (C12_thick_range (mkMate "r" 100 30 false [⟨'M', 30⟩, ⟨'N', 5⟩, ⟨'M', 15⟩])
     (mkMate "r" 160 30 true [⟨'M', 40⟩, ⟨'D', 10⟩, ⟨'M', 10⟩]) refsChr1 true "255,0,0"
     (by decide) (by decide) (by decide) (by unfold noOverflow32; decide)).1 (by decide)⟩

/-- Counterexample to C18 as stated: mates at 100 (`100M`) and 120 (`50M`). The
lists are valid and nothing overflows; the interval is `[100, 170]`, so its width
is 70, but the block of the first mate starts at 0 with length 100. -/
theorem C18_counterexample :
    (mkMate "r" 100 30 true [⟨'M', 100⟩]).Position ≤ (mkMate "r" 120 30 false [⟨'M', 50⟩]).Position ∧
    validCigar [(⟨'M', 100⟩ : CigarOp)] ∧ validCigar [(⟨'M', 50⟩ : CigarOp)] ∧
    noOverflow32 (mkMate "r" 100 30 true [⟨'M', 100⟩]) (mkMate "r" 120 30 false [⟨'M', 50⟩]) ∧
    ∃ b, PrintPairedBed12 (mkMate "r" 100 30 true [⟨'M', 100⟩])
        (mkMate "r" 120 30 false [⟨'M', 50⟩]) refsChr1 false "255,0,0" = .ok b ∧
      b.alignmentStart = 100 ∧ b.alignmentEnd = 170 ∧
      (0, 100) ∈ blockTable b ∧ ¬ ((0 : Int) + 100 ≤ b.alignmentEnd - b.alignmentStart) := by
  refine ⟨by decide, by decide, by decide, ?_, _, rfl, rfl, rfl, ?_, ?_⟩
  · unfold noOverflow32; decide
  · show ((0 : Int), (100 : Int)) ∈ [((0 : Int), (100 : Int)), (20, 50)]
    simp
  · show ¬ ((0 : Int) + 100 ≤ 170 - 100)
    decide

/-- C18, amended: for every emitted pair (`bam1.Position <= bam2.Position`, valid
operation lists, no 32-bit overflow, either policy value) whose first mate's
footprint does not end after the second mate's, every block of the merged table
lies inside the printed interval: `0 <= start_i` and
`start_i + length_i <= alignmentEnd - alignmentStart`, the blocks that come from
`bam1` included. The pair is emitted whenever `bam1.RefID` names an entry of the
reference table; otherwise the chromosome lookup throws. -/
theorem C18_blocks_inside_interval (bam1 bam2 : BamAlignment) (refs : List String) (d : Bool)
    (color : String) (hv1 : validCigar bam1.CigarData) (hv2 : validCigar bam2.CigarData)
    (hle : bam1.Position ≤ bam2.Position) (hno : noOverflow32 bam1 bam2)
    (hend : bam1.Position + (refTotal bam1.CigarData : Int)
      ≤ bam2.Position + (refTotal bam2.CigarData : Int)) :
    (inRefTable refs bam1.RefID →
      ∃ b, PrintPairedBed12 bam1 bam2 refs d color = .ok b ∧
        ∀ x ∈ blockTable b, 0 ≤ x.1 ∧ x.1 + x.2 ≤ b.alignmentEnd - b.alignmentStart) ∧
    (¬ inRefTable refs bam1.RefID →
      PrintPairedBed12 bam1 bam2 refs d color = .error Fatal.refOutOfRange) := by
  refine ⟨fun hin => ?_, PrintPairedBed12_refOutOfRange bam1 bam2 refs d color⟩
  obtain ⟨b, hb, hs, he, ht⟩ :=
    PrintPairedBed12_table bam1 bam2 refs d color hin hv1 hv2 hle hno
  refine ⟨b, hb, ?_⟩
  intro x hx
  rw [ht, List.mem_map] at hx
  obtain ⟨y, hy, rfl⟩ := hx
  rw [hs, he]
  simp only [Prod.map, Int.ofNat_eq_coe]
  rcases List.mem_append.1 hy with h1 | h2
  · have := blocksFrom_mem d bam1.CigarData 0 0 0 rfl y h1
    omega
  · have := blocksFrom_mem d bam2.CigarData (bam2.Position - bam1.Position).toNat 0
      (bam2.Position - bam1.Position).toNat (by omega) y h2
    omega

/-- Witness of C18: mates at 100 (`30M 5N 15M`) and 120 (`50M`), which overlap but
end in order: every block lies inside `[100, 170]`. -/
theorem C18_blocks_inside_interval_witness :
    noOverflow32 (mkMate "r" 100 30 true [⟨'M', 30⟩, ⟨'N', 5⟩, ⟨'M', 15⟩])
      (mkMate "r" 120 30 false [⟨'M', 50⟩]) ∧
    ∃ b, PrintPairedBed12 (mkMate "r" 100 30 true [⟨'M', 30⟩, ⟨'N', 5⟩, ⟨'M', 15⟩])
        (mkMate "r" 120 30 false [⟨'M', 50⟩]) refsChr1 false "255,0,0" = .ok b ∧
      ∀ x ∈ blockTable b, 0 ≤ x.1 ∧ x.1 + x.2 ≤ b.alignmentEnd - b.alignmentStart :=
  ⟨by unfold noOverflow32; decide,
   (C18_blocks_inside_interval (mkMate "r" 100 30 true [⟨'M', 30⟩, ⟨'N', 5⟩, ⟨'M', 15⟩])
     (mkMate "r" 120 30 false [⟨'M', 50⟩]) refsChr1 false "255,0,0" (by decide) (by decide)
     (by decide) (by unfold noOverflow32; decide) (by decide)).1 (by decide)⟩

/-- C20: for every emitted pair with `bam1.Position <= bam2.Position`, valid
operation lists and no 32-bit overflow, under either policy value, the first
block start is 0 and the last block ends exactly at the end of the interval:
last block start + last block length = `alignmentEnd - alignmentStart`. The pair
is emitted whenever `bam1.RefID` names an entry of the reference table; otherwise
the chromosome lookup throws. -/
theorem C20_first_and_last_block (bam1 bam2 : BamAlignment) (refs : List String) (d : Bool)
    (color : String) (hv1 : validCigar bam1.CigarData) (hv2 : validCigar bam2.CigarData)
    (hle : bam1.Position ≤ bam2.Position) (hno : noOverflow32 bam1 bam2) :
    (inRefTable refs bam1.RefID →
      ∃ b lastStart lastLength, PrintPairedBed12 bam1 bam2 refs d color = .ok b ∧
        b.blockStarts.head? = some 0 ∧
        b.blockStarts.getLast? = some lastStart ∧
        b.blockLengths.getLast? = some lastLength ∧
        lastStart + lastLength = b.alignmentEnd - b.alignmentStart) ∧
    (¬ inRefTable refs bam1.RefID →
      PrintPairedBed12 bam1 bam2 refs d color = .error Fatal.refOutOfRange) := by
  refine ⟨fun hin => ?_, PrintPairedBed12_refOutOfRange bam1 bam2 refs d color⟩
  obtain ⟨b, hb, hs, he, _, _, h5, h6⟩ :=
    PrintPairedBed12_lists bam1 bam2 refs d color hin hv1 hv2 hle hno
  obtain ⟨b2, hb2, _, _, ht⟩ :=
    PrintPairedBed12_table bam1 bam2 refs d color hin hv1 hv2 hle hno
  have hbb : b2 = b := by
    rw [hb] at hb2
    injection hb2 with h
    exact h.symm
  subst hbb
  obtain ⟨x, hx, hxsum⟩ := blocksFrom_getLast d bam2.CigarData
    (bam2.Position - bam1.Position).toNat 0 (bam2.Position - bam1.Position).toNat (by omega)
  have hlast : (blockTable b2).getLast? = some (Prod.map Int.ofNat Int.ofNat x) := by
    rw [ht, List.getLast?_map, List.getLast?_append, hx]
    rfl
  have hlen : b2.blockStarts.length = b2.blockLengths.length := by
    rw [h5, h6]
    simp [startsFrom_length, lengthsFrom_length]
    omega
  have hfst : b2.blockStarts.getLast? = some (Int.ofNat x.1) := by
    have h := List.map_fst_zip b2.blockStarts b2.blockLengths (by omega)
    rw [← h, List.getLast?_map]
    unfold blockTable at hlast
    rw [hlast]
    rfl
  have hsnd : b2.blockLengths.getLast? = some (Int.ofNat x.2) := by
    have h := List.map_snd_zip b2.blockStarts b2.blockLengths (by omega)
    rw [← h, List.getLast?_map]
    unfold blockTable at hlast
    rw [hlast]
    rfl
  refine ⟨b2, Int.ofNat x.1, Int.ofNat x.2, hb, ?_, hfst, hsnd, ?_⟩
  · rw [h5]; rfl
  · rw [hs, he]
    simp only [Int.ofNat_eq_coe]
    obtain ⟨hlo, hoff, hend, hend1, hr1⟩ := hno
    omega

/-- Witness of C20: mates at 100 (`30M 5N 15M`) and 160 (`40M 10D 10M`) under
`delAsBlock`: the last block starts at 110 with length 10 and the interval is
`[100, 220]`. -/
theorem C20_first_and_last_block_witness :
    noOverflow32 (mkMate "r" 100 30 false [⟨'M', 30⟩, ⟨'N', 5⟩, ⟨'M', 15⟩])
      (mkMate "r" 160 30 true [⟨'M', 40⟩, ⟨'D', 10⟩, ⟨'M', 10⟩]) ∧
    ∃ b lastStart lastLength,
      PrintPairedBed12 (mkMate "r" 100 30 false [⟨'M', 30⟩, ⟨'N', 5⟩, ⟨'M', 15⟩])
        (mkMate "r" 160 30 true [⟨'M', 40⟩, ⟨'D', 10⟩, ⟨'M', 10⟩]) refsChr1 true "255,0,0" = .ok b ∧
      b.blockStarts.head? = some 0 ∧
      b.blockStarts.getLast? = some lastStart ∧
      b.blockLengths.getLast? = some lastLength ∧
      lastStart + lastLength = b.alignmentEnd - b.alignmentStart :=
  ⟨by unfold noOverflow32; decide,
   (C20_first_and_last_block (mkMate "r" 100 30 false [⟨'M', 30⟩, ⟨'N', 5⟩, ⟨'M', 15⟩])
     (mkMate "r" 160 30 true [⟨'M', 40⟩, ⟨'D', 10⟩, ⟨'M', 10⟩]) refsChr1 true "255,0,0"
     (by decide) (by decide) (by decide) (by unfold noOverflow32; decide)).1 (by decide)⟩

theorem readFrom_eq (v : List Int) :
    ∀ n b, b + n ≤ v.length → readFrom v b n = some ((v.drop b).take n) := by
  intro n
  induction n with
  | zero => intro b _; simp [readFrom]
  | succ n ih =>
    intro b hb
    have hlt : b < v.length := by omega
    have hget : v.get? b = some v[b] := by simp [hlt]
    have hrec := ih (b + 1) (by omega)
    have hdrop : v.drop b = v[b] :: v.drop (b + 1) := List.drop_eq_getElem_cons hlt
    simp only [readFrom, hget, hrec, hdrop, List.take_succ_cons]

theorem printCommaList_of_ne_nil (v : List Int) (h : v ≠ []) : printCommaList v = some v := by
  have hpos : 0 < v.length := List.length_pos.2 h
  have hne : ¬ v.length = 0 := by omega
  obtain ⟨x, hx⟩ : ∃ x, v.getLast? = some x := by
    cases hv : v.getLast? with
    | none => exact absurd (List.getLast?_eq_none_iff.1 hv) h
    | some x => exact ⟨x, rfl⟩
  have hget : v.get? (v.length - 1) = some x := by
    rw [List.get?_eq_getElem?, ← List.getLast?_eq_getElem?]; exact hx
  have hread := readFrom_eq v (v.length - 1) 0 (by omega)
  unfold printCommaList
  rw [if_neg hne, hread, hget]
  simp only [List.drop_zero, ← List.dropLast_eq_take]
  rw [List.dropLast_append_getLast? x (by rw [hx]; exact rfl)]

/-- C19: for every pair with valid operation lists and either policy value, the
block-start list and the block-length list built by `PrintPairedBed12` have the
same number of entries, at least 2, namely 2 plus the number of block-closing ops
(N, and D under `delAsBlock`) of the two mates together; the printed block count
is that number converted to `int` (the number itself below `2^31`); and the two
printing loops with their final reads stay in range and print both lists in
full. The lists are built whenever `bam1.RefID` names an entry of the reference
table; otherwise the chromosome lookup throws before they are built. -/
theorem C19_block_count (bam1 bam2 : BamAlignment) (refs : List String) (d : Bool)
    (color : String) (hv1 : validCigar bam1.CigarData) (hv2 : validCigar bam2.CigarData) :
    (inRefTable refs bam1.RefID →
      ∃ b, PrintPairedBed12 bam1 bam2 refs d color = .ok b ∧
        b.blockStarts.length = b.blockLengths.length ∧
        2 ≤ b.blockStarts.length ∧
        b.blockStarts.length =
          2 + (kindCount 'N' bam1.CigarData +
              (if d = true then kindCount 'D' bam1.CigarData else 0))
            + (kindCount 'N' bam2.CigarData +
              (if d = true then kindCount 'D' bam2.CigarData else 0)) ∧
        b.blockCount = toInt32 b.blockStarts.length ∧
        (b.blockStarts.length < 2147483648 → b.blockCount = (b.blockStarts.length : Int)) ∧
        printCommaList b.blockLengths = some b.blockLengths ∧
        printCommaList b.blockStarts = some b.blockStarts) ∧
    (¬ inRefTable refs bam1.RefID →
      PrintPairedBed12 bam1 bam2 refs d color = .error Fatal.refOutOfRange) := by
  refine ⟨fun hin => ?_, PrintPairedBed12_refOutOfRange bam1 bam2 refs d color⟩
  obtain ⟨chrom, hchrom⟩ := refsAt_of_inRefTable hin
  refine ⟨_, PrintPairedBed12_ok bam1 bam2 refs d color chrom hchrom hv1 hv2, ?_, ?_, ?_, rfl,
    ?_, ?_, ?_⟩
  · simp [startsFrom_length, lengthsFrom_length]
    omega
  · simp
    omega
  · simp [startsFrom_length, closesBlock_countP]
    omega
  · intro hlt
    exact toInt32_of_lt hlt
  · apply printCommaList_of_ne_nil
    intro hnil
    have := congrArg List.length hnil
    simp [lengthsFrom_length] at this
  · apply printCommaList_of_ne_nil
    simp

/-- Witness of C19: mates `30M 5N 15M` and `40M 10D 10M` under `delAsBlock`: four
blocks. -/
theorem C19_block_count_witness :
    ∃ b, PrintPairedBed12 (mkMate "r" 100 30 false [⟨'M', 30⟩, ⟨'N', 5⟩, ⟨'M', 15⟩])
        (mkMate "r" 160 30 true [⟨'M', 40⟩, ⟨'D', 10⟩, ⟨'M', 10⟩]) refsChr1 true "255,0,0" = .ok b ∧
      b.blockStarts.length = b.blockLengths.length ∧
      2 ≤ b.blockStarts.length ∧
      b.blockStarts.length = 2 + (1 + 0) + (0 + 1) ∧
      b.blockCount = 4 ∧
      printCommaList b.blockLengths = some b.blockLengths ∧
      printCommaList b.blockStarts = some b.blockStarts :=
  match (C19_block_count (mkMate "r" 100 30 false [⟨'M', 30⟩, ⟨'N', 5⟩, ⟨'M', 15⟩])
      (mkMate "r" 160 30 true [⟨'M', 40⟩, ⟨'D', 10⟩, ⟨'M', 10⟩]) refsChr1 true "255,0,0"
      (by decide) (by decide)).1 (by decide) with
  | ⟨b, hb, h1, h2, h3, h4, h5, h6, h7⟩ =>
    ⟨b, hb, h1, h2, h3, by rw [h5 (by rw [h3]; decide), h3]; rfl, h6, h7⟩

/-! ## Ordering of a completed pair, strand, trailing block -/

theorem processRecord_found_action (cfg : Config) (s s1 : ConvertState) (bam buffered : BamAlignment)
    (a : Action) (hp : bam.IsProperPair = true)
    (hf : bufferFind bam.Name s.bamBuffer = some buffered)
    (hstep : processRecord cfg s bam = .ok (s1, a)) :
    (a = Action.Emit (orderPair bam buffered).1 (orderPair bam buffered).2
        (aggregateQuality bam buffered) ∧
      ∃ line, PrintPairedBed12 (orderPair bam buffered).1 (orderPair bam buffered).2 cfg.refs
          cfg.delAsBlock cfg.color = .ok line ∧ s1.bedOut = s.bedOut ++ [line]) ∨
    (a = Action.DivertedBelowQuality (orderPair bam buffered).1 (orderPair bam buffered).2 ∧
      s1.bedOut = s.bedOut) := by
  by_cases hq : aggregateQuality bam buffered < cfg.minMapQuality
  · rw [processRecord_below cfg s bam buffered hp hf hq] at hstep
    injection hstep with h1
    injection h1 with h2 h3
    refine Or.inr ⟨h3.symm, ?_⟩
    rw [← h2]
    exact (flushBuffer_fields cfg bam.Name _).1
  · have hge : aggregateQuality bam buffered ≥ cfg.minMapQuality := by omega
    cases hl : PrintPairedBed12 (orderPair bam buffered).1 (orderPair bam buffered).2 cfg.refs
        cfg.delAsBlock cfg.color with
    | error err =>
      rw [processRecord_invalid cfg s bam buffered err hp hf hge hl] at hstep
      cases hstep
    | ok line =>
      rw [processRecord_emit cfg s bam buffered line hp hf hge hl] at hstep
      injection hstep with h1
      injection h1 with h2 h3
      refine Or.inl ⟨h3.symm, line, rfl, ?_⟩
      rw [← h2]
      exact (flushBuffer_fields cfg bam.Name _).1

/-- C13: for every completed pair, the two records handed on as `(bam1, bam2)`
are the buffered record and the incoming record, in one of the two orders, with
`bam1.Position <= bam2.Position` and the buffered record first on a tie; for
`int32` positions the offset `bam2.Position - bam1.Position` converted to
`unsigned int` is the true, non-negative difference. -/
theorem C13_ordered_pair (cfg : Config) (s : ConvertState) (bam buffered : BamAlignment)
    (hp : bam.IsProperPair = true) (hf : bufferFind bam.Name s.bamBuffer = some buffered)
    (hr1 : -2147483648 ≤ bam.Position ∧ bam.Position < 2147483648)
    (hr2 : -2147483648 ≤ buffered.Position ∧ buffered.Position < 2147483648) :
    (orderPair bam buffered = (buffered, bam) ∨ orderPair bam buffered = (bam, buffered)) ∧
    (orderPair bam buffered).1.Position ≤ (orderPair bam buffered).2.Position ∧
    (bam.Position = buffered.Position → orderPair bam buffered = (buffered, bam)) ∧
    (∀ s1 a, processRecord cfg s bam = .ok (s1, a) →
      (a = Action.Emit (orderPair bam buffered).1 (orderPair bam buffered).2
          (aggregateQuality bam buffered) ∧
        ∃ line, PrintPairedBed12 (orderPair bam buffered).1 (orderPair bam buffered).2 cfg.refs
            cfg.delAsBlock cfg.color = .ok line ∧ s1.bedOut = s.bedOut ++ [line]) ∨
      (a = Action.DivertedBelowQuality (orderPair bam buffered).1 (orderPair bam buffered).2 ∧
        s1.bedOut = s.bedOut)) ∧
    0 ≤ (orderPair bam buffered).2.Position - (orderPair bam buffered).1.Position ∧
    (toU32 ((orderPair bam buffered).2.Position - (orderPair bam buffered).1.Position) : Int)
      = (orderPair bam buffered).2.Position - (orderPair bam buffered).1.Position := by
  have hord : (orderPair bam buffered).1.Position ≤ (orderPair bam buffered).2.Position := by
    unfold orderPair
    split
    · simp; omega
    · simp; omega
  have hrange : (orderPair bam buffered).2.Position - (orderPair bam buffered).1.Position
      < 4294967296 := by
    rcases orderPair_cases bam buffered with h | h <;> rw [h] <;> simp <;> omega
  refine ⟨?_, hord, ?_, ?_, by omega, ?_⟩
  · rcases orderPair_cases bam buffered with h | h
    · exact Or.inr h
    · exact Or.inl h
  · intro htie
    unfold orderPair
    rw [if_neg (by omega)]
  · intro s1 a hstep
    exact processRecord_found_action cfg s s1 bam buffered a hp hf hstep
  · exact toU32_of_nonneg (by omega) hrange

/-- Witness of C13: the buffered mate and the incoming mate are both at position
100; the buffered one is `bam1`. -/
theorem C13_ordered_pair_witness :
    orderPair (mkMate "r" 100 30 false [⟨'M', 50⟩]) (mkMate "r" 100 20 true [⟨'M', 40⟩])
      = (mkMate "r" 100 20 true [⟨'M', 40⟩], mkMate "r" 100 30 false [⟨'M', 50⟩]) :=
  (C13_ordered_pair (cfgOf false 0) (stateWith (mkMate "r" 100 20 true [⟨'M', 40⟩]))
    (mkMate "r" 100 30 false [⟨'M', 50⟩]) (mkMate "r" 100 20 true [⟨'M', 40⟩]) rfl rfl
    ⟨by decide, by decide⟩ ⟨by decide, by decide⟩).2.2.1 rfl

theorem PrintPairedBed12_strand (bam1 bam2 : BamAlignment) (refs : List String) (d : Bool)
    (color : String) (b : Bed12) (h : PrintPairedBed12 bam1 bam2 refs d color = .ok b) :
    b.strand =
      (if bam1.IsFirstMate = true then (if bam1.IsReverseStrand = true then "-" else "+")
       else (if bam2.IsReverseStrand = true then "-" else "+")) := by
  obtain ⟨hin, hv1, hv2⟩ := (PrintPairedBed12_isOk_iff bam1 bam2 refs d color).1 ⟨b, h⟩
  obtain ⟨chrom, hchrom⟩ := refsAt_of_inRefTable hin
  rw [PrintPairedBed12_ok bam1 bam2 refs d color chrom hchrom hv1 hv2] at h
  injection h with h1
  rw [← h1]

/-- C16: for every emitted pair the strand is read off `bam1` when `bam1` is
flagged first mate and off `bam2` otherwise: in the first case it is `-` exactly
when `bam1` is on the reverse strand, in the second exactly when `bam2` is, and it
is `+` in every other case; the reverse flag of the other record has no effect. A
pair is emitted exactly when `bam1.RefID` names an entry of the reference table
and both operation lists are valid. -/
theorem C16_strand (bam1 bam2 : BamAlignment) (refs : List String) (d : Bool) (color : String) :
    (∀ b, PrintPairedBed12 bam1 bam2 refs d color = .ok b →
      (bam1.IsFirstMate = true → (b.strand = "-" ↔ bam1.IsReverseStrand = true)) ∧
      (bam1.IsFirstMate = false → (b.strand = "-" ↔ bam2.IsReverseStrand = true)) ∧
      (b.strand ≠ "-" → b.strand = "+") ∧
      (bam1.IsFirstMate = false → ∀ r b1,
        PrintPairedBed12 { bam1 with IsReverseStrand := r } bam2 refs d color = .ok b1 →
        b1.strand = b.strand) ∧
      (bam1.IsFirstMate = true → ∀ r b2,
        PrintPairedBed12 bam1 { bam2 with IsReverseStrand := r } refs d color = .ok b2 →
        b2.strand = b.strand)) ∧
    ((∃ b, PrintPairedBed12 bam1 bam2 refs d color = .ok b) ↔
      (inRefTable refs bam1.RefID ∧ validCigar bam1.CigarData ∧ validCigar bam2.CigarData)) := by
  constructor
  · intro b hb
    have hs := PrintPairedBed12_strand bam1 bam2 refs d color b hb
    refine ⟨?_, ?_, ?_, ?_, ?_⟩
    · intro hfm
      rw [hs, if_pos hfm]
      by_cases hr : bam1.IsReverseStrand = true <;> simp [hr]
    · intro hfm
      rw [hs, if_neg (by simp [hfm])]
      by_cases hr : bam2.IsReverseStrand = true <;> simp [hr]
    · rw [hs]
      by_cases hfm : bam1.IsFirstMate = true
      · by_cases hr : bam1.IsReverseStrand = true <;> simp [hfm, hr]
      · by_cases hr : bam2.IsReverseStrand = true <;> simp [hfm, hr]
    · intro hfm r b1 hb1
      have hs1 := PrintPairedBed12_strand _ _ refs d color b1 hb1
      rw [hs, hs1]
      simp [hfm]
    · intro hfm r b2 hb2
      have hs2 := PrintPairedBed12_strand _ _ refs d color b2 hb2
      rw [hs, hs2]
      simp [hfm]
  · exact PrintPairedBed12_isOk_iff bam1 bam2 refs d color

/-- Witness of C16: `bam1` is the second mate of the template and `bam2`, on the
reverse strand, the first: the strand is `-`. -/
theorem C16_strand_witness :
    ∃ b, PrintPairedBed12 (mkMate "r" 100 30 false [⟨'M', 50⟩])
        { mkMate "r" 150 30 true [⟨'M', 50⟩] with IsReverseStrand := true }
        refsChr1 false "255,0,0" = .ok b ∧ b.strand = "-" :=
  match PrintPairedBed12_ok (mkMate "r" 100 30 false [⟨'M', 50⟩])
      { mkMate "r" 150 30 true [⟨'M', 50⟩] with IsReverseStrand := true }
      refsChr1 false "255,0,0" "chr1" rfl (by decide) (by decide) with
  | hb =>
    ⟨_, hb,
      (((C16_strand (mkMate "r" 100 30 false [⟨'M', 50⟩])
        { mkMate "r" 150 30 true [⟨'M', 50⟩] with IsReverseStrand := true }
        refsChr1 false "255,0,0").1 _ hb).2.1 rfl).2 rfl⟩

theorem cigarLoop_append (d : Bool) (l1 l2 : List CigarOp) :
    ∀ s, cigarLoop d (l1 ++ l2) s =
      match cigarLoop d l1 s with
      | .error e => .error e
      | .ok s1 => cigarLoop d l2 s1 := by
  induction l1 with
  | nil => intro s; rfl
  | cons op rest ih =>
    intro s
    show cigarLoop d (op :: (rest ++ l2)) s = _
    simp only [cigarLoop]
    cases cigarSwitch d s op with
    | error e => rfl
    | ok s1 => exact ih s1

/-- Counterexample to C17 as stated: on the valid list `1N` from cursor `2^31` the
last block start appended is `-2147483647` while the end cursor is `2147483649`;
on sixteen `N` of `2^27` bases from cursor 0 the last block start is `-2^31` while
the end cursor is `2^31`. The last block length is 0 in both. -/
theorem C17_counterexample :
    validCigar [(⟨'N', 1⟩ : CigarOp)] ∧
    ([(⟨'N', 1⟩ : CigarOp)].getLast?.map (fun op => op.OpType)) = some 'N' ∧
    (∃ r, ParseCigarBed12 [⟨'N', 1⟩] false 2147483648 [] [] = .ok r ∧
      r.blockLengths.getLast? = some 0 ∧
      r.blockStarts.getLast? = some (-2147483647) ∧ r.alignmentEnd = 2147483649) ∧
    validCigar (List.replicate 16 (⟨'N', 134217728⟩ : CigarOp)) ∧
    ((List.replicate 16 (⟨'N', 134217728⟩ : CigarOp)).getLast?.map (fun op => op.OpType))
      = some 'N' ∧
    (∃ r, ParseCigarBed12 (List.replicate 16 ⟨'N', 134217728⟩) false 0 [] [] = .ok r ∧
      r.blockLengths.getLast? = some 0 ∧
      r.blockStarts.getLast? = some (-2147483648) ∧ r.alignmentEnd = 2147483648) := by
  refine ⟨by decide, rfl, ⟨_, rfl, rfl, rfl, rfl⟩, by decide, rfl, ⟨_, rfl, rfl, rfl, rfl⟩⟩

/-- C17, amended: for every valid operation list whose last operation is a
reference skip (N), or a deletion (D) with `delAsBlock` true, `ParseCigarBed12`
keeps the trailing empty block: the last block length it appends is 0 and it
appends one more length than starts; the last block start it appends, an `int`,
is the end cursor, an `unsigned int`, converted to `int`, so it equals the end
cursor if and only if the end cursor is below `2^31` (no 32-bit overflow). -/
theorem C17_trailing_empty_block (ops : List CigarOp) (h : validCigar ops) (d : Bool) (c : Nat)
    (bs bl : List Int)
    (hlast : ∃ op, ops.getLast? = some op ∧
      (op.OpType = 'N' ∨ (op.OpType = 'D' ∧ d = true))) :
    ∃ r newStarts newLengths lastStart, ParseCigarBed12 ops d c bs bl = .ok r ∧
      r.blockStarts = bs ++ newStarts ∧ r.blockLengths = bl ++ newLengths ∧
      newLengths.getLast? = some 0 ∧
      newStarts.getLast? = some lastStart ∧
      lastStart = toInt32 r.alignmentEnd ∧ toU32 lastStart = r.alignmentEnd ∧
      (lastStart = (r.alignmentEnd : Int) ↔ r.alignmentEnd < 2147483648) ∧
      newLengths.length = newStarts.length + 1 := by
  obtain ⟨op, hop, hkind⟩ := hlast
  have hsplit : ops.dropLast ++ [op] = ops :=
    List.dropLast_append_getLast? op (by rw [hop]; exact rfl)
  have hcl : closesBlock d op = true := by
    rcases hkind with hN | ⟨hD, hd⟩
    · simp [closesBlock, hN]
    · simp [closesBlock, hD, hd]
  have hvinit : validCigar ops.dropLast := fun o ho => h o (List.mem_of_mem_dropLast ho)
  have hvop : validKind op.OpType = true := h op (by rw [← hsplit]; simp)
  obtain ⟨s1, ns, nl, e, e1, e2, e3, e4⟩ := cigarLoop_counts d ops.dropLast hvinit ⟨c, bs, bl, 0⟩
  have hsw : cigarSwitch d s1 op = .ok (closeBlock s1 op.Length) := by
    rcases cigarSwitch_of_valid d s1 op hvop with ⟨_, h1⟩ | ⟨h2, _⟩
    · exact h1
    · rw [hcl] at h2; cases h2
  have hloop : cigarLoop d ops ⟨c, bs, bl, 0⟩ = .ok (closeBlock s1 op.Length) := by
    rw [← hsplit, cigarLoop_append, e]
    simp only [cigarLoop, hsw]
  have hmod : (s1.currStart + op.Length) % 4294967296 < 4294967296 := Nat.mod_lt _ (by decide)
  refine ⟨⟨wrap32 (s1.currStart + op.Length), bs ++ (ns ++ [toInt32 (s1.currStart + op.Length)]),
      bl ++ (nl ++ [s1.blockLength, 0]), wrap32 (s1.currStart + op.Length)⟩,
    ns ++ [toInt32 (s1.currStart + op.Length)], nl ++ [s1.blockLength, 0],
    toInt32 (s1.currStart + op.Length), ?_, rfl, rfl, ?_, ?_, ?_, ?_, ?_, ?_⟩
  · simp only [ParseCigarBed12, hloop, closeBlock, e1, e2]
    simp
  · simp
  · simp
  · show toInt32 (s1.currStart + op.Length) = toInt32 (wrap32 (s1.currStart + op.Length))
    unfold toInt32 wrap32
    simp
  · show toU32 (toInt32 (s1.currStart + op.Length)) = wrap32 (s1.currStart + op.Length)
    rw [toU32_toInt32]
    rfl
  · show toInt32 (s1.currStart + op.Length) = ((wrap32 (s1.currStart + op.Length) : Nat) : Int) ↔
      wrap32 (s1.currStart + op.Length) < 2147483648
    unfold wrap32 toInt32
    split <;> omega
  · simp [e3, e4]

/-- Witness of C17: `50M 10N` from cursor 7: the appended lengths are `[50, 0]`,
the appended start is 67 and the end cursor is 67. -/
theorem C17_trailing_empty_block_witness :
    ∃ r newStarts newLengths lastStart,
      ParseCigarBed12 [⟨'M', 50⟩, ⟨'N', 10⟩] false 7 [7] [] = .ok r ∧
      r.blockStarts = [7] ++ newStarts ∧ r.blockLengths = [] ++ newLengths ∧
      newLengths.getLast? = some 0 ∧
      newStarts.getLast? = some lastStart ∧
      lastStart = toInt32 r.alignmentEnd ∧ toU32 lastStart = r.alignmentEnd ∧
      (lastStart = (r.alignmentEnd : Int) ↔ r.alignmentEnd < 2147483648) ∧
      newLengths.length = newStarts.length + 1 :=
  C17_trailing_empty_block [⟨'M', 50⟩, ⟨'N', 10⟩] (by decide) false 7 [7] []
    ⟨⟨'N', 10⟩, rfl, Or.inl rfl⟩

/-! ## Counters and summary -/

theorem processRecord_notPairedInName (cfg : Config) (s s1 : ConvertState) (bam : BamAlignment)
    (a : Action) (hstep : processRecord cfg s bam = .ok (s1, a)) :
    s1.notPairedInNameBam = s.notPairedInNameBam +
      (if cfg.trackUnprocessed = true then residueAt s bam else 0) := by
  by_cases hp : bam.IsProperPair = true
  · cases hfd : bufferFind bam.Name s.bamBuffer with
    | none =>
      rw [processRecord_absent cfg s bam hp hfd] at hstep
      split at hstep
      · cases hstep
      · injection hstep with h1
        injection h1 with h2 _
        rw [← h2]
        simp [residueAt, hp, hfd]
    | some e =>
      have hres : residueAt s bam = (bufferErase bam.Name s.bamBuffer).length := by
        simp [residueAt, hp, hfd]
      by_cases hq : aggregateQuality bam e < cfg.minMapQuality
      · rw [processRecord_below cfg s bam e hp hfd hq] at hstep
        injection hstep with h1
        injection h1 with h2 _
        rw [← h2, (flushBuffer_fields cfg bam.Name _).2.2.2.2.2, hres]
        by_cases ht : cfg.trackUnprocessed = true <;> simp [ht]
      · have hge : aggregateQuality bam e ≥ cfg.minMapQuality := by omega
        cases hl : PrintPairedBed12 (orderPair bam e).1 (orderPair bam e).2 cfg.refs
            cfg.delAsBlock cfg.color with
        | error err =>
          rw [processRecord_invalid cfg s bam e err hp hfd hge hl] at hstep
          cases hstep
        | ok line =>
          rw [processRecord_emit cfg s bam e line hp hfd hge hl] at hstep
          injection hstep with h1
          injection h1 with h2 _
          rw [← h2, (flushBuffer_fields cfg bam.Name _).2.2.2.2.2, hres]
          by_cases ht : cfg.trackUnprocessed = true <;> simp [ht]
  · have hres : residueAt s bam = 0 := by simp [residueAt, hp]
    unfold processRecord at hstep
    simp only [hp] at hstep
    injection hstep with h1
    injection h1 with h2 _
    rw [← h2, hres]
    simp

theorem convertLoop_notPairedInName (cfg : Config) (stream : List BamAlignment) :
    ∀ (s s1 : ConvertState) (acts : List Action),
      convertLoop cfg s stream = .ok (s1, acts) →
      s1.notPairedInNameBam = s.notPairedInNameBam +
        (if cfg.trackUnprocessed = true then residueDropped cfg s stream else 0) := by
  induction stream with
  | nil =>
    intro s s1 acts h
    simp only [convertLoop] at h
    injection h with h1
    injection h1 with h2 _
    rw [← h2]
    simp [residueDropped]
  | cons x rest ih =>
    intro s s1 acts h
    rw [convertLoop_cons] at h
    cases hstep : processRecord cfg s x with
    | error e => rw [hstep] at h; cases h
    | ok v =>
      obtain ⟨t, a⟩ := v
      simp only [hstep] at h
      cases hrest : convertLoop cfg t rest with
      | error e => simp only [hrest] at h; cases h
      | ok w =>
        obtain ⟨t2, acts2⟩ := w
        simp only [hrest] at h
        injection h with h1
        injection h1 with h2 _
        have e1 := processRecord_notPairedInName cfg s t x a hstep
        have e2 := ih t t2 acts2 hrest
        rw [← h2, e2, e1]
        simp only [residueDropped, hstep]
        by_cases ht : cfg.trackUnprocessed = true <;> simp [ht]
        omega

/-- C14, the code at the failing input: `a`, then the two mates of `r`. One
record (`a`) is resident and dropped when the pair resolves. With the diversion
output enabled the run ends with `notPairedInNameBam = 1`; with it disabled the
run ends with `notPairedInNameBam = 0`, and in general the count at the end of a
run is the number of dropped residents only when the diversion output is
enabled and stays 0 otherwise. -/
theorem C14_residue_counted_only_when_tracking :
    residueDropped (cfgOf false 0) ConvertState.init residueStream = 1 ∧
    (convertLoop (cfgOf false 0) ConvertState.init residueStream).toOption.map
      (fun r => (r.1.notPairedInNameBam, r.1.bamBuffer)) = some (0, []) ∧
    (convertLoop (cfgOf true 0) ConvertState.init residueStream).toOption.map
      (fun r => (r.1.notPairedInNameBam, r.1.bamBuffer)) = some (1, []) ∧
    (∀ (cfg : Config) (stream : List BamAlignment) (s1 : ConvertState) (acts : List Action),
      convertLoop cfg ConvertState.init stream = .ok (s1, acts) →
      s1.notPairedInNameBam =
        (if cfg.trackUnprocessed = true then residueDropped cfg ConvertState.init stream else 0)) := by
  refine ⟨rfl, rfl, rfl, ?_⟩
  intro cfg stream s1 acts h
  have := convertLoop_notPairedInName cfg stream ConvertState.init s1 acts h
  rw [this]
  simp [ConvertState.init]

theorem computeSummary_isSome_iff (s : ConvertState) :
    (∃ summary, computeSummary s = some summary) ↔
      0 < s.notHasMinMapQualityBED12 + s.ProcessedBED12 := by
  by_cases h2 : s.notHasMinMapQualityBED12 + s.ProcessedBED12 = 0
  · constructor
    · rintro ⟨summary, hs⟩
      unfold computeSummary intDiv at hs
      by_cases h1 : s.notInProperPairBam + s.notPairedInNameBam +
          2 * s.notHasMinMapQualityBED12 + 2 * s.ProcessedBED12 = 0
      · simp only [Nat.cast_eq_zero, h1, if_true] at hs
        cases hs
      · simp only [Nat.cast_eq_zero, h1, h2, if_true, if_false] at hs
        cases hs
    · intro hlt
      omega
  · have h1 : ¬ s.notInProperPairBam + s.notPairedInNameBam +
        2 * s.notHasMinMapQualityBED12 + 2 * s.ProcessedBED12 = 0 := by omega
    constructor
    · intro _
      omega
    · intro _
      unfold computeSummary intDiv
      simp only [Nat.cast_eq_zero, h1, h2, if_false]
      exact ⟨_, rfl⟩

/-- C15, the code at the failing inputs: with the summary enabled, the empty
stream, a stream with no properly paired record and a stream in which no pair
completes all end in a division by zero (`bamTot = 0` for the first, `Bed12Tot = 0`
for all three); in general the summary is computed exactly when at least one
pair has completed, and with the summary disabled the same runs return
normally. -/
theorem C15_summary_divides_by_zero :
    ConvertPairedBamToBed12 (cfgOf false 0) true [] = RunResult.divisionByZero ConvertState.init ∧
    (∃ s, ConvertPairedBamToBed12 (cfgOf false 0) true
        [{ mkMate "x" 120 30 true [⟨'M', 50⟩] with IsProperPair := false }]
      = RunResult.divisionByZero s ∧ s.notInProperPairBam = 1) ∧
    (∃ s, ConvertPairedBamToBed12 (cfgOf false 0) true
        [mkMate "a" 10 30 true [⟨'M', 50⟩], mkMate "b" 100 30 true [⟨'M', 50⟩]]
      = RunResult.divisionByZero s ∧ s.bamBuffer.length = 2) ∧
    ConvertPairedBamToBed12 (cfgOf false 0) false [] = RunResult.finished ConvertState.init none ∧
    (∀ s : ConvertState, (∃ summary, computeSummary s = some summary) ↔
      0 < s.notHasMinMapQualityBED12 + s.ProcessedBED12) := by
  refine ⟨rfl, ⟨_, rfl, rfl⟩, ⟨_, rfl, rfl⟩, rfl, computeSummary_isSome_iff⟩

end PairedBamToBed12
